import Mathlib

/-!
Legion operation lifecycle: dependence registration, predicates, rendezvous.

A shallow embedding of `runtime/legion/legion_ops.h`.

The header defines the data layout of `Operation`, `PredicateImpl`,
`PredicatedOp` and `CollectiveViewCreatorBase`, and the inline bodies of the
rendezvous key comparisons and of the dependence trackers.  Those are embedded
from the header.  The bodies of the out-of-line member functions live in
`legion_ops.cc`; each of them that is needed here is modelled from the
specification, and its doc comment says so.

Machine integers (`unsigned`, `size_t`, `GenerationID`) are natural numbers.
The embedded code compares them and increments a generation, where no
wrap-around is involved; the arrival counter, a `size_t`, is decremented modulo
`2 ^ 64`.  Pointers (`Operation*`, `PredicateWaiter*`, output pointers) are slot
identifiers, natural numbers too.
-/

namespace Legion

/-! ## Rendezvous keys (embedded from the header) -/

/-- The struct `CollectiveViewCreatorBase::RendezvousKey`. -/
structure RendezvousKey where
  region_index : Nat
  analysis : Nat
  deriving DecidableEq, Repr

/-- The body of `RendezvousKey::operator<`, statement by statement. -/
def RendezvousKey.lt (self rhs : RendezvousKey) : Bool :=
  if self.region_index < rhs.region_index then true
  else if self.region_index > rhs.region_index then false
  else decide (self.analysis < rhs.analysis)

/-- The body of `RendezvousKey::operator==`, statement by statement. -/
def RendezvousKey.eq (self rhs : RendezvousKey) : Bool :=
  if self.region_index ≠ rhs.region_index then false
  else decide (self.analysis = rhs.analysis)

/-! ## Containers and handles -/

/-- A `GenerationID`: the counter that tells apart the successive uses of one
operation object. -/
abbrev GenerationID := Nat

/-- An `Operation*`: the identity of an operation object (its slot). -/
abbrev OpId := Nat

/-- An `RtEvent`: the identity of a runtime event. -/
abbrev RtEvent := Nat

/-- The call `s.insert(x)` of a `std::set`, the set being kept as an increasing
list without repetition. -/
def set_insert (x : Nat) : List Nat → List Nat
  | [] => [x]
  | y :: ys =>
    if x < y then x :: y :: ys
    else if x = y then y :: ys
    else y :: set_insert x ys

/-- The assignment `m[k] = v` of a `std::map`, the map being kept as a list of
entries in increasing key order. -/
def map_assign {β : Type} (k : Nat) (v : β) : List (Nat × β) → List (Nat × β)
  | [] => [(k, v)]
  | (k1, v1) :: m =>
    if k < k1 then (k, v) :: (k1, v1) :: m
    else if k = k1 then (k, v) :: m
    else (k1, v1) :: map_assign k v m

/-- The lookup `m.find(k)` of a `std::map`. -/
def map_find {β : Type} (k : Nat) (m : List (Nat × β)) : Option β :=
  (m.find? (fun e => e.1 == k)).map Prod.snd

/-- The keys of a map are in increasing order. -/
def keys_increasing {β : Type} (m : List (Nat × β)) : Prop :=
  List.Pairwise (fun a b => a.1 < b.1) m

/-- The class `Operation::MappingDependenceTracker`: a `std::set<RtEvent>`. -/
structure MappingDependenceTracker where
  mapping_dependences : List RtEvent
  deriving DecidableEq, Repr

/-- The inline body of `MappingDependenceTracker::add_mapping_dependence`. -/
def MappingDependenceTracker.add_mapping_dependence
    (self : MappingDependenceTracker) (dependence : RtEvent) : MappingDependenceTracker :=
  { mapping_dependences := set_insert dependence self.mapping_dependences }

/-! ## Operation (fields from the header) -/

/-- The per-generation state of `class Operation` that the dependence and
commit protocol reads and writes; every field is a data member declared in the
header, with the same name. -/
structure Operation where
  gen : GenerationID
  incoming : List (OpId × GenerationID)
  outgoing : List (OpId × GenerationID)
  outstanding_mapping_references : Nat
  verify_regions : List (OpId × List Nat)
  mapped : Bool
  executed : Bool
  completed : Bool
  committed : Bool
  trigger_commit_invoked : Bool
  early_commit_request : Bool
  mapped_event : RtEvent
  mapping_tracker : MappingDependenceTracker
  deriving DecidableEq, Repr

/-- The operation objects of a runtime, by identity. -/
abbrev OpArena := OpId → Operation

/-- Store the operation object `v` at identity `o`. -/
def OpArena.set (σ : OpArena) (o : OpId) (v : Operation) : OpArena :=
  fun i => if i = o then v else σ i

/-- The inline body of `Operation::get_generation`. -/
def Operation.get_generation (self : Operation) : GenerationID := self.gen

/-- Modelled from the spec: the body of `Operation::add_mapping_reference`,
which is not in the header.  The spec has the call fail for a generation that
has been retired, and fail once `outstanding_mapping_references` is zero (at
zero the set of outgoing edges is frozen); otherwise it takes one more
reference.  The result is the returned flag and the operation afterwards. -/
def Operation.add_mapping_reference (self : Operation) (gen : GenerationID) :
    Bool × Operation :=
  if gen < self.gen then (false, self)
  else if self.outstanding_mapping_references = 0 then (false, self)
  else (true, { self with
    outstanding_mapping_references := self.outstanding_mapping_references + 1 })

/-- Modelled from the spec: the body of `Operation::perform_registration`,
which is not in the header.  It runs on the target `target`, asked at the
generation `our_gen`, for the source `op` at generation `op_gen`; the tracker
it is handed is the source's `mapping_tracker`.
  1. the target's generation has passed `our_gen`: pruned, nothing recorded;
  2. else a mapping reference is added on the target for `our_gen`; when that
     fails: pruned, nothing recorded;
  3. else the source is entered in the target's `outgoing` and the target's
     `mapped_event` is added to the source's tracker.
The result is (prune, registered_dependence, the arena afterwards). -/
def perform_registration (σ : OpArena) (target : OpId) (our_gen : GenerationID)
    (op : OpId) (op_gen : GenerationID) : Bool × Bool × OpArena :=
  if our_gen < (σ target).gen then (true, false, σ)
  else
    match (σ target).add_mapping_reference our_gen with
    | (false, _) => (true, false, σ)
    | (true, t1) =>
      let σ1 := σ.set target { t1 with outgoing := map_assign op op_gen t1.outgoing }
      let src := σ1 op
      let σ2 := σ1.set op { src with
        mapping_tracker := src.mapping_tracker.add_mapping_dependence (σ1 target).mapped_event }
      (false, true, σ2)

/-- Modelled from the spec: the body of `Operation::register_dependence`, which
is not in the header.  Called on the source `self`; it hands the registration to
the target and, when a dependence was registered, enters the target in the
source's `incoming`.  The result is the returned flag (true: the dependence can
be pruned) and the arena afterwards. -/
def register_dependence (σ : OpArena) (self : OpId) (target : OpId)
    (target_gen : GenerationID) : Bool × OpArena :=
  match perform_registration σ target target_gen self (σ self).gen with
  | (prune, registered_dependence, σ1) =>
    if registered_dependence then
      let src := σ1 self
      (prune, σ1.set self { src with incoming := map_assign target target_gen src.incoming })
    else (prune, σ1)

/-- Modelled from the spec: the body of `Operation::register_region_dependence`,
which is not in the header: the protocol of `register_dependence`, and when the
dependence was registered and `validates` is set, the region `target_idx` of the
target is entered in the source's `verify_regions`.  The region index `idx`, the
dependence type and the field mask do not change what is recorded. -/
def register_region_dependence (σ : OpArena) (self : OpId) (target : OpId)
    (target_gen : GenerationID) (target_idx : Nat) (validates : Bool) : Bool × OpArena :=
  match register_dependence σ self target target_gen with
  | (prune, σ1) =>
    if !prune && validates then
      let src := σ1 self
      let regions := (map_find target src.verify_regions).getD []
      (prune, σ1.set self { src with
        verify_regions := map_assign target (set_insert target_idx regions) src.verify_regions })
    else (prune, σ1)

/-! ## The pipeline: triggers and the calls that lead to them -/

/-- The two virtual pipeline calls whose invocations are recorded. -/
inductive Trigger where
  | trigger_complete
  | trigger_commit
  deriving DecidableEq, Repr

/-- One invocation of a trigger: which one, on which operation, and the
operation objects as they are when the call is made. -/
structure Invocation where
  kind : Trigger
  op : OpId
  at_call : OpArena

/-- The operation objects together with the record of the triggers invoked so
far, latest first. -/
structure Pipeline where
  ops : OpArena
  invoked : List Invocation

/-- Invoke the trigger `kind` on `o` in the current state. -/
def Pipeline.invoke (p : Pipeline) (kind : Trigger) (o : OpId) : Pipeline :=
  { p with invoked := { kind := kind, op := o, at_call := p.ops } :: p.invoked }

/-- Modelled from the spec: what it is for the consumer `c`, entered in the
outgoing edges of `o` under its generation `g`, to hold a validating dependence
on `o` that has not been pruned (the code that reads `verify_regions` is not in
the header): `c` is still at generation `g` and has regions of `o` to verify. -/
def holds_validating_dependence (σ : OpArena) (c : OpId) (g : GenerationID) (o : OpId) : Bool :=
  decide ((σ c).gen = g) && (map_find o (σ c).verify_regions).isSome

/-- Modelled from the spec: every operation that holds a validating dependence
on `o`, not yet pruned, has committed (the code that decides this is not in the
header). -/
def validators_committed (σ : OpArena) (o : OpId) : Bool :=
  (σ o).outgoing.all (fun e => !(holds_validating_dependence σ e.1 e.2 o) || (σ e.1).committed)

/-- Modelled from the spec: the condition under which `trigger_commit` is
invoked, whose code (in `complete_operation`, `remove_mapping_reference` and
`CommitDependenceTracker::issue_commit_trigger`) is not in the header.
`trigger_commit` has not been invoked in this generation, the operation has
completed, no mapping reference is outstanding (the header's comment on
`completed`), and either an early commit was requested or every operation
holding a validating dependence has committed or been pruned. -/
def commit_ready (σ : OpArena) (o : OpId) : Bool :=
  !(σ o).trigger_commit_invoked && (σ o).completed
    && decide ((σ o).outstanding_mapping_references = 0)
    && ((σ o).early_commit_request || validators_committed σ o)

/-- Modelled from the spec: the decision to invoke `trigger_commit`: when the
condition holds, `trigger_commit_invoked` is set and `trigger_commit` is
invoked. -/
def Pipeline.try_commit (p : Pipeline) (o : OpId) : Pipeline :=
  if commit_ready p.ops o then
    Pipeline.invoke { p with ops := p.ops.set o { p.ops o with trigger_commit_invoked := true } }
      Trigger.trigger_commit o
  else p

/-- Modelled from the spec: the body of `Operation::remove_mapping_reference`,
which is not in the header.  A call for a retired generation does nothing;
otherwise one reference is dropped, and when that was the last one
`trigger_complete` is invoked if execution has been signalled complete, and the
commit decision is taken again. -/
def Pipeline.remove_mapping_reference (p : Pipeline) (o : OpId) (gen : GenerationID) :
    Pipeline :=
  let O := p.ops o
  if gen < O.gen then p
  else if O.outstanding_mapping_references = 0 then p
  else
    let O1 := { O with outstanding_mapping_references := O.outstanding_mapping_references - 1 }
    let p1 := { p with ops := p.ops.set o O1 }
    if O1.outstanding_mapping_references = 0 then
      let p2 := if O1.executed then p1.invoke Trigger.trigger_complete o else p1
      p2.try_commit o
    else p1

/-- Modelled from the spec: the body of `Operation::complete_execution`, which
is not in the header: execution is signalled complete, and `trigger_complete`
is invoked if no mapping reference is outstanding. -/
def Pipeline.complete_execution (p : Pipeline) (o : OpId) : Pipeline :=
  let O1 := { p.ops o with executed := true }
  let p1 := { p with ops := p.ops.set o O1 }
  if O1.outstanding_mapping_references = 0 then p1.invoke Trigger.trigger_complete o else p1

/-- Modelled from the spec: the body of `Operation::complete_operation`, which
is not in the header: the operation is marked completed and the commit decision
is taken. -/
def Pipeline.complete_operation (p : Pipeline) (o : OpId) : Pipeline :=
  Pipeline.try_commit { p with ops := p.ops.set o { p.ops o with completed := true } } o

/-- Modelled from the spec: the body of `Operation::commit_operation`, which is
not in the header: the operation is marked committed. -/
def Pipeline.commit_operation (p : Pipeline) (o : OpId) : Pipeline :=
  { p with ops := p.ops.set o { p.ops o with committed := true } }

/-- Modelled from the spec: the body of `Operation::request_early_commit`,
which is not in the header: the request is recorded. -/
def Pipeline.request_early_commit (p : Pipeline) (o : OpId) : Pipeline :=
  { p with ops := p.ops.set o { p.ops o with early_commit_request := true } }

/-- Modelled from the spec: the body of `Operation::deactivate`, which is pure
virtual in the header: the per-generation fields are cleared and the generation
is incremented. -/
def Operation.deactivate (self : Operation) : Operation :=
  { gen := self.gen + 1
    incoming := []
    outgoing := []
    outstanding_mapping_references := 0
    verify_regions := []
    mapped := false
    executed := false
    completed := false
    committed := false
    trigger_commit_invoked := false
    early_commit_request := false
    mapped_event := self.mapped_event
    mapping_tracker := { mapping_dependences := [] } }

/-- The calls made on the operations of a pipeline. -/
inductive Call where
  | add_mapping_reference (o : OpId) (gen : GenerationID)
  | remove_mapping_reference (o : OpId) (gen : GenerationID)
  | register_dependence (self target : OpId) (target_gen : GenerationID)
  | register_region_dependence (self target : OpId) (target_gen : GenerationID)
      (target_idx : Nat) (validates : Bool)
  | complete_execution (o : OpId)
  | complete_operation (o : OpId)
  | commit_operation (o : OpId)
  | request_early_commit (o : OpId)
  | issue_commit_trigger (o : OpId)
  | deactivate (o : OpId)
  deriving DecidableEq, Repr

/-- Modelled from the spec: the effect of one call on the pipeline, each call
by its modelled body. -/
def Pipeline.step (p : Pipeline) : Call → Pipeline
  | Call.add_mapping_reference o gen =>
    { p with ops := p.ops.set o ((p.ops o).add_mapping_reference gen).2 }
  | Call.remove_mapping_reference o gen => p.remove_mapping_reference o gen
  | Call.register_dependence self target target_gen =>
    { p with ops := (register_dependence p.ops self target target_gen).2 }
  | Call.register_region_dependence self target target_gen target_idx validates =>
    { p with ops :=
        (register_region_dependence p.ops self target target_gen target_idx validates).2 }
  | Call.complete_execution o => p.complete_execution o
  | Call.complete_operation o => p.complete_operation o
  | Call.commit_operation o => p.commit_operation o
  | Call.request_early_commit o => p.request_early_commit o
  | Call.issue_commit_trigger o => p.try_commit o
  | Call.deactivate o => { p with ops := p.ops.set o (p.ops o).deactivate }

/-- The effect of a sequence of calls, in order.  How an operation comes by its
first mapping reference when it is activated is not described by the spec and
is not among the calls: the properties below hold from every starting state,
whatever references its operations hold. -/
def Pipeline.run (p : Pipeline) (calls : List Call) : Pipeline :=
  calls.foldl Pipeline.step p

/-- Every recorded invocation was made in a state that allows it:
`trigger_complete` with execution signalled complete and no mapping reference
outstanding; `trigger_commit` with the operation completed, no mapping
reference outstanding, and an early commit requested or every holder of a
validating dependence committed. -/
def Pipeline.justified (p : Pipeline) : Prop :=
  ∀ inv ∈ p.invoked,
    (inv.kind = Trigger.trigger_complete →
      (inv.at_call inv.op).executed = true ∧
      (inv.at_call inv.op).outstanding_mapping_references = 0) ∧
    (inv.kind = Trigger.trigger_commit →
      (inv.at_call inv.op).completed = true ∧
      (inv.at_call inv.op).outstanding_mapping_references = 0 ∧
      ((inv.at_call inv.op).early_commit_request = true ∨
        validators_committed inv.at_call inv.op = true))

/-- The number of recorded invocations of `trigger_commit` on the operation `o`
in its generation `g`. -/
def commit_count (invoked : List Invocation) (o : OpId) (g : GenerationID) : Nat :=
  invoked.countP (fun inv =>
    decide (inv.kind = Trigger.trigger_commit) && decide (inv.op = o)
      && decide ((inv.at_call o).gen = g))

/-- In the record, `trigger_commit` appears at most once for each generation
of each operation, not at all for a generation the operation has not reached,
and not at all for the current generation while `trigger_commit_invoked` is
unset. -/
def Pipeline.commit_once (p : Pipeline) : Prop :=
  ∀ o g, commit_count p.invoked o g ≤ 1 ∧
    ((p.ops o).gen < g → commit_count p.invoked o g = 0) ∧
    ((p.ops o).gen = g → (p.ops o).trigger_commit_invoked = false →
      commit_count p.invoked o g = 0)

/-! ## Predicates -/

/-- A `PredicateWaiter*`: the identity of a waiter. -/
abbrev WaiterId := Nat

/-- The state of `class PredicateImpl` that resolution reads and writes; the
three fields are data members declared in the header, with the same names. -/
structure PredicateImpl where
  predicate_resolved : Bool
  predicate_value : Bool
  waiters : List (WaiterId × GenerationID)
  deriving DecidableEq, Repr

/-- One delivery of `PredicateWaiter::notify_predicate_value(gen, value)` to the
waiter `waiter`. -/
structure Notification where
  waiter : WaiterId
  gen : GenerationID
  value : Bool
  deriving DecidableEq, Repr

/-- Modelled from the spec: the body of `PredicateImpl::register_waiter`, which
is not in the header.  If the predicate is resolved, its value is written to the
out-parameter `value` and true is returned; otherwise `(waiter, gen)` is entered
in `waiters` and false is returned, `value` being left as it was.  The result is
(the returned flag, `value` afterwards, the predicate afterwards). -/
def PredicateImpl.register_waiter (self : PredicateImpl) (waiter : WaiterId)
    (gen : GenerationID) (value : Bool) : Bool × Bool × PredicateImpl :=
  if self.predicate_resolved then (true, self.predicate_value, self)
  else (false, value, { self with waiters := map_assign waiter gen self.waiters })

/-- Modelled from the spec: the body of `PredicateImpl::set_resolved_value`,
which is not in the header.  Resolving a predicate that is already resolved is
fatal: there is no result.  Otherwise the value is recorded, every entry of
`waiters` is notified with the generation it holds and the value, and `waiters`
is cleared.  The spec gives `pred_gen` no part in this.  The result is the
predicate afterwards and the notifications delivered. -/
def PredicateImpl.set_resolved_value (self : PredicateImpl) (pred_gen : GenerationID)
    (value : Bool) : Option (PredicateImpl × List Notification) :=
  if self.predicate_resolved then none
  else some
    ({ predicate_resolved := true, predicate_value := value, waiters := [] },
      self.waiters.map (fun e => { waiter := e.1, gen := e.2, value := value }))

/-- A predicate as `activate` leaves it: pending, with no waiter. -/
def PredicateImpl.activated : PredicateImpl :=
  { predicate_resolved := false, predicate_value := false, waiters := [] }

/-- The calls made on a predicate. -/
inductive PredicateCall where
  | register_waiter (waiter : WaiterId) (gen : GenerationID) (value : Bool)
  | set_resolved_value (pred_gen : GenerationID) (value : Bool)
  deriving DecidableEq, Repr

/-- Modelled from the spec: the effect of one call on a predicate and on the
notifications delivered so far (latest last), each call by its modelled body; a
fatal call has no effect. -/
def PredicateImpl.step (s : PredicateImpl × List Notification) :
    PredicateCall → PredicateImpl × List Notification
  | PredicateCall.register_waiter waiter gen value =>
    ((s.1.register_waiter waiter gen value).2.2, s.2)
  | PredicateCall.set_resolved_value pred_gen value =>
    match s.1.set_resolved_value pred_gen value with
    | none => s
    | some (p, delivered) => (p, s.2 ++ delivered)

/-- The effect of a sequence of calls on a predicate, in order. -/
def PredicateImpl.run (s : PredicateImpl × List Notification) (calls : List PredicateCall) :
    PredicateImpl × List Notification :=
  calls.foldl PredicateImpl.step s

/-- The calls by which the waiters of `regs` register, in order. -/
def registrations (regs : List (WaiterId × GenerationID)) : List PredicateCall :=
  regs.map (fun r => PredicateCall.register_waiter r.1 r.2 false)

/-- The map built by entering the registrations `regs` in `m`, in order. -/
def enter_all (m : List (WaiterId × GenerationID)) (regs : List (WaiterId × GenerationID)) :
    List (WaiterId × GenerationID) :=
  regs.foldl (fun acc r => map_assign r.1 r.2 acc) m

/-! ## Predicated operations -/

/-- The enum `PredicatedOp::PredState`. -/
inductive PredState where
  | PENDING_ANALYSIS_STATE
  | WAITING_MAPPING_STATE
  | SPECULATIVE_MAPPING_STATE
  | RESOLVE_TRUE_STATE
  | RESOLVE_FALSE_STATE
  deriving DecidableEq, Repr

/-- The state of `class PredicatedOp` that predication reads and writes: `gen`
and `predication_state` are data members declared in the header; `launched`,
whether the operation has entered the execution pipeline, is the state from
which the spec has the second argument of the resolution callbacks taken. -/
structure PredicatedOp where
  gen : GenerationID
  predication_state : PredState
  launched : Bool
  deriving DecidableEq, Repr

/-- The two resolution callbacks of `PredicatedOp`, with their arguments. -/
inductive ResolveCallback where
  | resolve_true (speculated launched : Bool)
  | resolve_false (speculated launched : Bool)
  deriving DecidableEq, Repr

/-- Whether the callback is `resolve_true`. -/
def ResolveCallback.is_true : ResolveCallback → Bool
  | ResolveCallback.resolve_true _ _ => true
  | ResolveCallback.resolve_false _ _ => false

/-- The callback for the predicate value `value`. -/
def ResolveCallback.of_value (value speculated launched : Bool) : ResolveCallback :=
  if value then ResolveCallback.resolve_true speculated launched
  else ResolveCallback.resolve_false speculated launched

/-- The state in which a predicated operation is left by the predicate value
`value`. -/
def PredState.of_value (value : Bool) : PredState :=
  if value then PredState.RESOLVE_TRUE_STATE else PredState.RESOLVE_FALSE_STATE

/-- One invocation of a resolution callback: on which operation, in which of its
generations, and the call. -/
structure Resolution where
  op : WaiterId
  gen : GenerationID
  callback : ResolveCallback
  deriving DecidableEq, Repr

/-- Modelled from the spec: the body of `PredicatedOp::notify_predicate_value`,
which is not in the header.  A notification for another generation than the
current one is dropped.  Otherwise the operation moves to the resolved state of
the value and the callback of the value is invoked, `speculated` telling
whether the operation was in `SPECULATIVE_MAPPING_STATE`.  The result is the
operation afterwards and the callback invoked, if any. -/
def PredicatedOp.notify_predicate_value (self : PredicatedOp) (gen : GenerationID)
    (value : Bool) : PredicatedOp × Option ResolveCallback :=
  if gen ≠ self.gen then (self, none)
  else
    ({ self with predication_state := PredState.of_value value },
      some (ResolveCallback.of_value value
        (decide (self.predication_state = PredState.SPECULATIVE_MAPPING_STATE)) self.launched))

/-- A predicate, the predicated operations that may wait on it, by identity,
and the record of the resolution callbacks invoked so far, latest first. -/
structure Predication where
  predicate : PredicateImpl
  ops : WaiterId → PredicatedOp
  resolutions : List Resolution

/-- Store the predicated operation `v` at identity `w`. -/
def Predication.set_op (s : Predication) (w : WaiterId) (v : PredicatedOp) : Predication :=
  { s with ops := fun i => if i = w then v else s.ops i }

/-- Modelled from the spec: the delivery of one notification, a call of
`notify_predicate_value` on the operation that waits, with the callback it
invokes put on record. -/
def Predication.deliver (s : Predication) (n : Notification) : Predication :=
  match (s.ops n.waiter).notify_predicate_value n.gen n.value with
  | (op1, none) => s.set_op n.waiter op1
  | (op1, some cb) =>
    { (s.set_op n.waiter op1) with
      resolutions := { op := n.waiter, gen := (s.ops n.waiter).gen, callback := cb }
        :: s.resolutions }

/-- Modelled from the spec: the dependence analysis stage of a predicated
operation (`Predicated::trigger_dependence_analysis`, whose body is not in the
header).  An operation in `PENDING_ANALYSIS_STATE` registers with the predicate
as a waiter for its generation.  If the predicate is resolved already, the
operation is resolved on the spot, not speculated; otherwise it waits in
`WAITING_MAPPING_STATE`. -/
def Predication.trigger_dependence_analysis (s : Predication) (w : WaiterId) : Predication :=
  let cur := s.ops w
  if cur.predication_state = PredState.PENDING_ANALYSIS_STATE then
    match s.predicate.register_waiter w cur.gen false with
    | (true, value, P1) =>
      let resolved := { cur with predication_state := PredState.of_value value }
      let call : Resolution :=
        { op := w, gen := cur.gen,
          callback := ResolveCallback.of_value value false cur.launched }
      { predicate := P1,
        ops := fun i => if i = w then resolved else s.ops i,
        resolutions := call :: s.resolutions }
    | (false, _, P1) =>
      let waiting := { cur with predication_state := PredState.WAITING_MAPPING_STATE }
      { predicate := P1,
        ops := fun i => if i = w then waiting else s.ops i,
        resolutions := s.resolutions }
  else s

/-- Modelled from the spec: the ready stage of a predicated operation
(`Predicated::trigger_ready`, whose body is not in the header).  An operation
that waits for its predicate starts mapping speculatively when
`query_speculate()`, whose answer is `speculate`, says so. -/
def Predication.trigger_ready (s : Predication) (w : WaiterId) (speculate : Bool) :
    Predication :=
  let cur := s.ops w
  if cur.predication_state = PredState.WAITING_MAPPING_STATE ∧ speculate = true then
    s.set_op w { cur with predication_state := PredState.SPECULATIVE_MAPPING_STATE }
  else s

/-- Modelled from the spec: `PredicatedOp::deactivate`, whose body is not in
the header: the generation is incremented and predication starts over. -/
def PredicatedOp.deactivate (self : PredicatedOp) : PredicatedOp :=
  { gen := self.gen + 1
    predication_state := PredState.PENDING_ANALYSIS_STATE
    launched := false }

/-- The calls made on a predicate and the operations predicated on it. -/
inductive PredicationCall where
  | trigger_dependence_analysis (w : WaiterId)
  | trigger_ready (w : WaiterId) (speculate : Bool)
  | trigger_mapping (w : WaiterId)
  | set_resolved_value (pred_gen : GenerationID) (value : Bool)
  | deactivate (w : WaiterId)
  deriving DecidableEq, Repr

/-- Modelled from the spec: the effect of one call, each by its modelled body.
Resolving the predicate delivers the notifications it produces, in order;
`trigger_mapping` puts the operation in the execution pipeline; a fatal call
has no effect. -/
def Predication.step (s : Predication) : PredicationCall → Predication
  | PredicationCall.trigger_dependence_analysis w => s.trigger_dependence_analysis w
  | PredicationCall.trigger_ready w speculate => s.trigger_ready w speculate
  | PredicationCall.trigger_mapping w => s.set_op w { s.ops w with launched := true }
  | PredicationCall.set_resolved_value pred_gen value =>
    match s.predicate.set_resolved_value pred_gen value with
    | none => s
    | some (P1, delivered) => delivered.foldl Predication.deliver { s with predicate := P1 }
  | PredicationCall.deactivate w => s.set_op w (s.ops w).deactivate

/-- The effect of a sequence of calls, in order. -/
def Predication.run (s : Predication) (calls : List PredicationCall) : Predication :=
  calls.foldl Predication.step s

/-- A freshly activated predicate, and operations in the generations `gens`
whose predication has not started. -/
def Predication.activated (gens : WaiterId → GenerationID) : Predication :=
  { predicate := PredicateImpl.activated
    ops := fun w =>
      { gen := gens w, predication_state := PredState.PENDING_ANALYSIS_STATE, launched := false }
    resolutions := [] }

/-- The resolution callbacks on record for the operation `w`, in all its
generations, latest first. -/
def Predication.record (s : Predication) (w : WaiterId) : List Resolution :=
  s.resolutions.filter (fun r => decide (r.op = w))

/-- The resolution callbacks in `record` that were invoked in generation `g`. -/
def callbacks_in (record : List Resolution) (g : GenerationID) : List ResolveCallback :=
  (record.filter (fun r => decide (r.gen = g))).map Resolution.callback

/-- The resolution callbacks on record for the generation `g` of the operation
`w`, latest first. -/
def Predication.callbacks (s : Predication) (w : WaiterId) (g : GenerationID) :
    List ResolveCallback :=
  callbacks_in (s.record w) g

/-- What holds of one predicated operation `op`, of its entry `entry` in the
waiters map and of the callbacks `record` it has received, given whether the
predicate is resolved and to what value: no callback or entry is of a
generation the operation has not reached; before the predicate's value reaches
it the operation has no callback in its generation, and an entry for its
generation exactly when it waits; once resolved it has exactly one callback in
its generation, the one of the predicate's value. -/
def view_consistent (resolved value : Bool) (entry : Option GenerationID) (op : PredicatedOp)
    (record : List Resolution) : Prop :=
  (∀ r ∈ record, r.gen ≤ op.gen) ∧
  (∀ g, entry = some g → g ≤ op.gen) ∧
  (match op.predication_state with
    | PredState.PENDING_ANALYSIS_STATE =>
      callbacks_in record op.gen = [] ∧ entry ≠ some op.gen
    | PredState.WAITING_MAPPING_STATE =>
      callbacks_in record op.gen = [] ∧ entry = some op.gen
    | PredState.SPECULATIVE_MAPPING_STATE =>
      callbacks_in record op.gen = [] ∧ entry = some op.gen
    | PredState.RESOLVE_TRUE_STATE =>
      resolved = true ∧ value = true ∧
        ∃ sp la, callbacks_in record op.gen = [ResolveCallback.resolve_true sp la]
    | PredState.RESOLVE_FALSE_STATE =>
      resolved = true ∧ value = false ∧
        ∃ sp la, callbacks_in record op.gen = [ResolveCallback.resolve_false sp la])

/-- The invariant of predication: the waiters map has increasing keys and is
empty once the predicate is resolved, and every operation is consistent with
the predicate and the record. -/
def Predication.consistent (s : Predication) : Prop :=
  keys_increasing s.predicate.waiters ∧
  (s.predicate.predicate_resolved = true → s.predicate.waiters = []) ∧
  ∀ w, view_consistent s.predicate.predicate_resolved s.predicate.predicate_value
    (map_find w s.predicate.waiters) (s.ops w) (s.record w)

/-- What the delivery of the notification `n` does to the operation that
waits and to the callbacks it has on record. -/
def deliver_view (view : PredicatedOp × List Resolution) (n : Notification) :
    PredicatedOp × List Resolution :=
  match view.1.notify_predicate_value n.gen n.value with
  | (op1, none) => (op1, view.2)
  | (op1, some cb) => (op1, { op := n.waiter, gen := view.1.gen, callback := cb } :: view.2)

/-- The state reached by the calls `calls` from a freshly activated predicate
and operations in the generations `gens` whose predication has not started. -/
def Predication.reached (gens : WaiterId → GenerationID) (calls : List PredicationCall) :
    Predication :=
  (Predication.activated gens).run calls

/-! ## Collective view rendezvous -/

/-- A `DistributedID`: the identity of an instance or of a collective view. -/
abbrev DistributedID := Nat

/-- A `FieldMask`: a set of fields, as a bit pattern. -/
abbrev FieldMask := Nat

/-- A `LogicalRegion`: the identity of a logical region. -/
abbrev LogicalRegion := Nat

/-- The struct `CollectiveViewCreatorBase::PendingRendezvousKey`: a
`RendezvousKey` and the region. -/
structure PendingRendezvousKey extends RendezvousKey where
  region : LogicalRegion
  deriving DecidableEq, Repr

/-- The four output locations that a caller of `find_or_create_rendezvous`
passes by reference, to be filled in when the rendezvous is finalized. -/
structure TargetPointers where
  analysis_mapping : Nat
  first_local : Nat
  target_views : Nat
  collective_arrivals : Nat
  deriving DecidableEq, Repr

/-- The struct `CollectiveViewCreatorBase::RendezvousResult`: the key, the
instances the result stands for, and the places to put the results when ready,
as declared in the header. -/
structure RendezvousResult where
  key : PendingRendezvousKey
  instances : List (DistributedID × FieldMask)
  target_mappings : List Nat
  target_first_locals : List Nat
  target_views : List Nat
  target_arrivals : List Nat
  deriving DecidableEq, Repr

/-- Modelled from the spec: `RendezvousResult::matches`, whose body is not in the
header: the instance set asked for is the one the result holds. -/
def RendezvousResult.matches (self : RendezvousResult)
    (insts : List (DistributedID × FieldMask)) : Bool :=
  decide (self.instances = insts)

/-- Every output location registered on a result. -/
def RendezvousResult.targets (self : RendezvousResult) : List Nat :=
  self.target_mappings ++ self.target_first_locals ++ self.target_views ++ self.target_arrivals

/-- Register the output locations of one more caller on a result. -/
def RendezvousResult.add_targets (self : RendezvousResult) (out : TargetPointers) :
    RendezvousResult :=
  { self with
    target_mappings := self.target_mappings ++ [out.analysis_mapping]
    target_first_locals := self.target_first_locals ++ [out.first_local]
    target_views := self.target_views ++ [out.target_views]
    target_arrivals := self.target_arrivals ++ [out.collective_arrivals] }

/-- The output locations of a caller, as a list. -/
def TargetPointers.all (out : TargetPointers) : List Nat :=
  [out.analysis_mapping, out.first_local, out.target_views, out.collective_arrivals]

/-- Modelled from the spec: the search of `find_or_create_rendezvous`, whose
body is not in the header, in the results pending under one
`PendingRendezvousKey`.  A caller whose instance set equals that of a pending
result reuses it and registers its output locations on it; otherwise a new
result is allocated for its instance set, after the others.  The result is the
position of the caller's result and the pending results afterwards. -/
def find_or_create (key : PendingRendezvousKey) (insts : List (DistributedID × FieldMask))
    (out : TargetPointers) : List RendezvousResult → Nat × List RendezvousResult
  | [] =>
    (0, [{ key := key, instances := insts,
           target_mappings := [out.analysis_mapping],
           target_first_locals := [out.first_local],
           target_views := [out.target_views],
           target_arrivals := [out.collective_arrivals] }])
  | r :: rs =>
    if r.matches insts then (0, r.add_targets out :: rs)
    else ((find_or_create key insts out rs).1 + 1, r :: (find_or_create key insts out rs).2)

/-- The struct `CollectiveViewCreatorBase::CollectiveRendezvous`: the results
that have arrived for one region, by position among the pending results. -/
structure CollectiveRendezvous where
  results : List Nat
  deriving DecidableEq, Repr

/-- The struct `CollectiveViewCreatorBase::PendingCollective`. -/
structure PendingCollective where
  rendezvous : List (LogicalRegion × CollectiveRendezvous)
  remaining_arrivals : Nat
  deriving DecidableEq, Repr

/-- The rendezvous state of `CollectiveViewCreatorBase`, `pending_rendezvous`
and `pending_collectives` as declared in the header, with what is observed of
it: `collective_points` is what `get_collective_points()` returns, the
number of participants expected; `observed` is what each output location holds,
nothing until a finalization writes the collective view identity there;
`finalized` records the finalizations, latest first. -/
structure CollectiveViewCreator where
  pending_rendezvous : PendingRendezvousKey → List RendezvousResult
  pending_collectives : RendezvousKey → Option PendingCollective
  collective_points : Nat
  observed : Nat → Option DistributedID
  finalized : List RendezvousKey

/-- Modelled from the spec: `RendezvousResult::finalize_rendezvous`, whose body
is not in the header: the collective view identity is written to every output
location registered on the result. -/
def RendezvousResult.finalize_rendezvous (self : RendezvousResult) (did : DistributedID)
    (observed : Nat → Option DistributedID) : Nat → Option DistributedID :=
  fun p => if p ∈ self.targets then some did else observed p

/-- Modelled from the spec: `finalize_collective_mapping`, whose body is not in
the header: in one pass over the results of a region, each result is finalized
with the collective view identity that `views` gives for its instances. -/
def finalize_collective_mapping (views : List (DistributedID × FieldMask) → DistributedID)
    (results : List RendezvousResult) (observed : Nat → Option DistributedID) :
    Nat → Option DistributedID :=
  results.foldl (fun obs r => r.finalize_rendezvous (views r.instances) obs) observed

/-- The decrement `--remaining_arrivals` of a `size_t`, of 64 bits: modulo
`2 ^ 64 = 18446744073709551616`. -/
def decrement_size_t (n : Nat) : Nat := (n + 18446744073709551615) % 18446744073709551616

/-- Modelled from the spec: the pending collective of the key `key`: the one on
record, or, for the first caller, a new one that expects all the participants. -/
def CollectiveViewCreator.pending_collective (self : CollectiveViewCreator)
    (key : RendezvousKey) : PendingCollective :=
  (self.pending_collectives key).getD
    { rendezvous := [], remaining_arrivals := self.collective_points }

/-- The results that have arrived for the region `region`. -/
def PendingCollective.arrived (self : PendingCollective) (region : LogicalRegion) :
    CollectiveRendezvous :=
  (map_find region self.rendezvous).getD { results := [] }

/-- Modelled from the spec: one arrival at a pending collective: the result is
entered for its region unless it is there already, and `remaining_arrivals` is
decremented once, whatever the result. -/
def PendingCollective.arrive (self : PendingCollective) (region : LogicalRegion)
    (result : Nat) : PendingCollective :=
  { rendezvous := map_assign region
      (if result ∈ (self.arrived region).results then self.arrived region
        else { results := (self.arrived region).results ++ [result] })
      self.rendezvous
    remaining_arrivals := decrement_size_t self.remaining_arrivals }

/-- The results, among those pending under the key and the region, that have
arrived. -/
def CollectiveViewCreator.arrived_results (self : CollectiveViewCreator) (key : RendezvousKey)
    (e : LogicalRegion × CollectiveRendezvous) : List RendezvousResult :=
  e.2.results.filterMap
    (fun i => (self.pending_rendezvous { toRendezvousKey := key, region := e.1 })[i]?)

/-- Modelled from the spec: `construct_collective_mapping`, whose body is not in
the header: the collective mapping is finalized region by region, for the
results that arrived.  The result is what the output locations hold afterwards. -/
def CollectiveViewCreator.construct_collective_mapping
    (views : List (DistributedID × FieldMask) → DistributedID) (self : CollectiveViewCreator)
    (key : RendezvousKey) (rendezvous : List (LogicalRegion × CollectiveRendezvous)) :
    Nat → Option DistributedID :=
  rendezvous.foldl
    (fun obs e => finalize_collective_mapping views (self.arrived_results key e) obs)
    self.observed

/-- Modelled from the spec: the arrival of a caller's result at the rendezvous
of its `RendezvousKey` (`rendezvous_collective_mapping`, whose body is not in
the header).  The first arrival creates the `PendingCollective` with the
expected number of arrivals.  The arrival is counted, and when
`remaining_arrivals` reaches zero the collective mapping is finalized. -/
def CollectiveViewCreator.rendezvous_collective_mapping
    (views : List (DistributedID × FieldMask) → DistributedID) (self : CollectiveViewCreator)
    (requirement_index analysis_index : Nat) (region : LogicalRegion) (result : Nat) :
    CollectiveViewCreator :=
  { pending_rendezvous := self.pending_rendezvous
    pending_collectives := fun k =>
      if k = { region_index := requirement_index, analysis := analysis_index } then
        some ((self.pending_collective
          { region_index := requirement_index, analysis := analysis_index }).arrive region result)
      else self.pending_collectives k
    collective_points := self.collective_points
    observed :=
      if ((self.pending_collective
          { region_index := requirement_index, analysis := analysis_index }).arrive
            region result).remaining_arrivals = 0 then
        self.construct_collective_mapping views
          { region_index := requirement_index, analysis := analysis_index }
          ((self.pending_collective
            { region_index := requirement_index, analysis := analysis_index }).arrive
              region result).rendezvous
      else self.observed
    finalized :=
      if ((self.pending_collective
          { region_index := requirement_index, analysis := analysis_index }).arrive
            region result).remaining_arrivals = 0 then
        { region_index := requirement_index, analysis := analysis_index } :: self.finalized
      else self.finalized }

/-- Modelled from the spec: `find_or_create_rendezvous`, whose body is not in
the header: the search above, in the results pending under the caller's
`PendingRendezvousKey`.  The result is the position of the caller's result among
them, and the state afterwards. -/
def CollectiveViewCreator.find_or_create_rendezvous (self : CollectiveViewCreator)
    (index analysis : Nat) (region : LogicalRegion)
    (targets : List (DistributedID × FieldMask)) (out : TargetPointers) :
    Nat × CollectiveViewCreator :=
  let pkey : PendingRendezvousKey :=
    { region_index := index, analysis := analysis, region := region }
  let found := find_or_create pkey targets out (self.pending_rendezvous pkey)
  (found.1, { self with
    pending_rendezvous := fun k => if k = pkey then found.2 else self.pending_rendezvous k })

/-- Modelled from the spec: one call of a point operation,
`convert_collective_views`, whose body is not in the header: the caller finds or
creates its result with `find_or_create_rendezvous` and arrives at the
rendezvous with it.  The result is the position of the caller's result among
the results pending under its key, and the state afterwards. -/
def CollectiveViewCreator.convert_collective_views
    (views : List (DistributedID × FieldMask) → DistributedID) (self : CollectiveViewCreator)
    (requirement_index analysis_index : Nat) (region : LogicalRegion)
    (targets : List (DistributedID × FieldMask)) (out : TargetPointers) :
    Nat × CollectiveViewCreator :=
  let found := self.find_or_create_rendezvous requirement_index analysis_index region targets out
  (found.1, found.2.rendezvous_collective_mapping views requirement_index analysis_index
    region found.1)

/-- One call of `convert_collective_views` by a point operation: the region,
the instance set and the output locations it passes. -/
structure Arrival where
  region : LogicalRegion
  targets : List (DistributedID × FieldMask)
  out : TargetPointers
  deriving DecidableEq, Repr

/-- The state after the calls `arrivals`, all for the requirement
`requirement_index` and the analysis `analysis_index`, in order. -/
def CollectiveViewCreator.arrive_all
    (views : List (DistributedID × FieldMask) → DistributedID) (self : CollectiveViewCreator)
    (requirement_index analysis_index : Nat) (arrivals : List Arrival) : CollectiveViewCreator :=
  arrivals.foldl
    (fun s a => (s.convert_collective_views views requirement_index analysis_index
      a.region a.targets a.out).2)
    self

/-- A creator with nothing pending, that expects `points` participants. -/
def CollectiveViewCreator.activated (points : Nat) : CollectiveViewCreator :=
  { pending_rendezvous := fun _ => []
    pending_collectives := fun _ => none
    collective_points := points
    observed := fun _ => none
    finalized := [] }

/-- The arrivals still expected for the key `key`: those of its pending
collective, or all the participants if none has arrived. -/
def CollectiveViewCreator.remaining (self : CollectiveViewCreator) (key : RendezvousKey) : Nat :=
  (self.pending_collective key).remaining_arrivals

/-- The results pending under one key hold instance sets that differ from one
another. -/
def distinct_instances (vec : List RendezvousResult) : Prop :=
  vec.Pairwise (fun a b => a.instances ≠ b.instances)

/-- The invariant of the rendezvous for the key `key`, `processed` being the
calls made so far: under each region the pending results hold instance sets
that differ from one another; every output location registered on a result was
passed by a call for that region and that instance set; every pending result
has arrived at the pending collective, whose regions are in increasing order;
and every call has its output locations registered on a pending result with
its instance set. -/
def CollectiveViewCreator.rendezvous_consistent (s : CollectiveViewCreator)
    (key : RendezvousKey) (processed : List Arrival) : Prop :=
  (∀ region, distinct_instances
    (s.pending_rendezvous { toRendezvousKey := key, region := region })) ∧
  (∀ region, ∀ res ∈ s.pending_rendezvous { toRendezvousKey := key, region := region },
    ∀ p ∈ res.targets,
      ∃ a ∈ processed, a.region = region ∧ a.targets = res.instances ∧ p ∈ a.out.all) ∧
  (∀ region idx,
    idx < (s.pending_rendezvous { toRendezvousKey := key, region := region }).length →
    ∃ rv, map_find region (s.pending_collective key).rendezvous = some rv ∧
      idx ∈ rv.results) ∧
  keys_increasing (s.pending_collective key).rendezvous ∧
  (∀ a ∈ processed,
    ∃ res ∈ s.pending_rendezvous { toRendezvousKey := key, region := a.region },
      res.instances = a.targets ∧ ∀ p ∈ a.out.all, p ∈ res.targets)

/-- The positions of the results that the calls `arrivals` get back, in order,
and the state after them. -/
def CollectiveViewCreator.arrive_each
    (views : List (DistributedID × FieldMask) → DistributedID) (self : CollectiveViewCreator)
    (requirement_index analysis_index : Nat) :
    List Arrival → List Nat × CollectiveViewCreator
  | [] => ([], self)
  | a :: l =>
    ((self.convert_collective_views views requirement_index analysis_index
        a.region a.targets a.out).1
      :: (CollectiveViewCreator.arrive_each views
          (self.convert_collective_views views requirement_index analysis_index
            a.region a.targets a.out).2
          requirement_index analysis_index l).1,
     (CollectiveViewCreator.arrive_each views
        (self.convert_collective_views views requirement_index analysis_index
          a.region a.targets a.out).2
        requirement_index analysis_index l).2)

/-! ## Dependence trackers as sets -/

/-- The class `Operation::CommitDependenceTracker`: a `std::set<RtEvent>`. -/
structure CommitDependenceTracker where
  commit_dependences : List RtEvent
  deriving DecidableEq, Repr

/-- The inline body of `CommitDependenceTracker::add_commit_dependence`. -/
def CommitDependenceTracker.add_commit_dependence
    (self : CommitDependenceTracker) (dependence : RtEvent) : CommitDependenceTracker :=
  { commit_dependences := set_insert dependence self.commit_dependences }

/-- The calls `add_mapping_dependence(d)` for the events of `ds`, in order. -/
def MappingDependenceTracker.add_all
    (self : MappingDependenceTracker) (ds : List RtEvent) : MappingDependenceTracker :=
  ds.foldl MappingDependenceTracker.add_mapping_dependence self

/-- The calls `add_commit_dependence(d)` for the events of `ds`, in order. -/
def CommitDependenceTracker.add_all
    (self : CommitDependenceTracker) (ds : List RtEvent) : CommitDependenceTracker :=
  ds.foldl CommitDependenceTracker.add_commit_dependence self

/-- A list is a `std::set`: strictly increasing, hence without repetition. -/
def is_set (s : List Nat) : Prop :=
  List.Pairwise (fun a b => a < b) s

/-! ## Pending rendezvous keys -/

/-- The inline body of `PendingRendezvousKey::operator<`; the comparison of two
`LogicalRegion` handles, whose class is outside the header, is `region_lt`. -/
def PendingRendezvousKey.lt (region_lt : LogicalRegion → LogicalRegion → Bool)
    (self rhs : PendingRendezvousKey) : Bool :=
  if self.region_index < rhs.region_index then true
  else if self.region_index > rhs.region_index then false
  else if self.analysis < rhs.analysis then true
  else if self.analysis > rhs.analysis then false
  else region_lt self.region rhs.region

/-- The inline body of `PendingRendezvousKey::operator==`; the equality of two
`LogicalRegion` handles is `region_eq`. -/
def PendingRendezvousKey.eq (region_eq : LogicalRegion → LogicalRegion → Bool)
    (self rhs : PendingRendezvousKey) : Bool :=
  if self.region_index ≠ rhs.region_index then false
  else if self.analysis ≠ rhs.analysis then false
  else region_eq self.region rhs.region

/-- The comparison `region_lt` is a strict total order on region handles and
`region_eq` is their equality. -/
def region_strict_total_order
    (region_lt region_eq : LogicalRegion → LogicalRegion → Bool) : Prop :=
  (∀ x, region_lt x x = false) ∧
  (∀ x y z, region_lt x y = true → region_lt y z = true → region_lt x z = true) ∧
  (∀ x y, x ≠ y → region_lt x y = true ∨ region_lt y x = true) ∧
  (∀ x y, region_eq x y = true ↔ x = y)

/-! ## Memoizable operations -/

/-- The enumeration `MemoizableOp::MemoizableState`. -/
inductive MemoizableState where
  | NO_MEMO
  | MEMO_REQ
  | MEMO_RECORD
  | MEMO_REPLAY
  deriving DecidableEq, Repr

/-- An `ApEvent`: the identity of an application event; `NO_AP_EVENT` is 0. -/
abbrev ApEvent := Nat

/-- The constant `ApEvent::NO_AP_EVENT`. -/
def NO_AP_EVENT : ApEvent := 0

/-- The data members of `class MemoizableOp` declared in the header: the
physical trace template (a pointer, `none` when null) and the memoization
state. -/
structure MemoizableOp where
  tpl : Option Nat
  memo_state : MemoizableState
  deriving DecidableEq, Repr

/-- The inline body of `MemoizableOp::is_memoizing`. -/
def MemoizableOp.is_memoizing (self : MemoizableOp) : Bool :=
  decide (self.memo_state ≠ MemoizableState.NO_MEMO)

/-- The inline body of `MemoizableOp::is_recording`. -/
def MemoizableOp.is_recording (self : MemoizableOp) : Bool :=
  decide (self.memo_state = MemoizableState.MEMO_RECORD)

/-- The inline body of `MemoizableOp::is_replaying`. -/
def MemoizableOp.is_replaying (self : MemoizableOp) : Bool :=
  decide (self.memo_state = MemoizableState.MEMO_REPLAY)

/-- The inline body of `MemoizableOp::get_memoizable_state`. -/
def MemoizableOp.get_memoizable_state (self : MemoizableOp) : MemoizableState :=
  self.memo_state

/-- A `TraceInfo`, whose class is outside the header: its identity. -/
abbrev TraceInfo := Nat

/-- The outcome of a call that may stop at a failed `assert`. -/
inductive Outcome (α : Type) where
  | returned (value : α)
  | assertion_failed
  deriving DecidableEq, Repr

/-- The inline body of `MemoizableOp::compute_sync_precondition`:
`assert(false); return ApEvent::NO_AP_EVENT;`.  The flag `assertions` tells
whether `assert` is compiled in (`NDEBUG` not defined); with `NDEBUG` the
`assert` is an empty statement. -/
def MemoizableOp.compute_sync_precondition (assertions : Bool)
    (_self : MemoizableOp) (_info : TraceInfo) : Outcome ApEvent :=
  if assertions && !false then Outcome.assertion_failed
  else Outcome.returned NO_AP_EVENT

/-- The final overrider of the virtual `compute_sync_precondition` of an
operation: the body of `MemoizableOp` itself (inherited by `FenceOp` and
`DynamicCollectiveOp`, which declare no override), or the body of a class that
declares an override (`Memoizable<OP>`, `CopyOp`, `AcquireOp`, `ReleaseOp`,
`FillOp`), not in the header and taken as a function of what a `const` method
reads: the operation and `info`. -/
inductive SyncPreconditionBody where
  | base
  | overriding (body : MemoizableOp → TraceInfo → Outcome ApEvent)

/-- The virtual call `op->compute_sync_precondition(info)`: the outcome and the
operation after the call; the method is `const`, so the operation is as before. -/
def MemoizableOp.call_compute_sync_precondition (assertions : Bool)
    (body : SyncPreconditionBody) (self : MemoizableOp) (info : TraceInfo) :
    Outcome ApEvent × MemoizableOp :=
  match body with
  | SyncPreconditionBody.base => (self.compute_sync_precondition assertions info, self)
  | SyncPreconditionBody.overriding f => (f self info, self)

/-! ## Provenance -/

/-- A `std::string`: the sequence of its characters. -/
abbrev CppString := List Nat

/-- The class `Provenance`: the two strings declared in the header, and the
reference count of its base class `Collectable`. -/
structure Provenance where
  human : CppString
  machine : CppString
  references : Nat
  deriving DecidableEq, Repr

/-- Modelled from the spec: `Collectable::add_reference`, whose class is outside
the header: the count goes up by one. -/
def Provenance.add_reference (self : Provenance) : Provenance :=
  { self with references := self.references + 1 }

/-- Modelled from the spec: `Collectable::remove_reference`, whose class is
outside the header: the count goes down by one and the answer is true when it
reached zero, which is when the object is to be destroyed. -/
def Provenance.remove_reference (self : Provenance) : Provenance × Bool :=
  ({ self with references := self.references - 1 }, decide (self.references = 1))

/-- The `Provenance` objects that are allocated, by address. -/
abbrev ProvenanceHeap := Nat → Option Provenance

/-- The heap with the cell at address `a` replaced. -/
def ProvenanceHeap.set (heap : ProvenanceHeap) (a : Nat) (cell : Option Provenance) :
    ProvenanceHeap :=
  fun b => if b = a then cell else heap b

/-- The class `AutoProvenance`: a `Provenance*`, `none` when null. -/
structure AutoProvenance where
  provenance : Option Nat
  deriving DecidableEq, Repr

/-- The inline constructor `AutoProvenance(Provenance *prov)`: the pointer is
kept and, when it is not null, `add_reference` is called on its object. -/
def AutoProvenance.of_pointer (heap : ProvenanceHeap) (prov : Option Nat) :
    AutoProvenance × ProvenanceHeap :=
  ({ provenance := prov },
    match prov with
    | none => heap
    | some a =>
      match heap a with
      | none => heap
      | some p => heap.set a (some p.add_reference))

/-- The inline destructor of `AutoProvenance`: when the pointer is not null,
`remove_reference` is called on its object, and the object is deleted when the
answer is true. -/
def AutoProvenance.destroy (self : AutoProvenance) (heap : ProvenanceHeap) :
    ProvenanceHeap :=
  match self.provenance with
  | none => heap
  | some a =>
    match heap a with
    | none => heap
    | some p =>
      if p.remove_reference.2 then heap.set a none
      else heap.set a (some p.remove_reference.1)

/-- Modelled from the spec: the body of `Provenance::serialize`, which is not
in the header: a leading existence flag, then each of the two strings as its
length followed by its characters, appended to what the serializer holds. -/
def Provenance.serialize (self : Provenance) (rez : List Nat) : List Nat :=
  rez ++ 1 :: self.human.length :: self.human ++ self.machine.length :: self.machine

/-- Modelled from the spec: the body of `Provenance::serialize_null`, which is
not in the header: the existence flag alone, saying that nothing follows. -/
def Provenance.serialize_null (rez : List Nat) : List Nat :=
  rez ++ [0]

/-- Modelled from the spec: a string read back from a deserializer: its length,
then that many characters; the rest of the buffer is returned with it. -/
def unpack_string (derez : List Nat) : Option (CppString × List Nat) :=
  match derez with
  | [] => none
  | size :: rest =>
    if size ≤ rest.length then some (rest.take size, rest.drop size) else none

/-- Modelled from the spec: the body of `Provenance::deserialize`, which is not
in the header: the existence flag is read first; when it is clear the result is
a null pointer, otherwise the two strings are read and a new `Provenance`, which
nobody references yet, holds them.  The result is `none` when the buffer ends
too early. -/
def Provenance.deserialize (derez : List Nat) : Option (Option Provenance × List Nat) :=
  match derez with
  | [] => none
  | flag :: rest =>
    if flag = 0 then some (none, rest)
    else
      match unpack_string rest with
      | none => none
      | some (human, rest1) =>
        match unpack_string rest1 with
        | none => none
        | some (machine, rest2) =>
          some (some { human := human, machine := machine, references := 0 }, rest2)

/-! ## Realm region instances -/

/-- The class `Realm::RegionInstance`: its `id`. -/
structure RegionInstance where
  id : Nat
  deriving DecidableEq, Repr

/-- A `Realm::Memory`: its identity. -/
abbrev Memory := Nat

/-- A `Realm::Event`: its identity. -/
abbrev Event := Nat

/-- A `FieldID`. -/
abbrev FieldID := Nat

/-- What the two `create_instance` bodies call and `instance.inl` does not
define: the two constructors of `InstanceLayoutConstraints` (from a vector and
from a map of field sizes, each with a block size),
`InstanceLayoutGeneric::choose_instance_layout`, and the overload of
`RegionInstance::create_instance` that takes a layout, which gives the event and
the value written to `inst`. -/
structure InstanceLayoutInterface (Space Constraints Layout Requests : Type) where
  constraints_of_vector : List Nat → Nat → Constraints
  constraints_of_map : List (FieldID × Nat) → Nat → Constraints
  choose_instance_layout : Space → Constraints → Layout
  create_instance : RegionInstance → Memory → Layout → Requests → Event →
    Event × RegionInstance

/-- The inline body of `RegionInstance::create_instance` for an index space and
a `std::vector<size_t>` of field sizes. -/
def RegionInstance.create_instance_vector {Space Constraints Layout Requests : Type}
    (api : InstanceLayoutInterface Space Constraints Layout Requests)
    (inst : RegionInstance) (memory : Memory) (space : Space)
    (field_sizes : List Nat) (block_size : Nat) (reqs : Requests) (wait_on : Event) :
    Event × RegionInstance :=
  let block_size := if block_size > 1 then 0 else block_size
  let ilc := api.constraints_of_vector field_sizes block_size
  let layout := api.choose_instance_layout space ilc
  api.create_instance inst memory layout reqs wait_on

/-- The inline body of `RegionInstance::create_instance` for an index space and
a `std::map<FieldID, size_t>` of field sizes. -/
def RegionInstance.create_instance_map {Space Constraints Layout Requests : Type}
    (api : InstanceLayoutInterface Space Constraints Layout Requests)
    (inst : RegionInstance) (memory : Memory) (space : Space)
    (field_sizes : List (FieldID × Nat)) (block_size : Nat) (reqs : Requests)
    (wait_on : Event) : Event × RegionInstance :=
  let block_size := if block_size > 1 then 0 else block_size
  let ilc := api.constraints_of_map field_sizes block_size
  let layout := api.choose_instance_layout space ilc
  api.create_instance inst memory layout reqs wait_on

/-- An interface that records what it is given: the constraints are the block
size, the layout is the constraints, and the instance made has the block size
of its layout as id. -/
def recording_interface : InstanceLayoutInterface Nat Nat Nat Nat where
  constraints_of_vector := fun _ block_size => block_size
  constraints_of_map := fun _ block_size => block_size
  choose_instance_layout := fun _ ilc => ilc
  create_instance := fun _ _ layout _ wait_on => (wait_on, { id := layout })

/-! ## Committed generations -/

/-- Modelled from the spec: the body of `Operation::is_operation_committed`,
which is not in the header: an operation whose generation has moved past `gen`
has committed for `gen`.  The answer is false for the current generation, also
after the operation has committed, which the header allows (`may return false
when the operation has committed`). -/
def Operation.is_operation_committed (self : Operation) (gen : GenerationID) : Bool :=
  decide (gen < self.gen)

/-- Modelled from the spec: the calls that drive an operation through its
lifecycle `... → completed → committed → (reclaimed)`.  They are the calls of
`Call`, except that reclamation is not a call of its own: the operation returns
to the free pool as the last step of `commit_operation(do_deactivate, wait_on)`,
whose flag is the one declared in the header. -/
inductive LifecycleCall where
  | add_mapping_reference (o : OpId) (gen : GenerationID)
  | remove_mapping_reference (o : OpId) (gen : GenerationID)
  | register_dependence (self target : OpId) (target_gen : GenerationID)
  | register_region_dependence (self target : OpId) (target_gen : GenerationID)
      (target_idx : Nat) (validates : Bool)
  | complete_execution (o : OpId)
  | complete_operation (o : OpId)
  | commit_operation (o : OpId) (do_deactivate : Bool)
  | request_early_commit (o : OpId)
  | issue_commit_trigger (o : OpId)
  deriving DecidableEq, Repr

/-- Modelled from the spec: what a lifecycle call does on the pipeline.
`commit_operation(do_deactivate, wait_on)` marks the operation committed and
then, when `do_deactivate` is set, deactivates it, which moves it to its next
generation; every other call is the call of the same name. -/
def LifecycleCall.calls : LifecycleCall → List Call
  | LifecycleCall.add_mapping_reference o gen => [Call.add_mapping_reference o gen]
  | LifecycleCall.remove_mapping_reference o gen => [Call.remove_mapping_reference o gen]
  | LifecycleCall.register_dependence self target target_gen =>
    [Call.register_dependence self target target_gen]
  | LifecycleCall.register_region_dependence self target target_gen target_idx validates =>
    [Call.register_region_dependence self target target_gen target_idx validates]
  | LifecycleCall.complete_execution o => [Call.complete_execution o]
  | LifecycleCall.complete_operation o => [Call.complete_operation o]
  | LifecycleCall.commit_operation o do_deactivate =>
    if do_deactivate then [Call.commit_operation o, Call.deactivate o]
    else [Call.commit_operation o]
  | LifecycleCall.request_early_commit o => [Call.request_early_commit o]
  | LifecycleCall.issue_commit_trigger o => [Call.issue_commit_trigger o]

/-- The calls on the pipeline that a sequence of lifecycle calls makes, in
order. -/
def lifecycle_calls : List LifecycleCall → List Call
  | [] => []
  | c :: cs => c.calls ++ lifecycle_calls cs

/-- The effect of a sequence of lifecycle calls, in order. -/
def Pipeline.run_lifecycle (p : Pipeline) (calls : List LifecycleCall) : Pipeline :=
  p.run (lifecycle_calls calls)

/-! ## Resource trackers -/

/-- A `FieldSpace` handle. -/
abbrev FieldSpace := Nat

/-- An `IndexSpace` handle. -/
abbrev IndexSpace := Nat

/-- An `IndexPartition` handle. -/
abbrev IndexPartition := Nat

/-- The struct `ResourceTracker::DeletedRegion`; the provenance is a
pointer, `none` when null. -/
structure DeletedRegion where
  region : LogicalRegion
  provenance : Option Nat
  deriving DecidableEq, Repr

/-- The struct `ResourceTracker::DeletedField`. -/
structure DeletedField where
  space : FieldSpace
  fid : FieldID
  provenance : Option Nat
  deriving DecidableEq, Repr

/-- The struct `ResourceTracker::DeletedFieldSpace`. -/
structure DeletedFieldSpace where
  space : FieldSpace
  provenance : Option Nat
  deriving DecidableEq, Repr

/-- The struct `ResourceTracker::DeletedIndexSpace`. -/
structure DeletedIndexSpace where
  space : IndexSpace
  provenance : Option Nat
  recurse : Bool
  deriving DecidableEq, Repr

/-- The struct `ResourceTracker::DeletedPartition`. -/
structure DeletedPartition where
  partition : IndexPartition
  provenance : Option Nat
  recurse : Bool
  deriving DecidableEq, Repr

/-- The data members of `class ResourceTracker`, with the names of the header:
a `std::map` is a list of entries in increasing key order, a `std::set` an
increasing list, a `std::vector` a list. -/
structure ResourceTracker where
  created_regions : List (LogicalRegion × Nat)
  local_regions : List (LogicalRegion × Bool)
  created_fields : List (FieldSpace × FieldID)
  local_fields : List ((FieldSpace × FieldID) × Bool)
  created_field_spaces : List (FieldSpace × Nat)
  created_index_spaces : List (IndexSpace × Nat)
  created_index_partitions : List (IndexPartition × Nat)
  deleted_regions : List DeletedRegion
  deleted_fields : List DeletedField
  deleted_field_spaces : List DeletedFieldSpace
  latent_field_spaces : List (FieldSpace × List LogicalRegion)
  deleted_index_spaces : List DeletedIndexSpace
  deleted_index_partitions : List DeletedPartition
  deriving DecidableEq, Repr

/-- The call `s.insert(x)` of a `std::set` of pairs, kept as a list that
increases in the order of `std::pair`: by first component, then by second. -/
def pair_set_insert (x : Nat × Nat) : List (Nat × Nat) → List (Nat × Nat)
  | [] => [x]
  | y :: ys =>
    if x.1 < y.1 ∨ (x.1 = y.1 ∧ x.2 < y.2) then x :: y :: ys
    else if x = y then y :: ys
    else y :: pair_set_insert x ys

/-- Modelled from the spec: the union of a received map of created resources
into the map of the receiver: a received key that the receiver lacks is entered
with its received count, and for a key that it has the two counts are combined
by `combine`; no key of the receiver is dropped. -/
def merge_created (combine : Nat → Nat → Nat) (received current : List (Nat × Nat)) :
    List (Nat × Nat) :=
  received.foldl
    (fun acc e =>
      match map_find e.1 acc with
      | none => map_assign e.1 e.2 acc
      | some count => map_assign e.1 (combine count e.2) acc)
    current

/-- Modelled from the spec: the merge of received latent field spaces into the
pending map keyed by field space: the regions received for a field space are
inserted into the set that the receiver keeps for it. -/
def merge_latent (received current : List (FieldSpace × List LogicalRegion)) :
    List (FieldSpace × List LogicalRegion) :=
  received.foldl
    (fun acc e =>
      match map_find e.1 acc with
      | none => map_assign e.1 (e.2.foldl (fun s r => set_insert r s) []) acc
      | some regions => map_assign e.1 (e.2.foldl (fun s r => set_insert r s) regions) acc)
    current

/-- Modelled from the spec: the body of
`ResourceTracker::merge_received_resources`, which is not in the header: the
created maps and the created-field set are unioned with what is received, each
deleted vector has the received entries appended in their order, and the latent
field spaces are merged into the pending map. -/
def ResourceTracker.merge_received_resources (combine : Nat → Nat → Nat)
    (self : ResourceTracker)
    (created_regions : List (LogicalRegion × Nat))
    (deleted_regions : List DeletedRegion)
    (created_fields : List (FieldSpace × FieldID))
    (deleted_fields : List DeletedField)
    (created_field_spaces : List (FieldSpace × Nat))
    (latent_spaces : List (FieldSpace × List LogicalRegion))
    (deleted_field_spaces : List DeletedFieldSpace)
    (created_index_spaces : List (IndexSpace × Nat))
    (deleted_index_spaces : List DeletedIndexSpace)
    (created_partitions : List (IndexPartition × Nat))
    (deleted_partitions : List DeletedPartition) : ResourceTracker :=
  { created_regions := merge_created combine created_regions self.created_regions,
    local_regions := self.local_regions,
    created_fields := created_fields.foldl (fun s f => pair_set_insert f s) self.created_fields,
    local_fields := self.local_fields,
    created_field_spaces :=
      merge_created combine created_field_spaces self.created_field_spaces,
    created_index_spaces :=
      merge_created combine created_index_spaces self.created_index_spaces,
    created_index_partitions :=
      merge_created combine created_partitions self.created_index_partitions,
    deleted_regions := self.deleted_regions ++ deleted_regions,
    deleted_fields := self.deleted_fields ++ deleted_fields,
    deleted_field_spaces := self.deleted_field_spaces ++ deleted_field_spaces,
    latent_field_spaces := merge_latent latent_spaces self.latent_field_spaces,
    deleted_index_spaces := self.deleted_index_spaces ++ deleted_index_spaces,
    deleted_index_partitions := self.deleted_index_partitions ++ deleted_partitions }

/-- Modelled from the spec: the body of `ResourceTracker::has_return_resources`,
which is not in the header: the tracker has accumulated a created or a deleted
resource. -/
def ResourceTracker.has_return_resources (self : ResourceTracker) : Bool :=
  !(self.created_regions.isEmpty && self.deleted_regions.isEmpty
    && self.created_fields.isEmpty && self.deleted_fields.isEmpty
    && self.created_field_spaces.isEmpty && self.latent_field_spaces.isEmpty
    && self.deleted_field_spaces.isEmpty && self.created_index_spaces.isEmpty
    && self.deleted_index_spaces.isEmpty && self.created_index_partitions.isEmpty
    && self.deleted_index_partitions.isEmpty)

/-- A tracker that receives returned resources: `receive_resources` is pure
virtual in `ResourceTracker`, and the class that implements it keeps, next to
the collections of the tracker, the return indexes it has taken, as a set. -/
structure ReceivingTracker where
  tracker : ResourceTracker
  received_returns : List Nat
  deriving DecidableEq, Repr

/-- Modelled from the spec: an implementation of the pure virtual
`ResourceTracker::receive_resources`: a return whose `return_index` was taken
before is dropped, which is the guard against a double return; otherwise the
index is recorded and the resources are merged by `merge_received_resources`. -/
def ReceivingTracker.receive_resources (combine : Nat → Nat → Nat)
    (self : ReceivingTracker) (return_index : Nat)
    (created_regions : List (LogicalRegion × Nat))
    (deleted_regions : List DeletedRegion)
    (created_fields : List (FieldSpace × FieldID))
    (deleted_fields : List DeletedField)
    (created_field_spaces : List (FieldSpace × Nat))
    (latent_spaces : List (FieldSpace × List LogicalRegion))
    (deleted_field_spaces : List DeletedFieldSpace)
    (created_index_spaces : List (IndexSpace × Nat))
    (deleted_index_spaces : List DeletedIndexSpace)
    (created_partitions : List (IndexPartition × Nat))
    (deleted_partitions : List DeletedPartition) : ReceivingTracker :=
  if return_index ∈ self.received_returns then self
  else
    { tracker := self.tracker.merge_received_resources combine created_regions
        deleted_regions created_fields deleted_fields created_field_spaces latent_spaces
        deleted_field_spaces created_index_spaces deleted_index_spaces created_partitions
        deleted_partitions,
      received_returns := set_insert return_index self.received_returns }

/-- Modelled from the spec: the body of `ResourceTracker::return_resources`,
which is not in the header: a tracker with nothing to return does nothing;
otherwise its created and deleted resources are handed to `receive_resources`
of the target under `return_index`.  The transfer is modelled as done when the
call returns; the events added to `preconditions` are not modelled. -/
def ResourceTracker.return_resources (combine : Nat → Nat → Nat)
    (self : ResourceTracker) (target : ReceivingTracker) (return_index : Nat) :
    ReceivingTracker :=
  if self.has_return_resources then
    target.receive_resources combine return_index self.created_regions
      self.deleted_regions self.created_fields self.deleted_fields
      self.created_field_spaces self.latent_field_spaces self.deleted_field_spaces
      self.created_index_spaces self.deleted_index_spaces self.created_index_partitions
      self.deleted_index_partitions
  else target

/-! ## Rect overloads of create_instance -/

/-- The inline body of `RegionInstance::create_instance` for a `Rect` and a
`std::vector<size_t>` of field sizes: the call is forwarded to the index-space
overload with `IndexSpace<N,T>(rect)`; that constructor, which `instance.inl`
does not define, is `index_space_of_rect`. -/
def RegionInstance.create_instance_rect_vector
    {Rect Space Constraints Layout Requests : Type}
    (api : InstanceLayoutInterface Space Constraints Layout Requests)
    (index_space_of_rect : Rect → Space)
    (inst : RegionInstance) (memory : Memory) (rect : Rect)
    (field_sizes : List Nat) (block_size : Nat) (prs : Requests) (wait_on : Event) :
    Event × RegionInstance :=
  RegionInstance.create_instance_vector api inst memory (index_space_of_rect rect)
    field_sizes block_size prs wait_on

/-- The inline body of `RegionInstance::create_instance` for a `Rect` and a
`std::map<FieldID, size_t>` of field sizes. -/
def RegionInstance.create_instance_rect_map
    {Rect Space Constraints Layout Requests : Type}
    (api : InstanceLayoutInterface Space Constraints Layout Requests)
    (index_space_of_rect : Rect → Space)
    (inst : RegionInstance) (memory : Memory) (rect : Rect)
    (field_sizes : List (FieldID × Nat)) (block_size : Nat) (prs : Requests)
    (wait_on : Event) : Event × RegionInstance :=
  RegionInstance.create_instance_map api inst memory (index_space_of_rect rect)
    field_sizes block_size prs wait_on

/-- An interface that keeps the index space: the layout is the space it was
chosen for, and the instance made has that space as id and the event waited on
as its event. -/
def space_interface : InstanceLayoutInterface Nat Nat Nat Nat where
  constraints_of_vector := fun _ block_size => block_size
  constraints_of_map := fun _ block_size => block_size
  choose_instance_layout := fun space _ => space
  create_instance := fun _ _ layout _ wait_on => (wait_on, { id := layout })

/-! ## Comparison of region instances -/

/-- The inline body of `RegionInstance::operator<`. -/
def RegionInstance.lt (self rhs : RegionInstance) : Bool :=
  decide (self.id < rhs.id)

/-- The inline body of `RegionInstance::operator==`. -/
def RegionInstance.eq (self rhs : RegionInstance) : Bool :=
  decide (self.id = rhs.id)

/-- The inline body of `RegionInstance::operator!=`. -/
def RegionInstance.ne (self rhs : RegionInstance) : Bool :=
  decide (self.id ≠ rhs.id)

/-- The inline body of `RegionInstance::exists`. -/
def RegionInstance.exists (self : RegionInstance) : Bool :=
  decide (self.id ≠ 0)

/-! ## Invalidation of physical trace templates -/

/-- The enumeration `FenceOp::FenceKind`. -/
inductive FenceKind where
  | MAPPING_FENCE
  | EXECUTION_FENCE
  deriving DecidableEq, Repr

/-- The class `FenceOp`, a `MemoizableOp`: of its own data members the kind of
the fence. -/
structure FenceOp extends MemoizableOp where
  fence_kind : FenceKind
  deriving DecidableEq, Repr

/-- The inline body of `Operation::invalidates_physical_trace_template`.  The
reference parameter `exec_fence` is passed in with its value before the call,
and the result is the returned value with the value of `exec_fence` after it. -/
def Operation.invalidates_physical_trace_template (_self : Operation)
    (_exec_fence : Bool) : Bool × Bool :=
  let exec_fence := false
  (true, exec_fence)

/-- The inline body of `PredicateImpl::invalidates_physical_trace_template`,
which does not assign `exec_fence`. -/
def PredicateImpl.invalidates_physical_trace_template (_self : PredicateImpl)
    (exec_fence : Bool) : Bool × Bool :=
  (false, exec_fence)

/-- The inline body of `FenceOp::invalidates_physical_trace_template`. -/
def FenceOp.invalidates_physical_trace_template (self : FenceOp)
    (_exec_fence : Bool) : Bool × Bool :=
  let exec_fence := decide (self.fence_kind = FenceKind.EXECUTION_FENCE)
  (exec_fence, exec_fence)

/-- The inline body of `TimingOp::invalidates_physical_trace_template`, which
reads no member and does not assign `exec_fence`. -/
def TimingOp.invalidates_physical_trace_template (exec_fence : Bool) : Bool × Bool :=
  (false, exec_fence)

/-- The inline body of `TunableOp::invalidates_physical_trace_template`, which
reads no member and does not assign `exec_fence`. -/
def TunableOp.invalidates_physical_trace_template (exec_fence : Bool) : Bool × Bool :=
  (false, exec_fence)

/-- The inline body of `AllReduceOp::invalidates_physical_trace_template`, which
reads no member and does not assign `exec_fence`. -/
def AllReduceOp.invalidates_physical_trace_template (exec_fence : Bool) : Bool × Bool :=
  (false, exec_fence)

/-- The object a call of `invalidates_physical_trace_template` is made on, by
the class whose body defined in the header is the one that runs. -/
inductive TraceTemplateReceiver where
  | operation (op : Operation)
  | predicate_impl (pred : PredicateImpl)
  | fence_op (fence : FenceOp)
  | timing_op
  | tunable_op
  | all_reduce_op

/-- The virtual call `op->invalidates_physical_trace_template(exec_fence)`. -/
def TraceTemplateReceiver.invalidates_physical_trace_template
    (self : TraceTemplateReceiver) (exec_fence : Bool) : Bool × Bool :=
  match self with
  | TraceTemplateReceiver.operation op => op.invalidates_physical_trace_template exec_fence
  | TraceTemplateReceiver.predicate_impl pred =>
    pred.invalidates_physical_trace_template exec_fence
  | TraceTemplateReceiver.fence_op fence =>
    fence.invalidates_physical_trace_template exec_fence
  | TraceTemplateReceiver.timing_op => TimingOp.invalidates_physical_trace_template exec_fence
  | TraceTemplateReceiver.tunable_op =>
    TunableOp.invalidates_physical_trace_template exec_fence
  | TraceTemplateReceiver.all_reduce_op =>
    AllReduceOp.invalidates_physical_trace_template exec_fence

/-- The body of the receiver assigns `exec_fence`: those of `Operation` and
`FenceOp` do, the others return false and leave it alone. -/
def TraceTemplateReceiver.assigns_exec_fence : TraceTemplateReceiver → Bool
  | TraceTemplateReceiver.operation _ => true
  | TraceTemplateReceiver.fence_op _ => true
  | _ => false

/-! ## String constructors of AutoProvenance -/

/-- The constant `Provenance::delimeter`, the character `$`. -/
def Provenance.delimeter : Nat := 36

/-- Modelled from the spec: the body of `Provenance::initialize`, which is not
in the header: the string is split at the first delimiter into the human part
before it and the machine part after it; a string without delimiter is all
human.  The object is new and nobody references it yet. -/
def Provenance.initialize (prov : CppString) : Provenance :=
  { human := prov.takeWhile (fun c => decide (c ≠ Provenance.delimeter)),
    machine := (prov.dropWhile (fun c => decide (c ≠ Provenance.delimeter))).drop 1,
    references := 0 }

/-- Modelled from the spec: the constructor `Provenance(const char *prov)`,
which is not in the header: the object is initialized from the characters of
the C string. -/
def Provenance.of_c_string (prov : CppString) : Provenance :=
  Provenance.initialize prov

/-- Modelled from the spec: the constructor `Provenance(const std::string &prov)`,
which is not in the header: the object is initialized from the characters of
the string. -/
def Provenance.of_string (prov : CppString) : Provenance :=
  Provenance.initialize prov

/-- The expression `new Provenance(...)`: the object is placed at the address
`fresh` that the allocator hands out, and the pointer to it is the result. -/
def ProvenanceHeap.new (heap : ProvenanceHeap) (fresh : Nat) (object : Provenance) :
    Option Nat × ProvenanceHeap :=
  (some fresh, heap.set fresh (some object))

/-- The inline constructor `AutoProvenance(const char *prov)`; the C string is
`none` for a null pointer and otherwise its characters up to the terminator. -/
def AutoProvenance.of_c_string (heap : ProvenanceHeap) (fresh : Nat)
    (prov : Option CppString) : AutoProvenance × ProvenanceHeap :=
  let made :=
    match prov with
    | none => (none, heap)
    | some s => heap.new fresh (Provenance.of_c_string s)
  AutoProvenance.of_pointer made.2 made.1

/-- The inline constructor `AutoProvenance(const std::string &prov)`. -/
def AutoProvenance.of_string (heap : ProvenanceHeap) (fresh : Nat) (prov : CppString) :
    AutoProvenance × ProvenanceHeap :=
  let made :=
    if prov.isEmpty then (none, heap)
    else heap.new fresh (Provenance.of_string prov)
  AutoProvenance.of_pointer made.2 made.1

/-! ## Sample states -/

/-- An operation in generation `gen` that holds `references` mapping references
and has nothing else recorded; its mapped event is `event`. -/
def Operation.at_generation (gen : GenerationID) (references : Nat) (event : RtEvent) :
    Operation :=
  { gen := gen
    incoming := []
    outgoing := []
    outstanding_mapping_references := references
    verify_regions := []
    mapped := false
    executed := false
    completed := false
    committed := false
    trigger_commit_invoked := false
    early_commit_request := false
    mapped_event := event
    mapping_tracker := { mapping_dependences := [] } }

/-- Sample operation objects: operation 1 is in generation 3 with one mapping
reference, operation 2 is in generation 0 with none, every other operation is in
generation 0 with one. -/
def sample_arena : OpArena := fun i =>
  if i = 1 then Operation.at_generation 3 1 11
  else if i = 2 then Operation.at_generation 0 0 12
  else Operation.at_generation 0 1 10

/-- A sample run: operation 0 registers a validating dependence on operation 1,
whose references are then dropped; operation 1 executes and completes; operation
0 commits, and the commit decision of operation 1 is taken again. -/
def sample_calls : List Call :=
  [ Call.register_region_dependence 0 1 3 0 true,
    Call.remove_mapping_reference 1 3,
    Call.complete_execution 1,
    Call.remove_mapping_reference 1 3,
    Call.complete_operation 1,
    Call.commit_operation 0,
    Call.issue_commit_trigger 1 ]

/-- The pipeline after the sample run from the sample operation objects. -/
def sample_pipeline : Pipeline :=
  Pipeline.run { ops := sample_arena, invoked := [] } sample_calls

/-- The invocation of `trigger_commit` on operation 1 that ends the sample run. -/
def sample_commit_invocation : Invocation :=
  { kind := Trigger.trigger_commit, op := 1, at_call := sample_pipeline.ops }

/-- The invocation of `trigger_complete` on operation 1 in the sample run, made when the
last mapping reference is dropped, four calls in. -/
def sample_complete_invocation : Invocation :=
  { kind := Trigger.trigger_complete, op := 1,
    at_call := (Pipeline.run { ops := sample_arena, invoked := [] } (sample_calls.take 4)).ops }

/-- Sample arrivals of four point operations for one requirement and analysis:
the first and the third bring the same instance set for region 5, the second
another one, the fourth the first one for region 6. -/
def sample_arrivals : List Arrival :=
  [ { region := 5, targets := [(1, 1)],
      out := { analysis_mapping := 10, first_local := 11, target_views := 12,
               collective_arrivals := 13 } },
    { region := 5, targets := [(2, 1)],
      out := { analysis_mapping := 20, first_local := 21, target_views := 22,
               collective_arrivals := 23 } },
    { region := 5, targets := [(1, 1)],
      out := { analysis_mapping := 30, first_local := 31, target_views := 32,
               collective_arrivals := 33 } },
    { region := 6, targets := [(1, 1)],
      out := { analysis_mapping := 40, first_local := 41, target_views := 42,
               collective_arrivals := 43 } } ]

/-- A sample choice of collective view identities: 100 more than the sum of
the instance identities. -/
def sample_views : List (DistributedID × FieldMask) → DistributedID :=
  fun insts => 100 + (insts.map Prod.fst).sum

/-- A sample run of predication: operations 1 and 2 register, operation 2
starts mapping speculatively and enters the execution pipeline, the predicate
resolves to false, operation 3 registers afterwards, and operation 1 is
reclaimed and registers again in its new generation. -/
def sample_predication_calls : List PredicationCall :=
  [ PredicationCall.trigger_dependence_analysis 1,
    PredicationCall.trigger_dependence_analysis 2,
    PredicationCall.trigger_ready 2 true,
    PredicationCall.trigger_mapping 2,
    PredicationCall.set_resolved_value 0 false,
    PredicationCall.trigger_dependence_analysis 3,
    PredicationCall.deactivate 1,
    PredicationCall.trigger_dependence_analysis 1,
    PredicationCall.set_resolved_value 0 true ]

/-- A heap with one `Provenance` object, at address 1, holding `references`
references. -/
def sample_heap (references : Nat) : ProvenanceHeap :=
  fun a => if a = 1 then some { human := [104, 105], machine := [109], references := references }
    else none

/-- A memoizable operation that is not subject to memoization and has no
template, such as a fence. -/
def sample_fence : MemoizableOp :=
  { tpl := none, memo_state := MemoizableState.NO_MEMO }

/-- A tracker that has created region 5 and deleted region 9 and nothing else. -/
def sample_tracker : ResourceTracker :=
  { created_regions := [(5, 1)], local_regions := [], created_fields := [],
    local_fields := [], created_field_spaces := [], created_index_spaces := [],
    created_index_partitions := [],
    deleted_regions := [{ region := 9, provenance := none }], deleted_fields := [],
    deleted_field_spaces := [], latent_field_spaces := [], deleted_index_spaces := [],
    deleted_index_partitions := [] }

/-- A receiving tracker that has created region 2, deleted region 7, and has
taken no return yet. -/
def sample_target : ReceivingTracker :=
  { tracker :=
      { created_regions := [(2, 1)], local_regions := [], created_fields := [],
        local_fields := [], created_field_spaces := [], created_index_spaces := [],
        created_index_partitions := [],
        deleted_regions := [{ region := 7, provenance := none }], deleted_fields := [],
        deleted_field_spaces := [], latent_field_spaces := [], deleted_index_spaces := [],
        deleted_index_partitions := [] },
    received_returns := [] }

/-- The lifecycle calls of one operation that executes, completes, and commits
with `do_deactivate` set. -/
def sample_lifecycle_calls : List LifecycleCall :=
  [LifecycleCall.complete_execution 0, LifecycleCall.complete_operation 0,
   LifecycleCall.commit_operation 0 true]

/-- Four pending keys in map order, the regions being compared as numbers: one
of the rendezvous key (0, 1), two of (1, 0) and one of (1, 2). -/
def sample_pending_keys : List PendingRendezvousKey :=
  [{ region_index := 0, analysis := 1, region := 9 },
   { region_index := 1, analysis := 0, region := 3 },
   { region_index := 1, analysis := 0, region := 8 },
   { region_index := 1, analysis := 2, region := 1 }]

/-! # Properties -/

/-! ## Stale generations are pruned -/

/-- C1: when the target's current generation is greater than the generation
asked for, `register_dependence` returns true (prunable) and changes nothing:
no entry is added to the source's `incoming`, none to the target's `outgoing`,
and no event to the source's mapping dependence tracker. -/
theorem register_dependence_stale_pruned (σ : OpArena) (S T : OpId) (g : GenerationID)
    (hstale : g < (σ T).get_generation) :
    (register_dependence σ S T g).1 = true ∧
    ((register_dependence σ S T g).2 S).incoming = (σ S).incoming ∧
    ((register_dependence σ S T g).2 T).outgoing = (σ T).outgoing ∧
    ((register_dependence σ S T g).2 S).mapping_tracker = (σ S).mapping_tracker ∧
    (register_dependence σ S T g).2 = σ := by
  have hlt : g < (σ T).gen := hstale
  simp [register_dependence, perform_registration, hlt]

/-- C1 at a concrete input: operation 1 is in generation 3, and a dependence on
its generation 2 is pruned without a trace. -/
theorem register_dependence_stale_pruned_witness :
    2 < (sample_arena 1).get_generation ∧
    ((register_dependence sample_arena 0 1 2).1 = true ∧
    ((register_dependence sample_arena 0 1 2).2 0).incoming = (sample_arena 0).incoming ∧
    ((register_dependence sample_arena 0 1 2).2 1).outgoing = (sample_arena 1).outgoing ∧
    ((register_dependence sample_arena 0 1 2).2 0).mapping_tracker
      = (sample_arena 0).mapping_tracker ∧
    (register_dependence sample_arena 0 1 2).2 = sample_arena) :=
  ⟨by decide, register_dependence_stale_pruned sample_arena 0 1 2 (by decide)⟩

/-- A dependence on the current generation of an operation that still takes mapping
references is recorded, on both sides and in the tracker, and is not prunable. -/
theorem register_dependence_live_recorded :
    (register_dependence sample_arena 0 1 3).1 = false ∧
    ((register_dependence sample_arena 0 1 3).2 0).incoming = [(1, 3)] ∧
    ((register_dependence sample_arena 0 1 3).2 1).outgoing = [(0, 0)] ∧
    ((register_dependence sample_arena 0 1 3).2 1).outstanding_mapping_references = 2 ∧
    ((register_dependence sample_arena 0 1 3).2 0).mapping_tracker
      = { mapping_dependences := [11] } := by
  decide

/-! ## Mapping references -/

/-- Reading the operation object just stored. -/
theorem OpArena.set_same (σ : OpArena) (o : OpId) (v : Operation) : (σ.set o v) o = v := by
  simp [OpArena.set]

/-- Reading another operation object than the one just stored. -/
theorem OpArena.set_other (σ : OpArena) (o i : OpId) (v : Operation) (h : i ≠ o) :
    (σ.set o v) i = σ i := by
  simp [OpArena.set, h]

/-- What `add_mapping_reference` leaves alone, and what it does at zero. -/
theorem Operation.add_mapping_reference_frame (O : Operation) (g : GenerationID) :
    (O.add_mapping_reference g).2.gen = O.gen ∧
    (O.outstanding_mapping_references = 0 →
      (O.add_mapping_reference g).2.outstanding_mapping_references = 0) := by
  unfold Operation.add_mapping_reference
  split
  · simp
  · split
    · simp
    · simp_all

/-- The generation of every operation is left alone by `perform_registration`, and so is a
reference count of zero. -/
theorem perform_registration_frame (σ : OpArena) (T : OpId) (g : GenerationID) (S : OpId)
    (sg : GenerationID) (o : OpId) :
    ((perform_registration σ T g S sg).2.2 o).gen = (σ o).gen ∧
    ((σ o).outstanding_mapping_references = 0 →
      ((perform_registration σ T g S sg).2.2 o).outstanding_mapping_references = 0) := by
  have hf := Operation.add_mapping_reference_frame (σ T) g
  unfold perform_registration
  split
  · simp
  · rcases h : (σ T).add_mapping_reference g with ⟨b, t1⟩
    rw [h] at hf
    cases b
    · simp
    · by_cases hoS : o = S <;> by_cases hoT : o = T <;>
        simp_all [OpArena.set]

/-- The generation of every operation is left alone by `register_dependence`, and so is a
reference count of zero. -/
theorem register_dependence_frame (σ : OpArena) (S T : OpId) (g : GenerationID) (o : OpId) :
    ((register_dependence σ S T g).2 o).gen = (σ o).gen ∧
    ((σ o).outstanding_mapping_references = 0 →
      ((register_dependence σ S T g).2 o).outstanding_mapping_references = 0) := by
  have hf := perform_registration_frame σ T g S (σ S).gen o
  unfold register_dependence
  rcases h : perform_registration σ T g S (σ S).gen with ⟨prune, reg, σ1⟩
  rw [h] at hf
  cases reg
  · simpa using hf
  · by_cases hoS : o = S
    · subst hoS
      simpa [OpArena.set] using hf
    · simpa [OpArena.set, hoS] using hf

/-- The generation of every operation is left alone by `register_region_dependence`, and so
is a reference count of zero. -/
theorem register_region_dependence_frame (σ : OpArena) (S T : OpId) (g : GenerationID)
    (idx : Nat) (v : Bool) (o : OpId) :
    ((register_region_dependence σ S T g idx v).2 o).gen = (σ o).gen ∧
    ((σ o).outstanding_mapping_references = 0 →
      ((register_region_dependence σ S T g idx v).2 o).outstanding_mapping_references = 0) := by
  have hf := register_dependence_frame σ S T g o
  unfold register_region_dependence
  rcases h : register_dependence σ S T g with ⟨prune, σ1⟩
  rw [h] at hf
  by_cases hc : (!prune && v) = true
  · by_cases hoS : o = S
    · subst hoS
      simpa [hc, OpArena.set] using hf
    · simpa [hc, OpArena.set, hoS] using hf
  · simpa [hc] using hf

/-- The commit decision leaves generations and reference counts alone. -/
theorem Pipeline.try_commit_frame (p : Pipeline) (c o : OpId) :
    ((p.try_commit c).ops o).gen = (p.ops o).gen ∧
    ((p.try_commit c).ops o).outstanding_mapping_references
      = (p.ops o).outstanding_mapping_references := by
  unfold Pipeline.try_commit
  split
  · by_cases hoc : o = c
    · subst hoc
      simp [Pipeline.invoke, OpArena.set]
    · simp [Pipeline.invoke, OpArena.set, hoc]
  · simp

/-- Within a generation, a call leaves a reference count of zero at zero. -/
theorem Pipeline.step_zero_references (p : Pipeline) (o : OpId) (c : Call)
    (h0 : (p.ops o).outstanding_mapping_references = 0) (hc : c ≠ Call.deactivate o) :
    ((p.step c).ops o).gen = (p.ops o).gen ∧
    ((p.step c).ops o).outstanding_mapping_references = 0 := by
  cases c with
  | add_mapping_reference c g =>
    have hf := Operation.add_mapping_reference_frame (p.ops c) g
    by_cases hoc : o = c
    · subst hoc
      simpa [Pipeline.step, OpArena.set] using ⟨hf.1, hf.2 h0⟩
    · simp [Pipeline.step, OpArena.set, hoc, h0]
  | remove_mapping_reference c g =>
    by_cases hoc : o = c
    · subst hoc
      simp [Pipeline.step, Pipeline.remove_mapping_reference, h0]
    · simp only [Pipeline.step, Pipeline.remove_mapping_reference]
      split
      · exact ⟨rfl, h0⟩
      · split
        · exact ⟨rfl, h0⟩
        · split
          · rw [(Pipeline.try_commit_frame _ c o).1, (Pipeline.try_commit_frame _ c o).2]
            split <;> simp [Pipeline.invoke, OpArena.set, hoc, h0]
          · simp [OpArena.set, hoc, h0]
  | register_dependence S T g =>
    have hf := register_dependence_frame p.ops S T g o
    exact ⟨hf.1, hf.2 h0⟩
  | register_region_dependence S T g idx v =>
    have hf := register_region_dependence_frame p.ops S T g idx v o
    exact ⟨hf.1, hf.2 h0⟩
  | complete_execution c =>
    by_cases hoc : o = c
    · subst hoc
      simp [Pipeline.step, Pipeline.complete_execution, Pipeline.invoke, OpArena.set, h0]
    · simp only [Pipeline.step, Pipeline.complete_execution]
      split <;> simp [Pipeline.invoke, OpArena.set, hoc, h0]
  | complete_operation c =>
    simp only [Pipeline.step, Pipeline.complete_operation]
    rw [(Pipeline.try_commit_frame _ c o).1, (Pipeline.try_commit_frame _ c o).2]
    by_cases hoc : o = c
    · subst hoc
      simp [OpArena.set, h0]
    · simp [OpArena.set, hoc, h0]
  | commit_operation c =>
    by_cases hoc : o = c
    · subst hoc
      simp [Pipeline.step, Pipeline.commit_operation, OpArena.set, h0]
    · simp [Pipeline.step, Pipeline.commit_operation, OpArena.set, hoc, h0]
  | request_early_commit c =>
    by_cases hoc : o = c
    · subst hoc
      simp [Pipeline.step, Pipeline.request_early_commit, OpArena.set, h0]
    · simp [Pipeline.step, Pipeline.request_early_commit, OpArena.set, hoc, h0]
  | issue_commit_trigger c =>
    simp only [Pipeline.step]
    rw [(Pipeline.try_commit_frame _ c o).1, (Pipeline.try_commit_frame _ c o).2]
    exact ⟨rfl, h0⟩
  | deactivate c =>
    have hoc : o ≠ c := fun h => hc (by rw [h])
    simp [Pipeline.step, OpArena.set, hoc, h0]

/-- C2: within one generation of an operation (no `deactivate` of it among the
calls), once `outstanding_mapping_references` is zero it is zero after every
later sequence of calls, so it never increases again, and a later call
`add_mapping_reference(gen)` returns false and leaves the operation, its count
included, unchanged. -/
theorem mapping_references_never_increase_after_zero (p : Pipeline) (o : OpId)
    (calls : List Call) (gen : GenerationID)
    (h0 : (p.ops o).outstanding_mapping_references = 0)
    (hgen : ∀ c ∈ calls, c ≠ Call.deactivate o) :
    ((p.run calls).ops o).gen = (p.ops o).gen ∧
    ((p.run calls).ops o).outstanding_mapping_references = 0 ∧
    ((p.run calls).ops o).add_mapping_reference gen = (false, (p.run calls).ops o) ∧
    (((p.run calls).step (Call.add_mapping_reference o gen)).ops o) = (p.run calls).ops o := by
  induction calls generalizing p with
  | nil =>
    simp [Pipeline.run, Pipeline.step, Operation.add_mapping_reference, h0, OpArena.set]
  | cons c cs ih =>
    have hs := Pipeline.step_zero_references p o c h0 (hgen c (List.mem_cons_self _ _))
    have := ih (p.step c) hs.2 (fun d hd => hgen d (List.mem_cons_of_mem _ hd))
    simpa [Pipeline.run, hs.1] using this

/-! ## Triggers are invoked only when allowed -/

/-- Setting `trigger_commit_invoked` on `o` does not change whether the validators of `o`
have committed. -/
theorem validators_committed_set_invoked (σ : OpArena) (o : OpId) :
    validators_committed (σ.set o { σ o with trigger_commit_invoked := true }) o
      = validators_committed σ o := by
  unfold validators_committed holds_validating_dependence
  rw [OpArena.set_same]
  congr 1
  funext e
  by_cases h : e.1 = o
  · simp [OpArena.set, h]
  · simp [OpArena.set, h]

/-- The commit decision keeps the record justified. -/
theorem Pipeline.try_commit_justified (p : Pipeline) (o : OpId) (h : p.justified) :
    (p.try_commit o).justified := by
  unfold Pipeline.try_commit
  by_cases hr : commit_ready p.ops o = true
  · rw [if_pos hr]
    intro inv hinv
    simp only [Pipeline.invoke, List.mem_cons] at hinv
    rcases hinv with rfl | hinv
    · refine ⟨fun hk => (by cases hk), fun _ => ?_⟩
      simp only [commit_ready, Bool.and_eq_true, Bool.or_eq_true, decide_eq_true_eq] at hr
      have hv := validators_committed_set_invoked p.ops o
      refine ⟨?_, ?_, ?_⟩
      · simpa [OpArena.set_same] using hr.1.1.2
      · simpa [OpArena.set_same] using hr.1.2
      · simpa [OpArena.set_same, hv] using hr.2
    · exact h inv hinv
  · rw [if_neg hr]
    exact h

/-- Changing the operation objects keeps the record justified: an invocation carries the
state it was made in. -/
theorem Pipeline.justified_of_invoked_eq (p q : Pipeline) (h : p.justified)
    (hq : q.invoked = p.invoked) : q.justified := by
  unfold Pipeline.justified
  rw [hq]
  exact h

/-- Every call keeps the record justified. -/
theorem Pipeline.step_justified (p : Pipeline) (c : Call) (h : p.justified) :
    (p.step c).justified := by
  cases c with
  | add_mapping_reference o g => exact Pipeline.justified_of_invoked_eq p _ h rfl
  | remove_mapping_reference o g =>
    simp only [Pipeline.step, Pipeline.remove_mapping_reference]
    split
    · exact h
    · split
      · exact h
      · split
        · rename_i hz
          apply Pipeline.try_commit_justified
          split
          · rename_i he
            intro inv hinv
            simp only [Pipeline.invoke, List.mem_cons] at hinv
            rcases hinv with rfl | hinv
            · refine ⟨fun _ => ?_, fun hk => by cases hk⟩
              simpa [OpArena.set_same] using And.intro he hz
            · exact h inv hinv
          · exact Pipeline.justified_of_invoked_eq p _ h rfl
        · exact Pipeline.justified_of_invoked_eq p _ h rfl
  | register_dependence S T g => exact Pipeline.justified_of_invoked_eq p _ h rfl
  | register_region_dependence S T g idx v => exact Pipeline.justified_of_invoked_eq p _ h rfl
  | complete_execution o =>
    simp only [Pipeline.step, Pipeline.complete_execution]
    split
    · rename_i hz
      intro inv hinv
      simp only [Pipeline.invoke, List.mem_cons] at hinv
      rcases hinv with rfl | hinv
      · refine ⟨fun _ => ?_, fun hk => by cases hk⟩
        simpa [OpArena.set_same] using hz
      · exact h inv hinv
    · exact Pipeline.justified_of_invoked_eq p _ h rfl
  | complete_operation o =>
    exact Pipeline.try_commit_justified _ o (Pipeline.justified_of_invoked_eq p _ h rfl)
  | commit_operation o => exact Pipeline.justified_of_invoked_eq p _ h rfl
  | request_early_commit o => exact Pipeline.justified_of_invoked_eq p _ h rfl
  | issue_commit_trigger o => exact Pipeline.try_commit_justified p o h
  | deactivate o => exact Pipeline.justified_of_invoked_eq p _ h rfl

/-- Every sequence of calls keeps the record justified. -/
theorem Pipeline.run_justified (p : Pipeline) (calls : List Call) (h : p.justified) :
    (p.run calls).justified := by
  induction calls generalizing p with
  | nil => exact h
  | cons c cs ih => exact ih (p.step c) (Pipeline.step_justified p c h)

/-! ## `trigger_commit` is invoked at most once in a generation -/

/-- The registration of a dependence leaves `trigger_commit_invoked` alone. -/
theorem register_dependence_invoked (σ : OpArena) (S T : OpId) (g : GenerationID) (o : OpId) :
    ((register_dependence σ S T g).2 o).trigger_commit_invoked
      = (σ o).trigger_commit_invoked := by
  unfold register_dependence perform_registration Operation.add_mapping_reference
  by_cases hoS : o = S <;> by_cases hoT : o = T <;>
    (split_ifs <;> simp_all [OpArena.set])

/-- The registration of a region dependence leaves `trigger_commit_invoked` alone. -/
theorem register_region_dependence_invoked (σ : OpArena) (S T : OpId) (g : GenerationID)
    (idx : Nat) (v : Bool) (o : OpId) :
    ((register_region_dependence σ S T g idx v).2 o).trigger_commit_invoked
      = (σ o).trigger_commit_invoked := by
  have hf := register_dependence_invoked σ S T g o
  unfold register_region_dependence
  rcases h : register_dependence σ S T g with ⟨prune, σ1⟩
  rw [h] at hf
  by_cases hc : (!prune && v) = true
  · by_cases hoS : o = S
    · subst hoS
      simpa [hc, OpArena.set] using hf
    · simpa [hc, OpArena.set, hoS] using hf
  · simpa [hc] using hf

/-- Recording a `trigger_complete` does not change the count of `trigger_commit`. -/
theorem commit_count_cons_complete (l : List Invocation) (c : OpId) (σ : OpArena)
    (o : OpId) (g : GenerationID) :
    commit_count ({ kind := Trigger.trigger_complete, op := c, at_call := σ } :: l) o g
      = commit_count l o g := by
  simp [commit_count]

/-- A change of the operation objects that keeps every generation and every
`trigger_commit_invoked`, and records nothing or a `trigger_complete`, keeps the count
invariant. -/
theorem Pipeline.commit_once_of_frame (p q : Pipeline) (h : p.commit_once)
    (hinv : q.invoked = p.invoked ∨
      ∃ c σ, q.invoked = { kind := Trigger.trigger_complete, op := c, at_call := σ } :: p.invoked)
    (hgen : ∀ o, (q.ops o).gen = (p.ops o).gen)
    (hflag : ∀ o, (q.ops o).trigger_commit_invoked = (p.ops o).trigger_commit_invoked) :
    q.commit_once := by
  intro o g
  have hcount : commit_count q.invoked o g = commit_count p.invoked o g := by
    rcases hinv with hq | ⟨c, σ, hq⟩
    · rw [hq]
    · rw [hq, commit_count_cons_complete]
  rw [hcount, hgen o, hflag o]
  exact h o g

/-- The commit decision keeps the count invariant. -/
theorem Pipeline.try_commit_commit_once (p : Pipeline) (c : OpId) (h : p.commit_once) :
    (p.try_commit c).commit_once := by
  unfold Pipeline.try_commit
  by_cases hr : commit_ready p.ops c = true
  · rw [if_pos hr]
    have hflag : (p.ops c).trigger_commit_invoked = false := by
      simp only [commit_ready, Bool.and_eq_true, Bool.not_eq_true'] at hr
      exact hr.1.1.1
    intro o g
    by_cases hoc : o = c
    · subst hoc
      by_cases hg : (p.ops o).gen = g
      · have hz := (h o g).2.2 hg hflag
        simp [Pipeline.invoke, commit_count, OpArena.set, hg] at hz ⊢
        exact hz
      · have h1 := h o g
        simp [Pipeline.invoke, commit_count, OpArena.set, hg] at h1 ⊢
        exact h1
    · have h1 := h o g
      simp [Pipeline.invoke, commit_count, OpArena.set, hoc, Ne.symm hoc] at h1 ⊢
      exact h1
  · rw [if_neg hr]
    exact h

/-- Reclaiming an operation keeps the count invariant: the new generation has no
`trigger_commit` on record. -/
theorem Pipeline.deactivate_commit_once (p : Pipeline) (c : OpId) (h : p.commit_once) :
    Pipeline.commit_once { p with ops := p.ops.set c (p.ops c).deactivate } := by
  intro o g
  by_cases hoc : o = c
  · subst hoc
    have h1 := h o g
    refine ⟨h1.1, fun hlt => ?_, fun heq _ => ?_⟩
    · have hlt1 : (p.ops o).gen + 1 < g := by
        simpa [OpArena.set, Operation.deactivate] using hlt
      exact h1.2.1 (Nat.lt_of_succ_lt hlt1)
    · have heq1 : (p.ops o).gen + 1 = g := by
        simpa [OpArena.set, Operation.deactivate] using heq
      exact h1.2.1 (heq1 ▸ Nat.lt_succ_self _)
  · have h1 := h o g
    simpa [OpArena.set, hoc] using h1

/-- Every call keeps the count invariant. -/
theorem Pipeline.step_commit_once (p : Pipeline) (c : Call) (h : p.commit_once) :
    (p.step c).commit_once := by
  cases c with
  | add_mapping_reference c g =>
    refine Pipeline.commit_once_of_frame p _ h (Or.inl (by rfl)) ?_ ?_
    · intro o
      by_cases hoc : o = c
      · subst hoc
        simpa [Pipeline.step, OpArena.set] using
          (Operation.add_mapping_reference_frame (p.ops o) g).1
      · simp [Pipeline.step, OpArena.set, hoc]
    · intro o
      by_cases hoc : o = c
      · subst hoc
        simp only [Pipeline.step, OpArena.set_same, Operation.add_mapping_reference]
        split_ifs <;> rfl
      · simp [Pipeline.step, OpArena.set, hoc]
  | remove_mapping_reference c g =>
    simp only [Pipeline.step, Pipeline.remove_mapping_reference]
    split
    · exact h
    · split
      · exact h
      · split
        · apply Pipeline.try_commit_commit_once
          split
          · refine Pipeline.commit_once_of_frame p _ h (Or.inr ⟨c, _, (by rfl)⟩) ?_ ?_
            · intro o
              by_cases hoc : o = c
              · subst hoc; simp [Pipeline.invoke, OpArena.set]
              · simp [Pipeline.invoke, OpArena.set, hoc]
            · intro o
              by_cases hoc : o = c
              · subst hoc; simp [Pipeline.invoke, OpArena.set]
              · simp [Pipeline.invoke, OpArena.set, hoc]
          · refine Pipeline.commit_once_of_frame p _ h (Or.inl (by rfl)) ?_ ?_
            · intro o
              by_cases hoc : o = c
              · subst hoc; simp [OpArena.set]
              · simp [OpArena.set, hoc]
            · intro o
              by_cases hoc : o = c
              · subst hoc; simp [OpArena.set]
              · simp [OpArena.set, hoc]
        · refine Pipeline.commit_once_of_frame p _ h (Or.inl (by rfl)) ?_ ?_
          · intro o
            by_cases hoc : o = c
            · subst hoc; simp [OpArena.set]
            · simp [OpArena.set, hoc]
          · intro o
            by_cases hoc : o = c
            · subst hoc; simp [OpArena.set]
            · simp [OpArena.set, hoc]
  | register_dependence S T g =>
    exact Pipeline.commit_once_of_frame p _ h (Or.inl (by rfl))
      (fun o => (register_dependence_frame p.ops S T g o).1)
      (fun o => register_dependence_invoked p.ops S T g o)
  | register_region_dependence S T g idx v =>
    exact Pipeline.commit_once_of_frame p _ h (Or.inl (by rfl))
      (fun o => (register_region_dependence_frame p.ops S T g idx v o).1)
      (fun o => register_region_dependence_invoked p.ops S T g idx v o)
  | complete_execution c =>
    simp only [Pipeline.step, Pipeline.complete_execution]
    split
    · refine Pipeline.commit_once_of_frame p _ h (Or.inr ⟨c, _, (by rfl)⟩) ?_ ?_
      · intro o
        by_cases hoc : o = c
        · subst hoc; simp [Pipeline.invoke, OpArena.set]
        · simp [Pipeline.invoke, OpArena.set, hoc]
      · intro o
        by_cases hoc : o = c
        · subst hoc; simp [Pipeline.invoke, OpArena.set]
        · simp [Pipeline.invoke, OpArena.set, hoc]
    · refine Pipeline.commit_once_of_frame p _ h (Or.inl (by rfl)) ?_ ?_
      · intro o
        by_cases hoc : o = c
        · subst hoc; simp [OpArena.set]
        · simp [OpArena.set, hoc]
      · intro o
        by_cases hoc : o = c
        · subst hoc; simp [OpArena.set]
        · simp [OpArena.set, hoc]
  | complete_operation c =>
    apply Pipeline.try_commit_commit_once
    refine Pipeline.commit_once_of_frame p _ h (Or.inl (by rfl)) ?_ ?_
    · intro o
      by_cases hoc : o = c
      · subst hoc; simp [OpArena.set]
      · simp [OpArena.set, hoc]
    · intro o
      by_cases hoc : o = c
      · subst hoc; simp [OpArena.set]
      · simp [OpArena.set, hoc]
  | commit_operation c =>
    refine Pipeline.commit_once_of_frame p _ h (Or.inl (by rfl)) ?_ ?_
    · intro o
      by_cases hoc : o = c
      · subst hoc; simp [Pipeline.step, Pipeline.commit_operation, OpArena.set]
      · simp [Pipeline.step, Pipeline.commit_operation, OpArena.set, hoc]
    · intro o
      by_cases hoc : o = c
      · subst hoc; simp [Pipeline.step, Pipeline.commit_operation, OpArena.set]
      · simp [Pipeline.step, Pipeline.commit_operation, OpArena.set, hoc]
  | request_early_commit c =>
    refine Pipeline.commit_once_of_frame p _ h (Or.inl (by rfl)) ?_ ?_
    · intro o
      by_cases hoc : o = c
      · subst hoc; simp [Pipeline.step, Pipeline.request_early_commit, OpArena.set]
      · simp [Pipeline.step, Pipeline.request_early_commit, OpArena.set, hoc]
    · intro o
      by_cases hoc : o = c
      · subst hoc; simp [Pipeline.step, Pipeline.request_early_commit, OpArena.set]
      · simp [Pipeline.step, Pipeline.request_early_commit, OpArena.set, hoc]
  | issue_commit_trigger c => exact Pipeline.try_commit_commit_once p c h
  | deactivate c => exact Pipeline.deactivate_commit_once p c h

/-- Every sequence of calls keeps the count invariant. -/
theorem Pipeline.run_commit_once (p : Pipeline) (calls : List Call) (h : p.commit_once) :
    (p.run calls).commit_once := by
  induction calls generalizing p with
  | nil => exact h
  | cons c cs ih => exact ih (p.step c) (Pipeline.step_commit_once p c h)


/-- The record is justified when nothing has been invoked yet. -/
theorem Pipeline.justified_init (σ : OpArena) :
    Pipeline.justified { ops := σ, invoked := [] } := by
  intro inv hinv
  cases hinv

/-- The count invariant holds when nothing has been invoked yet. -/
theorem Pipeline.commit_once_init (σ : OpArena) :
    Pipeline.commit_once { ops := σ, invoked := [] } := by
  intro o g
  simp [commit_count]

/-- What `validators_committed` says of each outgoing edge. -/
theorem validators_committed_iff (σ : OpArena) (o : OpId) :
    validators_committed σ o = true ↔
      ∀ c g, (c, g) ∈ (σ o).outgoing → holds_validating_dependence σ c g o = true →
        (σ c).committed = true := by
  unfold validators_committed
  rw [List.all_eq_true]
  constructor
  · intro h c g hmem hv
    have := h (c, g) hmem
    simpa [hv] using this
  · intro h e hmem
    cases hv : holds_validating_dependence σ e.1 e.2 o
    · simp
    · simpa using h e.1 e.2 hmem hv

/-- C3: in every state reached from operation objects on which no trigger has
been invoked, whatever the calls, an invocation of `trigger_commit` on an
operation was made with that operation completed, and with every operation
that holds a validating dependence on it, not yet pruned, committed, unless an
early commit had been requested; and `trigger_commit` is invoked at most once
in each generation of each operation. -/
theorem trigger_commit_ordering (σ : OpArena) (calls : List Call) (inv : Invocation)
    (hinv : inv ∈ (Pipeline.run { ops := σ, invoked := [] } calls).invoked)
    (hkind : inv.kind = Trigger.trigger_commit) :
    (inv.at_call inv.op).completed = true ∧
    ((inv.at_call inv.op).early_commit_request = true ∨
      ∀ c g, (c, g) ∈ (inv.at_call inv.op).outgoing →
        holds_validating_dependence inv.at_call c g inv.op = true →
        (inv.at_call c).committed = true) ∧
    (∀ o g, commit_count (Pipeline.run { ops := σ, invoked := [] } calls).invoked o g ≤ 1) := by
  have hj := Pipeline.run_justified _ calls (Pipeline.justified_init σ)
  have hc := Pipeline.run_commit_once _ calls (Pipeline.commit_once_init σ)
  have h := (hj inv hinv).2 hkind
  refine ⟨h.1, ?_, fun o g => (hc o g).1⟩
  rcases h.2.2 with he | hv
  · exact Or.inl he
  · exact Or.inr ((validators_committed_iff _ _).1 hv)

/-- C4: in every state reached from operation objects on which no trigger has
been invoked, whatever the calls, an invocation of `trigger_complete` on an
operation was made with its execution signalled complete (`executed` true) and
with no mapping reference outstanding. -/
theorem trigger_complete_condition (σ : OpArena) (calls : List Call) (inv : Invocation)
    (hinv : inv ∈ (Pipeline.run { ops := σ, invoked := [] } calls).invoked)
    (hkind : inv.kind = Trigger.trigger_complete) :
    (inv.at_call inv.op).executed = true ∧
    (inv.at_call inv.op).outstanding_mapping_references = 0 := by
  have hj := Pipeline.run_justified _ calls (Pipeline.justified_init σ)
  exact (hj inv hinv).1 hkind


/-- C2 at a concrete input: after the sample run operation 1 has dropped its
last mapping reference, and after further calls that try to add one, register a
dependence on it and signal its execution complete, it still holds none. -/
theorem mapping_references_never_increase_after_zero_witness :
    ((sample_pipeline.ops 1).outstanding_mapping_references = 0 ∧
      ∀ c ∈ [Call.add_mapping_reference 1 3, Call.register_dependence 0 1 3,
        Call.complete_execution 1], c ≠ Call.deactivate 1) ∧
    (((sample_pipeline.run [Call.add_mapping_reference 1 3, Call.register_dependence 0 1 3,
        Call.complete_execution 1]).ops 1).gen = (sample_pipeline.ops 1).gen ∧
    ((sample_pipeline.run [Call.add_mapping_reference 1 3, Call.register_dependence 0 1 3,
        Call.complete_execution 1]).ops 1).outstanding_mapping_references = 0 ∧
    ((sample_pipeline.run [Call.add_mapping_reference 1 3, Call.register_dependence 0 1 3,
        Call.complete_execution 1]).ops 1).add_mapping_reference 3
      = (false, (sample_pipeline.run [Call.add_mapping_reference 1 3,
          Call.register_dependence 0 1 3, Call.complete_execution 1]).ops 1) ∧
    (((sample_pipeline.run [Call.add_mapping_reference 1 3, Call.register_dependence 0 1 3,
        Call.complete_execution 1]).step (Call.add_mapping_reference 1 3)).ops 1)
      = (sample_pipeline.run [Call.add_mapping_reference 1 3, Call.register_dependence 0 1 3,
          Call.complete_execution 1]).ops 1) :=
  ⟨⟨by decide, by decide⟩,
    mapping_references_never_increase_after_zero sample_pipeline 1
      [Call.add_mapping_reference 1 3, Call.register_dependence 0 1 3,
        Call.complete_execution 1] 3 (by decide) (by decide)⟩

/-- The sample run records `trigger_commit` on operation 1 as its latest invocation. -/
theorem sample_commit_invocation_mem : sample_commit_invocation ∈ sample_pipeline.invoked :=
  List.Mem.head _

/-- The sample run records `trigger_complete` on operation 1 before that. -/
theorem sample_complete_invocation_mem : sample_complete_invocation ∈ sample_pipeline.invoked :=
  List.Mem.tail _ (List.Mem.head _)

/-- C3 at a concrete input: the `trigger_commit` of the sample run. -/
theorem trigger_commit_ordering_witness :
    (sample_commit_invocation ∈
        (Pipeline.run { ops := sample_arena, invoked := [] } sample_calls).invoked ∧
      sample_commit_invocation.kind = Trigger.trigger_commit) ∧
    ((sample_commit_invocation.at_call sample_commit_invocation.op).completed = true ∧
    ((sample_commit_invocation.at_call sample_commit_invocation.op).early_commit_request = true ∨
      ∀ c g, (c, g) ∈ (sample_commit_invocation.at_call sample_commit_invocation.op).outgoing →
        holds_validating_dependence sample_commit_invocation.at_call c g
          sample_commit_invocation.op = true →
        (sample_commit_invocation.at_call c).committed = true) ∧
    (∀ o g, commit_count
      (Pipeline.run { ops := sample_arena, invoked := [] } sample_calls).invoked o g ≤ 1)) :=
  ⟨⟨sample_commit_invocation_mem, rfl⟩,
    trigger_commit_ordering sample_arena sample_calls sample_commit_invocation
      sample_commit_invocation_mem rfl⟩

/-- In the sample run the commit of operation 1 waits for its validator: after operation 1
has completed with no reference outstanding, and before operation 0 commits, only
`trigger_complete` has been invoked; operation 0 holds a validating dependence on it. -/
theorem sample_commit_waits_for_validator :
    ((Pipeline.run { ops := sample_arena, invoked := [] } (sample_calls.take 5)).invoked.map
      (fun i => (i.kind, i.op))) = [(Trigger.trigger_complete, 1)] ∧
    ((Pipeline.run { ops := sample_arena, invoked := [] } (sample_calls.take 5)).ops 1).completed
      = true ∧
    holds_validating_dependence
      (Pipeline.run { ops := sample_arena, invoked := [] } (sample_calls.take 5)).ops 0 0 1
      = true ∧
    (sample_pipeline.invoked.map (fun i => (i.kind, i.op)))
      = [(Trigger.trigger_commit, 1), (Trigger.trigger_complete, 1)] := by
  decide

/-- C4 at a concrete input: the `trigger_complete` of the sample run. -/
theorem trigger_complete_condition_witness :
    (sample_complete_invocation ∈
        (Pipeline.run { ops := sample_arena, invoked := [] } sample_calls).invoked ∧
      sample_complete_invocation.kind = Trigger.trigger_complete) ∧
    ((sample_complete_invocation.at_call sample_complete_invocation.op).executed = true ∧
    (sample_complete_invocation.at_call sample_complete_invocation.op).outstanding_mapping_references
      = 0) :=
  ⟨⟨sample_complete_invocation_mem, rfl⟩,
    trigger_complete_condition sample_arena sample_calls sample_complete_invocation
      sample_complete_invocation_mem rfl⟩

/-! ## Maps kept as lists -/

/-- The lookup, entry by entry. -/
theorem map_find_cons {β : Type} (k k1 : Nat) (v1 : β) (m : List (Nat × β)) :
    map_find k ((k1, v1) :: m) = if k1 = k then some v1 else map_find k m := by
  unfold map_find
  rw [List.find?_cons]
  by_cases h : k1 = k
  · simp [h]
  · have hb : (k1 == k) = false := by simpa using h
    simp [h, hb]

/-- The lookup in the empty map. -/
theorem map_find_nil {β : Type} (k : Nat) : map_find k ([] : List (Nat × β)) = none := by
  simp [map_find]

/-- After `m[k] = v`, looking `k` up gives `v`. -/
theorem map_find_map_assign_same {β : Type} (k : Nat) (v : β) (m : List (Nat × β)) :
    map_find k (map_assign k v m) = some v := by
  induction m with
  | nil => simp [map_assign, map_find_cons]
  | cons e m ih =>
    obtain ⟨k1, v1⟩ := e
    unfold map_assign
    split_ifs with h1 h2
    · simp [map_find_cons]
    · simp [map_find_cons]
    · have hne : ¬ k1 = k := fun h => h2 h.symm
      simpa [map_find_cons, hne] using ih

/-- After `m[k] = v`, looking another key up gives what it gave before. -/
theorem map_find_map_assign_other {β : Type} (k j : Nat) (v : β) (m : List (Nat × β))
    (hjk : j ≠ k) : map_find j (map_assign k v m) = map_find j m := by
  induction m with
  | nil => simp [map_assign, map_find_cons, map_find_nil, Ne.symm hjk]
  | cons e m ih =>
    obtain ⟨k1, v1⟩ := e
    unfold map_assign
    split_ifs with h1 h2
    · simp [map_find_cons, Ne.symm hjk]
    · subst h2
      simp [map_find_cons, Ne.symm hjk]
    · by_cases hj : k1 = j
      · simp [map_find_cons, hj]
      · simpa [map_find_cons, hj] using ih

/-- An entry of the map after `m[k] = v` is the new entry or an entry of `m`. -/
theorem mem_map_assign {β : Type} (k : Nat) (v : β) (m : List (Nat × β)) (e : Nat × β)
    (he : e ∈ map_assign k v m) : e = (k, v) ∨ e ∈ m := by
  induction m with
  | nil => simpa [map_assign] using he
  | cons e1 m ih =>
    obtain ⟨k1, v1⟩ := e1
    unfold map_assign at he
    split_ifs at he with h1 h2
    · simpa using he
    · rcases List.mem_cons.1 he with h | h
      · exact Or.inl h
      · exact Or.inr (List.mem_cons_of_mem _ h)
    · rcases List.mem_cons.1 he with h | h
      · exact Or.inr (h ▸ List.mem_cons_self _ _)
      · rcases ih h with h3 | h3
        · exact Or.inl h3
        · exact Or.inr (List.mem_cons_of_mem _ h3)

/-- The assignment `m[k] = v` keeps the keys in increasing order. -/
theorem keys_increasing_map_assign {β : Type} (k : Nat) (v : β) (m : List (Nat × β))
    (hm : keys_increasing m) : keys_increasing (map_assign k v m) := by
  induction m with
  | nil => simp [map_assign, keys_increasing]
  | cons e m ih =>
    obtain ⟨k1, v1⟩ := e
    unfold keys_increasing at hm ih ⊢
    rw [List.pairwise_cons] at hm
    unfold map_assign
    split_ifs with h1 h2
    · refine List.pairwise_cons.2 ⟨?_, List.pairwise_cons.2 hm⟩
      intro b hb
      rcases List.mem_cons.1 hb with h | h
      · rw [h]; exact h1
      · exact Nat.lt_trans h1 (hm.1 b h)
    · subst h2
      exact List.pairwise_cons.2 ⟨hm.1, hm.2⟩
    · refine List.pairwise_cons.2 ⟨?_, ih hm.2⟩
      intro b hb
      rcases mem_map_assign k v m b hb with h | h
      · rw [h]
        show k1 < k
        omega
      · exact hm.1 b h

/-- In a map with increasing keys, an entry found under `k` is the only entry with key `k`. -/
theorem count_key_of_map_find {β : Type} (k : Nat) (v : β) (m : List (Nat × β))
    (hm : keys_increasing m) (hf : map_find k m = some v) :
    m.countP (fun e => e.1 == k) = 1 ∧ (k, v) ∈ m := by
  induction m with
  | nil => simp [map_find_nil] at hf
  | cons e m ih =>
    obtain ⟨k1, v1⟩ := e
    unfold keys_increasing at hm ih
    rw [List.pairwise_cons] at hm
    by_cases h : k1 = k
    · subst h
      have hv : v1 = v := by simpa [map_find_cons] using hf
      subst hv
      have hnone : m.countP (fun e => e.1 == k1) = 0 := by
        rw [List.countP_eq_zero]
        intro b hb
        have := hm.1 b hb
        simp only [beq_iff_eq]
        omega
      simp [List.countP_cons, hnone]
    · have hf2 : map_find k m = some v := by simpa [map_find_cons, h] using hf
      have := ih hm.2 hf2
      simp [List.countP_cons, h, this.1, this.2]

/-! ## Predicates: registration and resolution -/

/-- C5: `register_waiter(waiter, gen, value)` on a resolved predicate writes the
resolved predicate value into `value`, returns true and leaves the predicate,
its waiters map included, unchanged; on a predicate that is not yet resolved it
returns false and records `(waiter, gen)` in the waiters map, the entries of
the other waiters and `value` being left as they were. -/
theorem register_waiter_resolved_or_recorded (P : PredicateImpl) (waiter : WaiterId)
    (gen : GenerationID) (value : Bool) :
    (P.predicate_resolved = true →
      (P.register_waiter waiter gen value).1 = true ∧
      (P.register_waiter waiter gen value).2.1 = P.predicate_value ∧
      (P.register_waiter waiter gen value).2.2.waiters = P.waiters ∧
      (P.register_waiter waiter gen value).2.2 = P) ∧
    (P.predicate_resolved = false →
      (P.register_waiter waiter gen value).1 = false ∧
      (P.register_waiter waiter gen value).2.1 = value ∧
      map_find waiter (P.register_waiter waiter gen value).2.2.waiters = some gen ∧
      (∀ w, w ≠ waiter →
        map_find w (P.register_waiter waiter gen value).2.2.waiters = map_find w P.waiters) ∧
      (P.register_waiter waiter gen value).2.2.predicate_resolved = false) := by
  constructor
  · intro h
    simp [PredicateImpl.register_waiter, h]
  · intro h
    have hsame := map_find_map_assign_same waiter gen P.waiters
    have hother := fun w (hw : w ≠ waiter) => map_find_map_assign_other waiter w gen P.waiters hw
    simpa [PredicateImpl.register_waiter, h, hsame] using hother

/-- Registrations on a pending predicate enter the waiters in its map and deliver nothing. -/
theorem PredicateImpl.run_registrations (P : PredicateImpl) (delivered : List Notification)
    (regs : List (WaiterId × GenerationID)) (hP : P.predicate_resolved = false) :
    PredicateImpl.run (P, delivered) (registrations regs)
      = ({ P with waiters := enter_all P.waiters regs }, delivered) := by
  induction regs generalizing P with
  | nil => rfl
  | cons r regs ih =>
    have h := ih { P with waiters := map_assign r.1 r.2 P.waiters } hP
    simpa [PredicateImpl.run, registrations, PredicateImpl.step,
      PredicateImpl.register_waiter, hP, enter_all] using h

/-- Entering registrations keeps the keys in increasing order. -/
theorem keys_increasing_enter_all (m : List (WaiterId × GenerationID))
    (regs : List (WaiterId × GenerationID)) (hm : keys_increasing m) :
    keys_increasing (enter_all m regs) := by
  induction regs generalizing m with
  | nil => exact hm
  | cons r regs ih => exact ih _ (keys_increasing_map_assign r.1 r.2 m hm)

/-- A waiter that no registration of `regs` names keeps its entry. -/
theorem map_find_enter_all_other (m : List (WaiterId × GenerationID))
    (regs : List (WaiterId × GenerationID)) (w : WaiterId) (hw : ∀ e ∈ regs, e.1 ≠ w) :
    map_find w (enter_all m regs) = map_find w m := by
  induction regs generalizing m with
  | nil => rfl
  | cons r regs ih =>
    have h1 := ih (map_assign r.1 r.2 m) (fun e he => hw e (List.mem_cons_of_mem _ he))
    have h2 := map_find_map_assign_other r.1 w r.2 m (Ne.symm (hw r (List.mem_cons_self _ _)))
    simpa [enter_all, h2] using h1

/-- The entry of a waiter is the generation of its latest registration. -/
theorem map_find_enter_all_latest (m : List (WaiterId × GenerationID))
    (pre post : List (WaiterId × GenerationID)) (w : WaiterId) (g : GenerationID)
    (hpost : ∀ e ∈ post, e.1 ≠ w) :
    map_find w (enter_all m (pre ++ (w, g) :: post)) = some g := by
  have h : enter_all m (pre ++ (w, g) :: post)
      = enter_all (map_assign w g (enter_all m pre)) post := by
    simp [enter_all, List.foldl_append]
  rw [h, map_find_enter_all_other _ _ _ hpost, map_find_map_assign_same]

/-- A waiter named by a registration has an entry. -/
theorem map_find_enter_all_of_mem (m : List (WaiterId × GenerationID))
    (regs : List (WaiterId × GenerationID)) (w : WaiterId) (hw : ∃ g, (w, g) ∈ regs) :
    ∃ g, map_find w (enter_all m regs) = some g := by
  induction regs using List.reverseRecOn with
  | nil =>
    obtain ⟨g, hg⟩ := hw
    cases hg
  | append_singleton regs r ih =>
    by_cases hr : r.1 = w
    · refine ⟨r.2, ?_⟩
      have := map_find_enter_all_latest m regs [] w r.2 (by simp)
      rw [← hr] at this ⊢
      simpa using this
    · obtain ⟨g, hg⟩ := hw
      have hmem : (w, g) ∈ regs := by
        rcases List.mem_append.1 hg with h | h
        · exact h
        · simp only [List.mem_singleton] at h
          exact absurd (by rw [← h]) hr
      obtain ⟨g1, hg1⟩ := ih ⟨g, hmem⟩
      refine ⟨g1, ?_⟩
      have h : enter_all m (regs ++ [r]) = map_assign r.1 r.2 (enter_all m regs) := by
        simp [enter_all, List.foldl_append]
      rw [h, map_find_map_assign_other _ _ _ _ (Ne.symm hr), hg1]

/-- A resolved predicate is left as it is by every call, and nothing more is delivered. -/
theorem PredicateImpl.run_resolved (P : PredicateImpl) (delivered : List Notification)
    (calls : List PredicateCall) (hP : P.predicate_resolved = true) :
    PredicateImpl.run (P, delivered) calls = (P, delivered) := by
  induction calls with
  | nil => rfl
  | cons c calls ih =>
    have hstep : PredicateImpl.step (P, delivered) c = (P, delivered) := by
      cases c with
      | register_waiter w g v => simp [PredicateImpl.step, PredicateImpl.register_waiter, hP]
      | set_resolved_value g v => simp [PredicateImpl.step, PredicateImpl.set_resolved_value, hP]
    simpa [PredicateImpl.run, hstep] using ih

/-- The run in which the waiters of `regs` register with a freshly activated predicate, the
predicate is resolved to `v`, and the calls `later` follow: the predicate ends resolved to
`v` with no waiter, and what was delivered is one notification for each entry of the map
the registrations built. -/
theorem PredicateImpl.run_resolution (regs : List (WaiterId × GenerationID))
    (pred_gen : GenerationID) (v : Bool) (later : List PredicateCall) :
    PredicateImpl.run (PredicateImpl.activated, [])
        (registrations regs ++ PredicateCall.set_resolved_value pred_gen v :: later)
      = ({ predicate_resolved := true, predicate_value := v, waiters := [] },
          (enter_all [] regs).map (fun e => { waiter := e.1, gen := e.2, value := v })) := by
  have h1 := PredicateImpl.run_registrations PredicateImpl.activated [] regs rfl
  unfold PredicateImpl.run at h1 ⊢
  rw [List.foldl_append, h1, List.foldl_cons]
  have h2 := PredicateImpl.run_resolved
    { predicate_resolved := true, predicate_value := v, waiters := [] }
    ((enter_all [] regs).map (fun e => { waiter := e.1, gen := e.2, value := v })) later rfl
  unfold PredicateImpl.run at h2
  simpa [PredicateImpl.step, PredicateImpl.set_resolved_value, PredicateImpl.activated] using h2

/-- C6: when `set_resolved_value(pred_gen, v)` resolves a pending predicate with
which the waiters of `regs` have registered, then whatever calls follow, the
notifications delivered in the whole run hold exactly one for every registered
waiter, carrying the generation of its latest registration and the value `v`;
the waiters map is empty afterwards; and the predicate stays resolved to `v`. -/
theorem predicate_single_resolution (regs : List (WaiterId × GenerationID))
    (pred_gen : GenerationID) (v : Bool) (later : List PredicateCall) :
    (∀ w, (∃ g, (w, g) ∈ regs) →
      (PredicateImpl.run (PredicateImpl.activated, [])
        (registrations regs ++ PredicateCall.set_resolved_value pred_gen v :: later)).2.countP
          (fun n => n.waiter == w) = 1) ∧
    (∀ pre post w g, regs = pre ++ (w, g) :: post → (∀ e ∈ post, e.1 ≠ w) →
      { waiter := w, gen := g, value := v } ∈
        (PredicateImpl.run (PredicateImpl.activated, [])
          (registrations regs ++ PredicateCall.set_resolved_value pred_gen v :: later)).2) ∧
    (∀ n ∈ (PredicateImpl.run (PredicateImpl.activated, [])
          (registrations regs ++ PredicateCall.set_resolved_value pred_gen v :: later)).2,
      n.value = v) ∧
    (PredicateImpl.run (PredicateImpl.activated, [])
      (registrations regs ++ PredicateCall.set_resolved_value pred_gen v :: later)).1.waiters
        = [] ∧
    (PredicateImpl.run (PredicateImpl.activated, [])
      (registrations regs ++ PredicateCall.set_resolved_value pred_gen v :: later)).1.predicate_resolved
        = true ∧
    (PredicateImpl.run (PredicateImpl.activated, [])
      (registrations regs ++ PredicateCall.set_resolved_value pred_gen v :: later)).1.predicate_value
        = v := by
  rw [PredicateImpl.run_resolution]
  have hinc : keys_increasing (enter_all [] regs) :=
    keys_increasing_enter_all [] regs List.Pairwise.nil
  refine ⟨?_, ?_, ?_, rfl, rfl, rfl⟩
  · intro w hw
    obtain ⟨g, hg⟩ := map_find_enter_all_of_mem [] regs w hw
    have hc := (count_key_of_map_find w g _ hinc hg).1
    rw [List.countP_map]
    exact hc
  · intro pre post w g hregs hpost
    have hg := map_find_enter_all_latest [] pre post w g hpost
    rw [← hregs] at hg
    have hm := (count_key_of_map_find w g _ hinc hg).2
    exact List.mem_map.2 ⟨(w, g), hm, rfl⟩
  · intro n hn
    obtain ⟨e, _, he⟩ := List.mem_map.1 hn
    rw [← he]

/-- A sample resolution: waiter 7 registers for generation 1, waiter 3 for generation 2,
waiter 7 again for generation 4; resolving to true notifies waiter 3 once for generation 2 and
waiter 7 once for generation 4, and a later registration and a second resolution deliver
nothing and change nothing. -/
theorem sample_resolution_delivery :
    PredicateImpl.run (PredicateImpl.activated, [])
        (registrations [(7, 1), (3, 2), (7, 4)] ++
          [PredicateCall.set_resolved_value 0 true, PredicateCall.register_waiter 9 1 false,
            PredicateCall.set_resolved_value 0 false])
      = ({ predicate_resolved := true, predicate_value := true, waiters := [] },
          [{ waiter := 3, gen := 2, value := true }, { waiter := 7, gen := 4, value := true }]) := by
  decide

/-! ## Predicated operations: one resolution callback in a generation -/

/-- A waiting operation stays consistent when it starts to speculate. -/
theorem view_consistent_speculate (resolved value : Bool) (entry : Option GenerationID)
    (op : PredicatedOp) (record : List Resolution)
    (h : view_consistent resolved value entry op record)
    (hs : op.predication_state = PredState.WAITING_MAPPING_STATE) :
    view_consistent resolved value entry
      { op with predication_state := PredState.SPECULATIVE_MAPPING_STATE } record := by
  unfold view_consistent at h ⊢
  rw [hs] at h
  exact h

/-- An operation stays consistent when it enters the execution pipeline. -/
theorem view_consistent_launch (resolved value : Bool) (entry : Option GenerationID)
    (op : PredicatedOp) (record : List Resolution)
    (h : view_consistent resolved value entry op record) :
    view_consistent resolved value entry { op with launched := true } record := by
  unfold view_consistent at h ⊢
  exact h

/-- The callbacks of a generation that no callback on record has reached. -/
theorem callbacks_in_eq_nil_of_lt (record : List Resolution) (g : GenerationID)
    (h : ∀ r ∈ record, r.gen < g) : callbacks_in record g = [] := by
  unfold callbacks_in
  rw [List.map_eq_nil_iff, List.filter_eq_nil_iff]
  intro r hr
  have := h r hr
  simp only [decide_eq_true_eq]
  exact Nat.ne_of_lt this

/-- A reclaimed operation is consistent: its new generation has no callback and no entry. -/
theorem view_consistent_deactivate (resolved value : Bool) (entry : Option GenerationID)
    (op : PredicatedOp) (record : List Resolution)
    (h : view_consistent resolved value entry op record) :
    view_consistent resolved value entry op.deactivate record := by
  unfold view_consistent at h ⊢
  obtain ⟨h1, h2, _⟩ := h
  refine ⟨fun r hr => Nat.le_succ_of_le (h1 r hr), fun g hg => Nat.le_succ_of_le (h2 g hg), ?_⟩
  simp only [PredicatedOp.deactivate]
  refine ⟨callbacks_in_eq_nil_of_lt record _ (fun r hr => Nat.lt_succ_of_le (h1 r hr)), ?_⟩
  intro he
  exact absurd (h2 _ he) (Nat.not_succ_le_self _)

/-- The callbacks of a generation, after one more callback of that generation. -/
theorem callbacks_in_cons_same (w : WaiterId) (g : GenerationID) (cb : ResolveCallback)
    (record : List Resolution) :
    callbacks_in ({ op := w, gen := g, callback := cb } :: record) g
      = cb :: callbacks_in record g := by
  simp [callbacks_in]

/-- An operation that registers with a pending predicate is consistent, waiting. -/
theorem view_consistent_register (value : Bool) (entry : Option GenerationID)
    (op : PredicatedOp) (record : List Resolution)
    (h : view_consistent false value entry op record)
    (hs : op.predication_state = PredState.PENDING_ANALYSIS_STATE) :
    view_consistent false value (some op.gen)
      { op with predication_state := PredState.WAITING_MAPPING_STATE } record := by
  unfold view_consistent at h ⊢
  rw [hs] at h
  obtain ⟨h1, _, h3, _⟩ := h
  refine ⟨h1, fun g hg => ?_, h3, rfl⟩
  cases hg
  exact Nat.le_refl _

/-- An operation that registers with a resolved predicate is consistent, resolved on the
spot with the one callback of the predicate's value. -/
theorem view_consistent_resolved_on_registration (w : WaiterId) (value : Bool)
    (entry : Option GenerationID) (op : PredicatedOp) (record : List Resolution)
    (h : view_consistent true value entry op record)
    (hs : op.predication_state = PredState.PENDING_ANALYSIS_STATE) :
    view_consistent true value entry
      { op with predication_state := PredState.of_value value }
      ({ op := w, gen := op.gen,
          callback := ResolveCallback.of_value value false op.launched } :: record) := by
  unfold view_consistent at h ⊢
  rw [hs] at h
  obtain ⟨h1, h2, h3, _⟩ := h
  refine ⟨?_, h2, ?_⟩
  · intro r hr
    rcases List.mem_cons.1 hr with hr | hr
    · rw [hr]
    · exact h1 r hr
  · cases value <;>
      simp [PredState.of_value, ResolveCallback.of_value, callbacks_in_cons_same, h3]

/-- When the predicate resolves, an operation that holds no entry for its generation is
consistent as it is. -/
theorem view_consistent_resolve_absent (v0 v : Bool) (entry : Option GenerationID)
    (op : PredicatedOp) (record : List Resolution)
    (h : view_consistent false v0 entry op record) (he : entry ≠ some op.gen) :
    view_consistent true v none op record := by
  unfold view_consistent at h ⊢
  obtain ⟨h1, _, h3⟩ := h
  refine ⟨h1, fun g hg => (by cases hg), ?_⟩
  rcases op with ⟨g, st, la⟩
  cases st <;> simp_all

/-- When the predicate resolves to `v`, an operation that holds an entry for its generation
is consistent after its notification: resolved, with the one callback of `v`, which tells
whether it was mapping speculatively. -/
theorem view_consistent_resolve_present (w : WaiterId) (v0 v : Bool) (op : PredicatedOp)
    (record : List Resolution) (h : view_consistent false v0 (some op.gen) op record) :
    view_consistent true v none
      { op with predication_state := PredState.of_value v }
      ({ op := w, gen := op.gen,
          callback := ResolveCallback.of_value v
            (decide (op.predication_state = PredState.SPECULATIVE_MAPPING_STATE))
            op.launched } :: record) ∧
    callbacks_in record op.gen = [] := by
  unfold view_consistent at h ⊢
  obtain ⟨h1, _, h3⟩ := h
  have hnil : callbacks_in record op.gen = [] := by
    rcases op with ⟨g, st, la⟩
    cases st <;> simp_all
  refine ⟨⟨?_, fun g hg => (by cases hg), ?_⟩, hnil⟩
  · intro r hr
    rcases List.mem_cons.1 hr with hr | hr
    · rw [hr]
    · exact h1 r hr
  · cases v <;>
      simp [PredState.of_value, ResolveCallback.of_value, callbacks_in_cons_same, hnil]

/-- A delivery leaves the predicate alone. -/
theorem Predication.deliver_predicate (s : Predication) (n : Notification) :
    (s.deliver n).predicate = s.predicate := by
  unfold Predication.deliver
  split <;> rfl

/-- A delivery leaves the other operations and their records alone. -/
theorem Predication.deliver_other (s : Predication) (n : Notification) (w : WaiterId)
    (h : n.waiter ≠ w) :
    (s.deliver n).ops w = s.ops w ∧ (s.deliver n).record w = s.record w := by
  have hw : ¬ w = n.waiter := fun e => h e.symm
  unfold Predication.deliver
  split
  · simp [Predication.set_op, Predication.record, hw]
  · simp [Predication.set_op, Predication.record, hw, h]

/-- A delivery, seen from the operation it is for. -/
theorem Predication.deliver_self (s : Predication) (n : Notification) :
    ((s.deliver n).ops n.waiter, (s.deliver n).record n.waiter)
      = deliver_view (s.ops n.waiter, s.record n.waiter) n := by
  unfold Predication.deliver deliver_view
  rcases h : (s.ops n.waiter).notify_predicate_value n.gen n.value with ⟨op1, cb⟩
  cases cb
  · simp [Predication.set_op, Predication.record]
  · simp [Predication.set_op, Predication.record]

/-- Deliveries to other operations leave an operation, its record and the predicate alone. -/
theorem Predication.deliver_all_other (notes : List Notification) (s : Predication)
    (w : WaiterId) (h : ∀ n ∈ notes, n.waiter ≠ w) :
    (notes.foldl Predication.deliver s).ops w = s.ops w ∧
    (notes.foldl Predication.deliver s).record w = s.record w := by
  induction notes generalizing s with
  | nil => exact ⟨rfl, rfl⟩
  | cons m rest ih =>
    have h1 := ih (s.deliver m) (fun n hn => h n (List.mem_cons_of_mem _ hn))
    have h2 := Predication.deliver_other s m w (h m (List.mem_cons_self _ _))
    simp only [List.foldl_cons]
    exact ⟨h1.1.trans h2.1, h1.2.trans h2.2⟩

/-- Deliveries leave the predicate alone. -/
theorem Predication.deliver_all_predicate (notes : List Notification) (s : Predication) :
    (notes.foldl Predication.deliver s).predicate = s.predicate := by
  induction notes generalizing s with
  | nil => rfl
  | cons m rest ih =>
    simp only [List.foldl_cons]
    rw [ih, Predication.deliver_predicate]

/-- Among deliveries to distinct waiters, the one for `w` is all that happens to `w`. -/
theorem Predication.deliver_all_one (notes : List Notification) (s : Predication)
    (n : Notification) (hp : notes.Pairwise (fun a b => a.waiter < b.waiter))
    (hn : n ∈ notes) :
    ((notes.foldl Predication.deliver s).ops n.waiter,
      (notes.foldl Predication.deliver s).record n.waiter)
      = deliver_view (s.ops n.waiter, s.record n.waiter) n := by
  induction notes generalizing s with
  | nil => cases hn
  | cons m rest ih =>
    rw [List.pairwise_cons] at hp
    simp only [List.foldl_cons]
    rcases List.mem_cons.1 hn with hm | hm
    · subst hm
      have h1 := Predication.deliver_all_other rest (s.deliver n) n.waiter
        (fun k hk => Nat.ne_of_gt (hp.1 k hk))
      rw [h1.1, h1.2]
      exact Predication.deliver_self s n
    · have hne : m.waiter ≠ n.waiter := Nat.ne_of_lt (hp.1 n hm)
      have h1 := ih (s.deliver m) hp.2 hm
      have h2 := Predication.deliver_other s m n.waiter hne
      rw [h1, h2.1, h2.2]

/-- A key with no entry is the key of no entry. -/
theorem map_find_eq_none {β : Type} (k : Nat) (m : List (Nat × β)) (h : map_find k m = none) :
    ∀ e ∈ m, e.1 ≠ k := by
  induction m with
  | nil => intro e he; cases he
  | cons e1 m ih =>
    obtain ⟨k1, v1⟩ := e1
    rw [map_find_cons] at h
    by_cases hk : k1 = k
    · simp [hk] at h
    · simp only [hk, if_false] at h
      intro e he
      rcases List.mem_cons.1 he with he | he
      · rw [he]; exact hk
      · exact ih h e he

/-- The dependence analysis stage keeps predication consistent. -/
theorem Predication.trigger_dependence_analysis_consistent (s : Predication) (w0 : WaiterId)
    (h : s.consistent) : (s.trigger_dependence_analysis w0).consistent := by
  obtain ⟨hk, he, hv⟩ := h
  unfold Predication.trigger_dependence_analysis
  by_cases hs : (s.ops w0).predication_state = PredState.PENDING_ANALYSIS_STATE
  · simp only [hs, if_true]
    by_cases hr : s.predicate.predicate_resolved = true
    · simp only [PredicateImpl.register_waiter, hr, if_true]
      refine ⟨hk, he, fun w => ?_⟩
      by_cases hw : w = w0
      · subst hw
        have h1 := view_consistent_resolved_on_registration w
          s.predicate.predicate_value _ _ _ (hr ▸ hv w) hs
        simpa [Predication.record, hr] using h1
      · have h1 := hv w
        have hw2 : ¬ w0 = w := fun e => hw e.symm
        simpa [Predication.record, hw, hw2] using h1
    · have hr2 : s.predicate.predicate_resolved = false := by simpa using hr
      simp only [PredicateImpl.register_waiter, hr2, Bool.false_eq_true, if_false]
      refine ⟨keys_increasing_map_assign _ _ _ hk, fun hc => absurd hc (by simp [hr2]),
        fun w => ?_⟩
      by_cases hw : w = w0
      · subst hw
        have h1 := view_consistent_register s.predicate.predicate_value _ _ _
          (hr2 ▸ hv w) hs
        simpa [Predication.record, hr2, map_find_map_assign_same] using h1
      · have h1 := hv w
        simpa [Predication.record, hw, hr2, map_find_map_assign_other _ _ _ _ hw] using h1
  · simp only [hs, if_false]
    exact ⟨hk, he, hv⟩

/-- The ready stage keeps predication consistent. -/
theorem Predication.trigger_ready_consistent (s : Predication) (w0 : WaiterId)
    (speculate : Bool) (h : s.consistent) : (s.trigger_ready w0 speculate).consistent := by
  obtain ⟨hk, he, hv⟩ := h
  unfold Predication.trigger_ready
  by_cases hs : (s.ops w0).predication_state = PredState.WAITING_MAPPING_STATE ∧ speculate = true
  · simp only [hs, and_self, if_true]
    refine ⟨hk, he, fun w => ?_⟩
    by_cases hw : w = w0
    · subst hw
      have h1 := view_consistent_speculate _ _ _ _ _ (hv w) hs.1
      simpa [Predication.set_op, Predication.record] using h1
    · simpa [Predication.set_op, Predication.record, hw] using hv w
  · rw [if_neg hs]
    exact ⟨hk, he, hv⟩

/-- The notifications that resolving a predicate produces are for distinct waiters, in
increasing order. -/
theorem notifications_pairwise (m : List (WaiterId × GenerationID)) (v : Bool)
    (hk : keys_increasing m) :
    (m.map (fun e => ({ waiter := e.1, gen := e.2, value := v } : Notification))).Pairwise
      (fun a b => a.waiter < b.waiter) := by
  rw [List.pairwise_map]
  exact hk

/-- What the delivery of the notifications of a resolution to `v` does to the operation `w`
and its record: nothing, unless `w` holds an entry for its current generation; then it is
resolved and the callback of `v` is added. -/
theorem Predication.resolve_view (s : Predication) (P1 : PredicateImpl) (v : Bool)
    (w : WaiterId) (hk : keys_increasing s.predicate.waiters) :
    ((((s.predicate.waiters.map
          (fun e => ({ waiter := e.1, gen := e.2, value := v } : Notification))).foldl
        Predication.deliver { s with predicate := P1 }).ops w,
      ((s.predicate.waiters.map
          (fun e => ({ waiter := e.1, gen := e.2, value := v } : Notification))).foldl
        Predication.deliver { s with predicate := P1 }).record w)
      = if map_find w s.predicate.waiters = some (s.ops w).gen then
          ({ s.ops w with predication_state := PredState.of_value v },
            { op := w, gen := (s.ops w).gen,
              callback := ResolveCallback.of_value v
                (decide ((s.ops w).predication_state = PredState.SPECULATIVE_MAPPING_STATE))
                (s.ops w).launched } :: s.record w)
        else (s.ops w, s.record w)) := by
  cases hf : map_find w s.predicate.waiters with
  | none =>
    have hno := map_find_eq_none w _ hf
    have h1 := Predication.deliver_all_other
      (s.predicate.waiters.map
        (fun e => ({ waiter := e.1, gen := e.2, value := v } : Notification)))
      { s with predicate := P1 } w (by
        intro n hn
        obtain ⟨e, he, hne⟩ := List.mem_map.1 hn
        rw [← hne]
        exact hno e he)
    rw [h1.1, h1.2]
    simp [Predication.record]
  | some g =>
    have hmem := (count_key_of_map_find w g _ hk hf).2
    have h1 := Predication.deliver_all_one
      (s.predicate.waiters.map
        (fun e => ({ waiter := e.1, gen := e.2, value := v } : Notification)))
      { s with predicate := P1 } { waiter := w, gen := g, value := v }
      (notifications_pairwise _ v hk) (List.mem_map.2 ⟨(w, g), hmem, rfl⟩)
    simp only at h1
    rw [h1]
    by_cases hg : g = (s.ops w).gen
    · subst hg
      simp [deliver_view, PredicatedOp.notify_predicate_value, Predication.record]
    · have hg2 : ¬ (s.ops w).gen = g := fun e => hg e.symm
      simp [deliver_view, PredicatedOp.notify_predicate_value, Predication.record, hg, hg2]

/-- Resolving the predicate keeps predication consistent. -/
theorem Predication.set_resolved_value_consistent (s : Predication) (pred_gen : GenerationID)
    (v : Bool) (h : s.consistent) :
    (s.step (PredicationCall.set_resolved_value pred_gen v)).consistent := by
  obtain ⟨hk, he, hv⟩ := h
  simp only [Predication.step, PredicateImpl.set_resolved_value]
  by_cases hr : s.predicate.predicate_resolved = true
  · simp only [hr, if_true]
    exact ⟨hk, he, hv⟩
  · have hr2 : s.predicate.predicate_resolved = false := by simpa using hr
    simp only [hr2, Bool.false_eq_true, if_false]
    unfold Predication.consistent
    rw [Predication.deliver_all_predicate]
    refine ⟨List.Pairwise.nil, fun _ => rfl, fun w => ?_⟩
    have hview := Predication.resolve_view s
      { predicate_resolved := true, predicate_value := v, waiters := [] } v w hk
    have hops := congrArg Prod.fst hview
    have hrec := congrArg Prod.snd hview
    simp only at hops hrec
    rw [hops, hrec]
    have hw := hv w
    rw [hr2] at hw
    by_cases hf : map_find w s.predicate.waiters = some (s.ops w).gen
    · simp only [hf, if_true, map_find_nil]
      rw [hf] at hw
      exact (view_consistent_resolve_present w _ v _ _ hw).1
    · simp only [hf, if_false, map_find_nil]
      exact view_consistent_resolve_absent _ v _ _ _ hw hf

/-- Every call keeps predication consistent. -/
theorem Predication.step_consistent (s : Predication) (c : PredicationCall)
    (h : s.consistent) : (s.step c).consistent := by
  cases c with
  | trigger_dependence_analysis w0 =>
    exact Predication.trigger_dependence_analysis_consistent s w0 h
  | trigger_ready w0 speculate => exact Predication.trigger_ready_consistent s w0 speculate h
  | trigger_mapping w0 =>
    obtain ⟨hk, he, hv⟩ := h
    refine ⟨hk, he, fun w => ?_⟩
    by_cases hw : w = w0
    · subst hw
      have h1 := view_consistent_launch _ _ _ _ _ (hv w)
      simpa [Predication.step, Predication.set_op, Predication.record] using h1
    · simpa [Predication.step, Predication.set_op, Predication.record, hw] using hv w
  | set_resolved_value pred_gen v => exact Predication.set_resolved_value_consistent s pred_gen v h
  | deactivate w0 =>
    obtain ⟨hk, he, hv⟩ := h
    refine ⟨hk, he, fun w => ?_⟩
    by_cases hw : w = w0
    · subst hw
      have h1 := view_consistent_deactivate _ _ _ _ _ (hv w)
      simpa [Predication.step, Predication.set_op, Predication.record] using h1
    · simpa [Predication.step, Predication.set_op, Predication.record, hw] using hv w

/-- Every sequence of calls keeps predication consistent. -/
theorem Predication.run_consistent (s : Predication) (calls : List PredicationCall)
    (h : s.consistent) : (s.run calls).consistent := by
  induction calls generalizing s with
  | nil => exact h
  | cons c cs ih => exact ih (s.step c) (Predication.step_consistent s c h)

/-- Predication is consistent when nothing has happened yet. -/
theorem Predication.activated_consistent (gens : WaiterId → GenerationID) :
    (Predication.activated gens).consistent := by
  refine ⟨List.Pairwise.nil, fun _ => rfl, fun w => ?_⟩
  simp [Predication.activated, PredicateImpl.activated, view_consistent, Predication.record,
    callbacks_in, map_find_nil]

/-- Once the predicate is resolved and an operation has its resolution, no call other than
reclaiming the operation changes its generation, its state or its record, and the predicate
stays resolved. -/
theorem Predication.step_resolved_stable (s : Predication) (w : WaiterId) (c : PredicationCall)
    (hr : s.predicate.predicate_resolved = true)
    (hs : (s.ops w).predication_state = PredState.RESOLVE_TRUE_STATE ∨
      (s.ops w).predication_state = PredState.RESOLVE_FALSE_STATE)
    (hc : c ≠ PredicationCall.deactivate w) :
    (s.step c).predicate.predicate_resolved = true ∧
    ((s.step c).ops w).predication_state = (s.ops w).predication_state ∧
    ((s.step c).ops w).gen = (s.ops w).gen ∧
    (s.step c).record w = s.record w := by
  have hnp : (s.ops w).predication_state ≠ PredState.PENDING_ANALYSIS_STATE := by
    rcases hs with h | h <;> rw [h] <;> decide
  have hnw : (s.ops w).predication_state ≠ PredState.WAITING_MAPPING_STATE := by
    rcases hs with h | h <;> rw [h] <;> decide
  cases c with
  | trigger_dependence_analysis w0 =>
    simp only [Predication.step, Predication.trigger_dependence_analysis]
    by_cases hp : (s.ops w0).predication_state = PredState.PENDING_ANALYSIS_STATE
    · have hw : w ≠ w0 := fun e => hnp (e ▸ hp)
      have hw2 : ¬ w0 = w := fun e => hw e.symm
      simp [hp, PredicateImpl.register_waiter, hr, Predication.record, hw, hw2]
    · simp [hp, hr]
  | trigger_ready w0 speculate =>
    simp only [Predication.step, Predication.trigger_ready]
    by_cases hp : (s.ops w0).predication_state = PredState.WAITING_MAPPING_STATE ∧
        speculate = true
    · have hw : w ≠ w0 := fun e => hnw (e ▸ hp.1)
      simp [hp, Predication.set_op, Predication.record, hw, hr]
    · rw [if_neg hp]
      exact ⟨hr, rfl, rfl, rfl⟩
  | trigger_mapping w0 =>
    by_cases hw : w = w0
    · subst hw
      simp [Predication.step, Predication.set_op, Predication.record, hr]
    · simp [Predication.step, Predication.set_op, Predication.record, hw, hr]
  | set_resolved_value pred_gen v =>
    simp [Predication.step, PredicateImpl.set_resolved_value, hr]
  | deactivate w0 =>
    have hw : w ≠ w0 := fun e => hc (by rw [e])
    simp [Predication.step, Predication.set_op, Predication.record, hw, hr]

/-- The same, for a sequence of calls. -/
theorem Predication.run_resolved_stable (s : Predication) (w : WaiterId)
    (calls : List PredicationCall)
    (hr : s.predicate.predicate_resolved = true)
    (hs : (s.ops w).predication_state = PredState.RESOLVE_TRUE_STATE ∨
      (s.ops w).predication_state = PredState.RESOLVE_FALSE_STATE)
    (hc : ∀ c ∈ calls, c ≠ PredicationCall.deactivate w) :
    ((s.run calls).ops w).gen = (s.ops w).gen ∧ (s.run calls).record w = s.record w := by
  induction calls generalizing s with
  | nil => exact ⟨rfl, rfl⟩
  | cons c cs ih =>
    have h1 := Predication.step_resolved_stable s w c hr hs (hc c (List.mem_cons_self _ _))
    have h2 := ih (s.step c) h1.1 (by rw [h1.2.1]; exact hs)
      (fun d hd => hc d (List.mem_cons_of_mem _ hd))
    exact ⟨h2.1.trans h1.2.2.1, h2.2.trans h1.2.2.2⟩

/-- Every reached state is consistent. -/
theorem Predication.reached_consistent (gens : WaiterId → GenerationID)
    (calls : List PredicationCall) : (Predication.reached gens calls).consistent :=
  Predication.run_consistent _ calls (Predication.activated_consistent gens)

/-- C7: in every state reached from a freshly activated predicate and
operations whose predication has not started, for every predicated operation
`w` and its current generation:
  - at most one resolution callback is on record (never both, never twice);
  - a callback on record was invoked with the predicate resolved, and is
    `resolve_true` exactly when the predicate value is true;
  - once the predicate is resolved, an operation whose predication has started
    has exactly one callback on record, and one whose predication has not
    started gets exactly one when its dependence analysis runs;
  - if the operation is in `SPECULATIVE_MAPPING_STATE` and the predicate is then
    resolved to false, then, whatever calls follow short of reclaiming the
    operation, the callbacks on record for that generation are the one
    `resolve_false` with `speculated` true, and no `resolve_true`. -/
theorem predicated_op_resolved_exactly_once (gens : WaiterId → GenerationID)
    (calls : List PredicationCall) (w : WaiterId) :
    ((Predication.reached gens calls).callbacks w
        ((Predication.reached gens calls).ops w).gen).length ≤ 1 ∧
    (∀ cb ∈ (Predication.reached gens calls).callbacks w
        ((Predication.reached gens calls).ops w).gen,
      (Predication.reached gens calls).predicate.predicate_resolved = true ∧
      cb.is_true = (Predication.reached gens calls).predicate.predicate_value) ∧
    ((Predication.reached gens calls).predicate.predicate_resolved = true →
      (((Predication.reached gens calls).ops w).predication_state
          ≠ PredState.PENDING_ANALYSIS_STATE →
        ∃ sp la, (Predication.reached gens calls).callbacks w
            ((Predication.reached gens calls).ops w).gen
          = [ResolveCallback.of_value
              (Predication.reached gens calls).predicate.predicate_value sp la]) ∧
      (((Predication.reached gens calls).ops w).predication_state
          = PredState.PENDING_ANALYSIS_STATE →
        ((Predication.reached gens calls).step
            (PredicationCall.trigger_dependence_analysis w)).callbacks w
            ((Predication.reached gens calls).ops w).gen
          = [ResolveCallback.of_value
              (Predication.reached gens calls).predicate.predicate_value false
              ((Predication.reached gens calls).ops w).launched])) ∧
    (((Predication.reached gens calls).ops w).predication_state
        = PredState.SPECULATIVE_MAPPING_STATE →
      ∀ pred_gen later, (∀ c ∈ later, c ≠ PredicationCall.deactivate w) →
        ((((Predication.reached gens calls).step
            (PredicationCall.set_resolved_value pred_gen false)).run later).ops w).gen
          = ((Predication.reached gens calls).ops w).gen ∧
        (((Predication.reached gens calls).step
            (PredicationCall.set_resolved_value pred_gen false)).run later).callbacks w
            ((Predication.reached gens calls).ops w).gen
          = [ResolveCallback.resolve_false true
              ((Predication.reached gens calls).ops w).launched]) := by
  have hcons := Predication.reached_consistent gens calls
  generalize Predication.reached gens calls = s at hcons ⊢
  obtain ⟨hk, he, hv⟩ := hcons
  have hw := hv w
  unfold view_consistent at hw
  obtain ⟨h1, h2, h3⟩ := hw
  refine ⟨?_, ?_, ?_, ?_⟩
  · unfold Predication.callbacks
    cases hst : (s.ops w).predication_state <;> rw [hst] at h3
    · rw [h3.1]; exact Nat.zero_le _
    · rw [h3.1]; exact Nat.zero_le _
    · rw [h3.1]; exact Nat.zero_le _
    · obtain ⟨_, _, sp, la, hc⟩ := h3
      rw [hc]; exact Nat.le_refl _
    · obtain ⟨_, _, sp, la, hc⟩ := h3
      rw [hc]; exact Nat.le_refl _
  · intro cb hcb
    unfold Predication.callbacks at hcb
    cases hst : (s.ops w).predication_state <;> rw [hst] at h3
    · rw [h3.1] at hcb; cases hcb
    · rw [h3.1] at hcb; cases hcb
    · rw [h3.1] at hcb; cases hcb
    · obtain ⟨hr, hval, sp, la, hc⟩ := h3
      rw [hc, List.mem_singleton] at hcb
      rw [hcb, hval]
      exact ⟨hr, rfl⟩
    · obtain ⟨hr, hval, sp, la, hc⟩ := h3
      rw [hc, List.mem_singleton] at hcb
      rw [hcb, hval]
      exact ⟨hr, rfl⟩
  · intro hr
    have hempty := he hr
    constructor
    · intro hnp
      unfold Predication.callbacks
      cases hst : (s.ops w).predication_state <;> rw [hst] at h3
      · exact absurd hst hnp
      · rw [hempty, map_find_nil] at h3
        cases h3.2
      · rw [hempty, map_find_nil] at h3
        cases h3.2
      · obtain ⟨_, hval, sp, la, hc⟩ := h3
        exact ⟨sp, la, by rw [hc, hval]; rfl⟩
      · obtain ⟨_, hval, sp, la, hc⟩ := h3
        exact ⟨sp, la, by rw [hc, hval]; rfl⟩
    · intro hp
      rw [hp] at h3
      have hc0 : callbacks_in (s.record w) (s.ops w).gen = [] := h3.1
      simp [Predication.step, Predication.trigger_dependence_analysis, hp,
        PredicateImpl.register_waiter, hr, Predication.callbacks, Predication.record,
        callbacks_in] at hc0 ⊢
      exact hc0
  · intro hsp pred_gen later hlater
    rw [hsp] at h3
    have hentry : map_find w s.predicate.waiters = some (s.ops w).gen := h3.2
    have hr2 : s.predicate.predicate_resolved = false := by
      cases hr : s.predicate.predicate_resolved
      · rfl
      · rw [he hr, map_find_nil] at hentry
        cases hentry
    have hview := Predication.resolve_view s
      { predicate_resolved := true, predicate_value := false, waiters := [] } false w hk
    rw [if_pos hentry] at hview
    have hops := congrArg Prod.fst hview
    have hrec := congrArg Prod.snd hview
    simp only at hops hrec
    have hstep : s.step (PredicationCall.set_resolved_value pred_gen false)
        = (s.predicate.waiters.map
            (fun e => ({ waiter := e.1, gen := e.2, value := false } : Notification))).foldl
          Predication.deliver
            { s with predicate :=
                { predicate_resolved := true, predicate_value := false, waiters := [] } } := by
      simp [Predication.step, PredicateImpl.set_resolved_value, hr2]
    have hres : (s.step (PredicationCall.set_resolved_value pred_gen false)).predicate.predicate_resolved
        = true := by
      rw [hstep, Predication.deliver_all_predicate]
    have hstate : ((s.step (PredicationCall.set_resolved_value pred_gen false)).ops w).predication_state
        = PredState.RESOLVE_FALSE_STATE := by
      rw [hstep, hops]
      rfl
    have hstable := Predication.run_resolved_stable _ w later hres (Or.inr hstate) hlater
    refine ⟨?_, ?_⟩
    · rw [hstable.1, hstep, hops]
    · unfold Predication.callbacks
      rw [hstable.2, hstep, hrec, callbacks_in_cons_same, h3.1, hsp]
      rfl

/-- The sample run of predication: each operation has one callback in each generation in
which it registered, all `resolve_false`; operation 2 alone was speculated and launched; the
second resolution changed nothing. -/
theorem sample_predication_outcome :
    ((Predication.reached (fun _ => 0) sample_predication_calls).callbacks 1 0
      = [ResolveCallback.resolve_false false false]) ∧
    ((Predication.reached (fun _ => 0) sample_predication_calls).callbacks 1 1
      = [ResolveCallback.resolve_false false false]) ∧
    ((Predication.reached (fun _ => 0) sample_predication_calls).callbacks 2 0
      = [ResolveCallback.resolve_false true true]) ∧
    ((Predication.reached (fun _ => 0) sample_predication_calls).callbacks 3 0
      = [ResolveCallback.resolve_false false false]) ∧
    ((Predication.reached (fun _ => 0) sample_predication_calls).callbacks 4 0 = []) ∧
    ((Predication.reached (fun _ => 0) sample_predication_calls).predicate
      = { predicate_resolved := true, predicate_value := false, waiters := [] }) ∧
    ((Predication.reached (fun _ => 0) (sample_predication_calls.take 4)).callbacks 2 0 = []) := by
  decide

/-! ## The order of rendezvous keys -/

/-- What `RendezvousKey::operator<` decides. -/
theorem RendezvousKey.lt_iff (a b : RendezvousKey) :
    a.lt b = true ↔
      a.region_index < b.region_index ∨
        (a.region_index = b.region_index ∧ a.analysis < b.analysis) := by
  unfold RendezvousKey.lt
  by_cases h1 : a.region_index < b.region_index
  · simp [h1]
  · by_cases h2 : a.region_index > b.region_index
    · rw [if_neg h1, if_pos h2]
      simp only [Bool.false_eq_true, false_iff]
      rintro (h | ⟨h, _⟩) <;> omega
    · rw [if_neg h1, if_neg h2, decide_eq_true_eq]
      constructor
      · intro h
        exact Or.inr ⟨by omega, h⟩
      · rintro (h | ⟨_, h⟩)
        · exact absurd h h1
        · exact h

/-- What it means that `RendezvousKey::operator<` says no. -/
theorem RendezvousKey.lt_eq_false_iff (a b : RendezvousKey) :
    a.lt b = false ↔
      ¬ (a.region_index < b.region_index ∨
        (a.region_index = b.region_index ∧ a.analysis < b.analysis)) := by
  rw [← RendezvousKey.lt_iff, Bool.not_eq_true]

/-- C10: `RendezvousKey::operator<` compares `region_index` first and `analysis`
second, and is a strict weak order: irreflexive, asymmetric, transitive, with
transitive incomparability. -/
theorem RendezvousKey.lt_strict_weak_order (a b c : RendezvousKey) :
    (a.lt b = true ↔
      a.region_index < b.region_index ∨
        (a.region_index = b.region_index ∧ a.analysis < b.analysis)) ∧
    a.lt a = false ∧
    (a.lt b = true → b.lt a = false) ∧
    (a.lt b = true → b.lt c = true → a.lt c = true) ∧
    (a.lt b = false → b.lt a = false → b.lt c = false → c.lt b = false →
      a.lt c = false ∧ c.lt a = false) := by
  refine ⟨RendezvousKey.lt_iff a b, ?_, ?_, ?_, ?_⟩
  · rw [RendezvousKey.lt_eq_false_iff]
    omega
  · rw [RendezvousKey.lt_iff, RendezvousKey.lt_eq_false_iff]
    omega
  · rw [RendezvousKey.lt_iff, RendezvousKey.lt_iff, RendezvousKey.lt_iff]
    omega
  · rw [RendezvousKey.lt_eq_false_iff, RendezvousKey.lt_eq_false_iff,
      RendezvousKey.lt_eq_false_iff, RendezvousKey.lt_eq_false_iff,
      RendezvousKey.lt_eq_false_iff, RendezvousKey.lt_eq_false_iff]
    omega

/-! ## Rendezvous: counting arrivals -/

/-- The decrement of a positive `size_t`. -/
theorem decrement_size_t_pos (n : Nat) (h0 : 0 < n) (h1 : n < 18446744073709551616) :
    decrement_size_t n = n - 1 := by
  unfold decrement_size_t
  omega

/-- Finding or creating a result leaves the pending collectives, the expected number of
participants and the record of finalizations alone. -/
theorem CollectiveViewCreator.find_or_create_rendezvous_frame (s : CollectiveViewCreator)
    (index analysis : Nat) (region : LogicalRegion)
    (targets : List (DistributedID × FieldMask)) (out : TargetPointers) :
    (s.find_or_create_rendezvous index analysis region targets out).2.pending_collectives
      = s.pending_collectives ∧
    (s.find_or_create_rendezvous index analysis region targets out).2.collective_points
      = s.collective_points ∧
    (s.find_or_create_rendezvous index analysis region targets out).2.finalized
      = s.finalized ∧
    (s.find_or_create_rendezvous index analysis region targets out).2.observed
      = s.observed :=
  ⟨rfl, rfl, rfl, rfl⟩

/-- An arrival decrements the arrivals still expected for its key once, and records a
finalization exactly when they reach zero. -/
theorem CollectiveViewCreator.rendezvous_collective_mapping_count
    (views : List (DistributedID × FieldMask) → DistributedID) (s : CollectiveViewCreator)
    (ri ai : Nat) (region : LogicalRegion) (result : Nat) :
    (s.rendezvous_collective_mapping views ri ai region result).remaining
        { region_index := ri, analysis := ai }
      = decrement_size_t (s.remaining { region_index := ri, analysis := ai }) ∧
    (s.rendezvous_collective_mapping views ri ai region result).collective_points
      = s.collective_points ∧
    (s.rendezvous_collective_mapping views ri ai region result).finalized
      = (if decrement_size_t (s.remaining { region_index := ri, analysis := ai }) = 0
          then [{ region_index := ri, analysis := ai }] else []) ++ s.finalized := by
  have hrem : (s.rendezvous_collective_mapping views ri ai region result).remaining
        { region_index := ri, analysis := ai }
      = decrement_size_t (s.remaining { region_index := ri, analysis := ai }) := by
    simp [CollectiveViewCreator.remaining, CollectiveViewCreator.pending_collective,
      CollectiveViewCreator.rendezvous_collective_mapping, PendingCollective.arrive]
  have harr : ((s.pending_collective { region_index := ri, analysis := ai }).arrive
        region result).remaining_arrivals
      = decrement_size_t (s.remaining { region_index := ri, analysis := ai }) := by
    simp only [PendingCollective.arrive, CollectiveViewCreator.remaining]
  have hfin : (s.rendezvous_collective_mapping views ri ai region result).finalized
      = if ((s.pending_collective { region_index := ri, analysis := ai }).arrive
            region result).remaining_arrivals = 0
          then { region_index := ri, analysis := ai } :: s.finalized else s.finalized := by
    simp only [CollectiveViewCreator.rendezvous_collective_mapping]
  refine ⟨hrem, rfl, ?_⟩
  rw [hfin, harr]
  split_ifs <;> rfl

/-- A call of `convert_collective_views` decrements the arrivals still expected for its key
once, and records a finalization exactly when they reach zero. -/
theorem CollectiveViewCreator.convert_collective_views_count
    (views : List (DistributedID × FieldMask) → DistributedID) (s : CollectiveViewCreator)
    (ri ai : Nat) (a : Arrival) :
    (s.convert_collective_views views ri ai a.region a.targets a.out).2.remaining
        { region_index := ri, analysis := ai }
      = decrement_size_t (s.remaining { region_index := ri, analysis := ai }) ∧
    (s.convert_collective_views views ri ai a.region a.targets a.out).2.collective_points
      = s.collective_points ∧
    (s.convert_collective_views views ri ai a.region a.targets a.out).2.finalized
      = (if decrement_size_t (s.remaining { region_index := ri, analysis := ai }) = 0
          then [{ region_index := ri, analysis := ai }] else []) ++ s.finalized := by
  have h := CollectiveViewCreator.rendezvous_collective_mapping_count views
    (s.find_or_create_rendezvous ri ai a.region a.targets a.out).2 ri ai a.region
    (s.find_or_create_rendezvous ri ai a.region a.targets a.out).1
  exact h

/-- A sequence of calls, no longer than the arrivals still expected, decrements them once
a call, and records one finalization if it brings them to zero, none otherwise. -/
theorem CollectiveViewCreator.arrive_all_count
    (views : List (DistributedID × FieldMask) → DistributedID) (ri ai : Nat)
    (arrivals : List Arrival) (s : CollectiveViewCreator)
    (hlen : arrivals.length ≤ s.remaining { region_index := ri, analysis := ai })
    (hbound : s.remaining { region_index := ri, analysis := ai } < 18446744073709551616) :
    (s.arrive_all views ri ai arrivals).remaining { region_index := ri, analysis := ai }
      = s.remaining { region_index := ri, analysis := ai } - arrivals.length ∧
    (s.arrive_all views ri ai arrivals).finalized
      = (if arrivals ≠ [] ∧
            arrivals.length = s.remaining { region_index := ri, analysis := ai }
          then [{ region_index := ri, analysis := ai }] else []) ++ s.finalized := by
  induction arrivals generalizing s with
  | nil => simp [CollectiveViewCreator.arrive_all]
  | cons a l ih =>
    have hstep := CollectiveViewCreator.convert_collective_views_count views s ri ai a
    have hlen1 : l.length + 1 ≤ s.remaining { region_index := ri, analysis := ai } := hlen
    have hdec := decrement_size_t_pos (s.remaining { region_index := ri, analysis := ai })
      (by omega) hbound
    rw [hdec] at hstep
    have h := ih (s.convert_collective_views views ri ai a.region a.targets a.out).2
      (by rw [hstep.1]; omega) (by rw [hstep.1]; omega)
    rw [hstep.1, hstep.2.2] at h
    have hrun : s.arrive_all views ri ai (a :: l)
        = (s.convert_collective_views views ri ai a.region a.targets a.out).2.arrive_all
            views ri ai l := rfl
    rw [hrun, h.1, h.2]
    refine ⟨by simp only [List.length_cons]; omega, ?_⟩
    by_cases hz : s.remaining { region_index := ri, analysis := ai } - 1 = 0
    · have hl : l = [] := List.length_eq_zero.1 (by omega)
      subst hl
      have h1 : s.remaining { region_index := ri, analysis := ai } = 1 := by
        simp only [List.length_nil] at hlen1
        omega
      simp [h1]
    · have hl : (l ≠ [] ∧ l.length = s.remaining { region_index := ri, analysis := ai } - 1)
          ↔ ((a :: l) ≠ [] ∧
            (a :: l).length = s.remaining { region_index := ri, analysis := ai }) := by
        simp only [ne_eq, List.length_cons, reduceCtorEq, not_false_eq_true, true_and]
        constructor
        · rintro ⟨_, h2⟩
          omega
        · intro h2
          refine ⟨?_, by omega⟩
          intro hnil
          rw [hnil] at h2
          simp only [List.length_nil] at h2
          omega
      simp only [hz, if_false, List.nil_append]
      by_cases hc : l ≠ [] ∧ l.length = s.remaining { region_index := ri, analysis := ai } - 1
      · rw [if_pos hc, if_pos (hl.1 hc)]
      · rw [if_neg hc, if_neg (fun h2 => hc (hl.2 h2))]

/-- C8: for a `PendingCollective` created with `remaining_arrivals = K`, when
`K` calling operations arrive for the same `RendezvousKey`, whatever
their instance sets and regions, so however many distinct results they produce: after
the first `j` of them `remaining_arrivals` is `K - j`, one decrement for each
calling operation, and the finalization has run exactly once if `j = K`, when
the count is zero, and not at all before. -/
theorem rendezvous_arrival_counting (views : List (DistributedID × FieldMask) → DistributedID)
    (K ri ai : Nat) (arrivals : List Arrival) (j : Nat)
    (hK : 0 < K) (hbound : K < 18446744073709551616) (hlen : arrivals.length = K)
    (hj : j ≤ K) :
    ((CollectiveViewCreator.activated K).arrive_all views ri ai (arrivals.take j)).remaining
        { region_index := ri, analysis := ai } = K - j ∧
    ((CollectiveViewCreator.activated K).arrive_all views ri ai (arrivals.take j)).finalized
      = (if j = K then [{ region_index := ri, analysis := ai }] else []) ∧
    (((CollectiveViewCreator.activated K).arrive_all views ri ai
        (arrivals.take j)).finalized.count { region_index := ri, analysis := ai }
      = 1 ↔
      ((CollectiveViewCreator.activated K).arrive_all views ri ai (arrivals.take j)).remaining
        { region_index := ri, analysis := ai } = 0) := by
  have hrem : (CollectiveViewCreator.activated K).remaining
      { region_index := ri, analysis := ai } = K := rfl
  have hlenj : (arrivals.take j).length = j := by
    rw [List.length_take, hlen]
    exact Nat.min_eq_left hj
  have h := CollectiveViewCreator.arrive_all_count views ri ai (arrivals.take j)
    (CollectiveViewCreator.activated K) (by rw [hrem, hlenj]; exact hj) (by rw [hrem]; exact hbound)
  rw [hrem, hlenj] at h
  have hfin : ((CollectiveViewCreator.activated K).arrive_all views ri ai
      (arrivals.take j)).finalized
      = (if j = K then [{ region_index := ri, analysis := ai }] else []) := by
    rw [h.2]
    by_cases hjK : j = K
    · have hne : arrivals.take j ≠ [] := by
        intro hnil
        rw [hnil] at hlenj
        simp only [List.length_nil] at hlenj
        omega
      rw [if_pos ⟨hne, hjK⟩, if_pos hjK]
      rfl
    · rw [if_neg (fun hc => hjK hc.2), if_neg hjK]
      rfl
  refine ⟨h.1, hfin, ?_⟩
  rw [hfin, h.1]
  by_cases hjK : j = K
  · simp [hjK]
  · simp only [hjK, if_false, List.count_nil]
    constructor
    · intro h0
      cases h0
    · intro h0
      omega

/-! ## Rendezvous: agreement on the collective view -/

/-- The output locations registered on a result after one more caller. -/
theorem RendezvousResult.mem_targets_add_targets (r : RendezvousResult) (out : TargetPointers)
    (p : Nat) : p ∈ (r.add_targets out).targets ↔ p ∈ r.targets ∨ p ∈ out.all := by
  simp only [RendezvousResult.targets, RendezvousResult.add_targets, TargetPointers.all,
    List.mem_append, List.mem_cons, List.mem_singleton, List.not_mem_nil, or_false]
  tauto

/-- Registering a caller leaves the instances of a result alone. -/
theorem RendezvousResult.instances_add_targets (r : RendezvousResult) (out : TargetPointers) :
    (r.add_targets out).instances = r.instances := rfl

/-- The result that `find_or_create` returns holds the caller's instance set and output
locations. -/
theorem find_or_create_found (key : PendingRendezvousKey)
    (insts : List (DistributedID × FieldMask)) (out : TargetPointers)
    (vec : List RendezvousResult) :
    ∃ res, (find_or_create key insts out vec).2[(find_or_create key insts out vec).1]? = some res ∧
      res.instances = insts ∧ ∀ p ∈ out.all, p ∈ res.targets := by
  induction vec with
  | nil =>
    refine ⟨{ key := key, instances := insts,
              target_mappings := [out.analysis_mapping],
              target_first_locals := [out.first_local],
              target_views := [out.target_views],
              target_arrivals := [out.collective_arrivals] }, by simp [find_or_create], rfl, ?_⟩
    intro p hp
    simpa [RendezvousResult.targets, TargetPointers.all] using hp
  | cons r rs ih =>
    unfold find_or_create
    by_cases hm : r.matches insts = true
    · rw [if_pos hm]
      refine ⟨r.add_targets out, by simp, ?_, ?_⟩
      · simpa [RendezvousResult.matches] using hm
      · intro p hp
        exact (RendezvousResult.mem_targets_add_targets r out p).2 (Or.inr hp)
    · rw [if_neg hm]
      obtain ⟨res, h1, h2, h3⟩ := ih
      exact ⟨res, by simpa using h1, h2, h3⟩

/-- The results pending before keep their positions, their instances and their output
locations. -/
theorem find_or_create_keeps (key : PendingRendezvousKey)
    (insts : List (DistributedID × FieldMask)) (out : TargetPointers)
    (vec : List RendezvousResult) (idx : Nat) (res : RendezvousResult)
    (h : vec[idx]? = some res) :
    ∃ res1, (find_or_create key insts out vec).2[idx]? = some res1 ∧
      res1.instances = res.instances ∧ ∀ p ∈ res.targets, p ∈ res1.targets := by
  induction vec generalizing idx with
  | nil => simp at h
  | cons r rs ih =>
    unfold find_or_create
    by_cases hm : r.matches insts = true
    · rw [if_pos hm]
      cases idx with
      | zero =>
        simp only [List.getElem?_cons_zero, Option.some.injEq] at h
        subst h
        exact ⟨r.add_targets out, by simp, rfl,
          fun p hp => (RendezvousResult.mem_targets_add_targets r out p).2 (Or.inl hp)⟩
      | succ n =>
        simp only [List.getElem?_cons_succ] at h
        exact ⟨res, by simpa using h, rfl, fun p hp => hp⟩
    · rw [if_neg hm]
      cases idx with
      | zero =>
        simp only [List.getElem?_cons_zero, Option.some.injEq] at h
        subst h
        exact ⟨r, by simp, rfl, fun p hp => hp⟩
      | succ n =>
        simp only [List.getElem?_cons_succ] at h
        obtain ⟨res1, h1, h2, h3⟩ := ih n h
        exact ⟨res1, by simpa using h1, h2, h3⟩

/-- Every result pending afterwards is one that was pending, with its output locations, or
holds the caller's instance set, and every output location on it was there before or is the
caller's. -/
theorem find_or_create_origin (key : PendingRendezvousKey)
    (insts : List (DistributedID × FieldMask)) (out : TargetPointers)
    (vec : List RendezvousResult) (res1 : RendezvousResult)
    (h : res1 ∈ (find_or_create key insts out vec).2) :
    (res1.instances = insts ∨ ∃ res ∈ vec, res.instances = res1.instances) ∧
    ∀ p ∈ res1.targets,
      (∃ res ∈ vec, res.instances = res1.instances ∧ p ∈ res.targets) ∨
      (res1.instances = insts ∧ p ∈ out.all) := by
  induction vec with
  | nil =>
    simp only [find_or_create, List.mem_singleton] at h
    subst h
    refine ⟨Or.inl rfl, fun p hp => Or.inr ⟨rfl, ?_⟩⟩
    simpa [RendezvousResult.targets, TargetPointers.all] using hp
  | cons r rs ih =>
    unfold find_or_create at h
    by_cases hm : r.matches insts = true
    · rw [if_pos hm] at h
      have hri : r.instances = insts := by simpa [RendezvousResult.matches] using hm
      rcases List.mem_cons.1 h with h1 | h1
      · subst h1
        refine ⟨Or.inl hri, fun p hp => ?_⟩
        rcases (RendezvousResult.mem_targets_add_targets r out p).1 hp with h2 | h2
        · exact Or.inl ⟨r, List.mem_cons_self _ _, rfl, h2⟩
        · exact Or.inr ⟨hri, h2⟩
      · exact ⟨Or.inr ⟨res1, List.mem_cons_of_mem _ h1, rfl⟩,
          fun p hp => Or.inl ⟨res1, List.mem_cons_of_mem _ h1, rfl, hp⟩⟩
    · rw [if_neg hm] at h
      rcases List.mem_cons.1 h with h1 | h1
      · subst h1
        exact ⟨Or.inr ⟨res1, List.mem_cons_self _ _, rfl⟩,
          fun p hp => Or.inl ⟨res1, List.mem_cons_self _ _, rfl, hp⟩⟩
      · obtain ⟨h2, h3⟩ := ih h1
        refine ⟨?_, fun p hp => ?_⟩
        · rcases h2 with h2 | ⟨res, hres, h2⟩
          · exact Or.inl h2
          · exact Or.inr ⟨res, List.mem_cons_of_mem _ hres, h2⟩
        · rcases h3 p hp with ⟨res, hres, h4, h5⟩ | h4
          · exact Or.inl ⟨res, List.mem_cons_of_mem _ hres, h4, h5⟩
          · exact Or.inr h4

/-- The search keeps the instance sets of the pending results different from one another. -/
theorem find_or_create_distinct (key : PendingRendezvousKey)
    (insts : List (DistributedID × FieldMask)) (out : TargetPointers)
    (vec : List RendezvousResult) (h : distinct_instances vec) :
    distinct_instances (find_or_create key insts out vec).2 := by
  induction vec with
  | nil => simp [find_or_create, distinct_instances]
  | cons r rs ih =>
    unfold distinct_instances at h ih ⊢
    rw [List.pairwise_cons] at h
    unfold find_or_create
    by_cases hm : r.matches insts = true
    · rw [if_pos hm]
      exact List.pairwise_cons.2 ⟨h.1, h.2⟩
    · rw [if_neg hm]
      refine List.pairwise_cons.2 ⟨?_, ih h.2⟩
      intro res1 hres1
      rcases (find_or_create_origin key insts out rs res1 hres1).1 with h1 | ⟨res, hres, h1⟩
      · intro hc
        apply hm
        simp [RendezvousResult.matches, hc, h1]
      · rw [← h1]
        exact h.1 res hres

/-- A position among the results pending afterwards was one before, or is the caller's. -/
theorem find_or_create_positions (key : PendingRendezvousKey)
    (insts : List (DistributedID × FieldMask)) (out : TargetPointers)
    (vec : List RendezvousResult) (idx : Nat)
    (h : idx < (find_or_create key insts out vec).2.length) :
    idx < vec.length ∨ idx = (find_or_create key insts out vec).1 := by
  induction vec generalizing idx with
  | nil =>
    simp only [find_or_create, List.length_singleton] at h ⊢
    omega
  | cons r rs ih =>
    unfold find_or_create at h ⊢
    by_cases hm : r.matches insts = true
    · rw [if_pos hm] at h ⊢
      exact Or.inl (by simpa using h)
    · rw [if_neg hm] at h ⊢
      cases idx with
      | zero => exact Or.inl (by simp)
      | succ n =>
        simp only [List.length_cons, Nat.add_lt_add_iff_right] at h
        rcases ih n h with h1 | h1
        · exact Or.inl (by simpa using h1)
        · exact Or.inr (by simp only [h1])

/-- Among results whose instance sets differ from one another, a result is known by
its instance set. -/
theorem distinct_instances_position (vec : List RendezvousResult) (i j : Nat)
    (a b : RendezvousResult) (h : distinct_instances vec) (hi : vec[i]? = some a)
    (hj : vec[j]? = some b) (hab : a.instances = b.instances) : i = j := by
  induction vec generalizing i j with
  | nil => simp at hi
  | cons r rs ih =>
    unfold distinct_instances at h ih
    rw [List.pairwise_cons] at h
    cases i with
    | zero =>
      cases j with
      | zero => rfl
      | succ m =>
        simp only [List.getElem?_cons_zero, Option.some.injEq] at hi
        simp only [List.getElem?_cons_succ] at hj
        subst hi
        exact absurd hab (h.1 b (List.getElem?_mem hj))
    | succ n =>
      cases j with
      | zero =>
        simp only [List.getElem?_cons_zero, Option.some.injEq] at hj
        simp only [List.getElem?_cons_succ] at hi
        subst hj
        exact absurd hab.symm (h.1 a (List.getElem?_mem hi))
      | succ m =>
        simp only [List.getElem?_cons_succ] at hi hj
        rw [ih n m h.2 hi hj]

/-- What an output location holds after a pass of finalization over `results`, when every
result among them on which it is registered is given the identity `v`, and it held `v` before
or is registered on one of them: the identity `v`. -/
theorem finalize_collective_mapping_holds
    (views : List (DistributedID × FieldMask) → DistributedID)
    (results : List RendezvousResult) (observed : Nat → Option DistributedID) (p : Nat)
    (v : DistributedID)
    (hall : ∀ r ∈ results, p ∈ r.targets → views r.instances = v)
    (hsome : observed p = some v ∨ ∃ r ∈ results, p ∈ r.targets) :
    finalize_collective_mapping views results observed p = some v := by
  induction results generalizing observed with
  | nil =>
    rcases hsome with h | ⟨r, hr, _⟩
    · exact h
    · cases hr
  | cons r rs ih =>
    unfold finalize_collective_mapping
    rw [List.foldl_cons]
    apply ih _ (fun r1 hr1 => hall r1 (List.mem_cons_of_mem _ hr1))
    by_cases hp : p ∈ r.targets
    · left
      simp [RendezvousResult.finalize_rendezvous, hp, hall r (List.mem_cons_self _ _) hp]
    · rcases hsome with h | ⟨r1, hr1, h1⟩
      · left
        simp [RendezvousResult.finalize_rendezvous, hp, h]
      · rcases List.mem_cons.1 hr1 with h2 | h2
        · rw [h2] at h1
          exact absurd h1 hp
        · exact Or.inr ⟨r1, h2, h1⟩

/-- What the pending results are after a call, region by region. -/
theorem CollectiveViewCreator.convert_pending_rendezvous
    (views : List (DistributedID × FieldMask) → DistributedID) (s : CollectiveViewCreator)
    (ri ai : Nat) (a : Arrival) (region : LogicalRegion) :
    (s.convert_collective_views views ri ai a.region a.targets a.out).2.pending_rendezvous
        { region_index := ri, analysis := ai, region := region }
      = if region = a.region then
          (find_or_create { region_index := ri, analysis := ai, region := a.region }
            a.targets a.out
            (s.pending_rendezvous { region_index := ri, analysis := ai, region := a.region })).2
        else s.pending_rendezvous { region_index := ri, analysis := ai, region := region } := by
  simp only [CollectiveViewCreator.convert_collective_views,
    CollectiveViewCreator.rendezvous_collective_mapping,
    CollectiveViewCreator.find_or_create_rendezvous]
  by_cases h : region = a.region
  · subst h
    simp
  · have hk : ¬ ({ region_index := ri, analysis := ai, region := region } : PendingRendezvousKey)
        = { region_index := ri, analysis := ai, region := a.region } := by
      intro hc
      injection hc with _ hc2
      exact h hc2
    rw [if_neg hk, if_neg h]

/-- The position that a call gets back. -/
theorem CollectiveViewCreator.convert_position
    (views : List (DistributedID × FieldMask) → DistributedID) (s : CollectiveViewCreator)
    (ri ai : Nat) (a : Arrival) :
    (s.convert_collective_views views ri ai a.region a.targets a.out).1
      = (find_or_create { region_index := ri, analysis := ai, region := a.region }
          a.targets a.out
          (s.pending_rendezvous { region_index := ri, analysis := ai, region := a.region })).1 :=
  rfl

/-- What the pending collective of the key is after a call. -/
theorem CollectiveViewCreator.convert_pending_collective
    (views : List (DistributedID × FieldMask) → DistributedID) (s : CollectiveViewCreator)
    (ri ai : Nat) (a : Arrival) :
    (s.convert_collective_views views ri ai a.region a.targets a.out).2.pending_collective
        { region_index := ri, analysis := ai }
      = (s.pending_collective { region_index := ri, analysis := ai }).arrive a.region
          (s.convert_collective_views views ri ai a.region a.targets a.out).1 := by
  simp [CollectiveViewCreator.convert_collective_views,
    CollectiveViewCreator.rendezvous_collective_mapping,
    CollectiveViewCreator.find_or_create_rendezvous, CollectiveViewCreator.pending_collective]

/-- After an arrival, the result is among those arrived for its region, with those that had
arrived before. -/
theorem PendingCollective.arrive_region (pc : PendingCollective) (region : LogicalRegion)
    (result : Nat) :
    ∃ rv1, map_find region (pc.arrive region result).rendezvous = some rv1 ∧
      result ∈ rv1.results ∧
      ∀ rv, map_find region pc.rendezvous = some rv → ∀ i ∈ rv.results, i ∈ rv1.results := by
  refine ⟨_, map_find_map_assign_same _ _ _, ?_, ?_⟩
  · by_cases h : result ∈ (pc.arrived region).results
    · rw [if_pos h]
      exact h
    · rw [if_neg h]
      simp
  · intro rv hrv i hi
    have harr : pc.arrived region = rv := by
      simp [PendingCollective.arrived, hrv]
    by_cases h : result ∈ (pc.arrived region).results
    · rw [if_pos h, harr]
      exact hi
    · rw [if_neg h, harr]
      simp [hi]

/-- An arrival leaves what has arrived for the other regions alone. -/
theorem PendingCollective.arrive_other (pc : PendingCollective) (region r : LogicalRegion)
    (result : Nat) (h : r ≠ region) :
    map_find r (pc.arrive region result).rendezvous = map_find r pc.rendezvous :=
  map_find_map_assign_other _ _ _ _ h

/-- A call keeps the rendezvous consistent. -/
theorem CollectiveViewCreator.convert_consistent
    (views : List (DistributedID × FieldMask) → DistributedID) (s : CollectiveViewCreator)
    (ri ai : Nat) (a : Arrival) (processed : List Arrival)
    (h : s.rendezvous_consistent { region_index := ri, analysis := ai } processed) :
    (s.convert_collective_views views ri ai a.region a.targets a.out).2.rendezvous_consistent
      { region_index := ri, analysis := ai } (a :: processed) := by
  obtain ⟨h1, h2, h3, h4, h5⟩ := h
  have hvec := CollectiveViewCreator.convert_pending_rendezvous views s ri ai a
  have hpc := CollectiveViewCreator.convert_pending_collective views s ri ai a
  have hpos := CollectiveViewCreator.convert_position views s ri ai a
  refine ⟨?_, ?_, ?_, ?_, ?_⟩
  · intro region
    rw [hvec region]
    by_cases hr : region = a.region
    · rw [if_pos hr]
      exact find_or_create_distinct _ _ _ _ (h1 a.region)
    · rw [if_neg hr]
      exact h1 region
  · intro region res hres p hp
    rw [hvec region] at hres
    by_cases hr : region = a.region
    · rw [if_pos hr] at hres
      rcases (find_or_create_origin _ _ _ _ res hres).2 p hp with ⟨res0, hres0, hi, hp0⟩ | ⟨hi, hpa⟩
      · obtain ⟨a0, ha0, hreg, htar, hpin⟩ := h2 a.region res0 hres0 p hp0
        exact ⟨a0, List.mem_cons_of_mem _ ha0, hreg.trans hr.symm, htar.trans hi, hpin⟩
      · exact ⟨a, List.mem_cons_self _ _, hr.symm, hi.symm, hpa⟩
    · rw [if_neg hr] at hres
      obtain ⟨a0, ha0, hrest⟩ := h2 region res hres p hp
      exact ⟨a0, List.mem_cons_of_mem _ ha0, hrest⟩
  · intro region idx hidx
    rw [hvec region] at hidx
    rw [hpc]
    by_cases hr : region = a.region
    · rw [if_pos hr] at hidx
      obtain ⟨rv1, hrv1, hin, hold⟩ := PendingCollective.arrive_region
        (s.pending_collective { region_index := ri, analysis := ai }) a.region
        (s.convert_collective_views views ri ai a.region a.targets a.out).1
      rw [hr]
      refine ⟨rv1, hrv1, ?_⟩
      rcases find_or_create_positions _ _ _ _ idx hidx with hlt | heq
      · obtain ⟨rv, hrv, hmem⟩ := h3 a.region idx hlt
        exact hold rv hrv idx hmem
      · rw [heq, ← hpos]
        exact hin
    · rw [if_neg hr] at hidx
      rw [PendingCollective.arrive_other _ _ _ _ hr]
      exact h3 region idx hidx
  · rw [hpc]
    exact keys_increasing_map_assign _ _ _ h4
  · intro a0 ha0
    rcases List.mem_cons.1 ha0 with heq | hmem
    · subst heq
      obtain ⟨res, hres, hi, hp⟩ := find_or_create_found
        { region_index := ri, analysis := ai, region := a0.region } a0.targets a0.out
        (s.pending_rendezvous { region_index := ri, analysis := ai, region := a0.region })
      refine ⟨res, ?_, hi, hp⟩
      rw [hvec a0.region, if_pos rfl]
      exact List.getElem?_mem hres
    · obtain ⟨res, hres, hi, hp⟩ := h5 a0 hmem
      rw [hvec a0.region]
      by_cases hr : a0.region = a.region
      · rw [if_pos hr]
        rw [hr] at hres
        obtain ⟨idx, hidx⟩ := List.mem_iff_getElem?.1 hres
        obtain ⟨res1, hres1, hi1, hp1⟩ := find_or_create_keeps
          { region_index := ri, analysis := ai, region := a.region } a.targets a.out _ idx res hidx
        exact ⟨res1, List.getElem?_mem hres1, hi1.trans hi, fun p hpp => hp1 p (hp p hpp)⟩
      · rw [if_neg hr]
        exact ⟨res, hres, hi, hp⟩

/-- What an output location holds after the finalization of the collective mapping, region
by region, when every arrived result on which it is registered is given the identity `v`, and
it is registered on one of them: the identity `v`. -/
theorem CollectiveViewCreator.construct_collective_mapping_holds
    (views : List (DistributedID × FieldMask) → DistributedID) (s : CollectiveViewCreator)
    (key : RendezvousKey) (rendezvous : List (LogicalRegion × CollectiveRendezvous))
    (p : Nat) (v : DistributedID)
    (hall : ∀ e ∈ rendezvous, ∀ r ∈ s.arrived_results key e,
      p ∈ r.targets → views r.instances = v)
    (hsome : ∃ e ∈ rendezvous, ∃ r ∈ s.arrived_results key e, p ∈ r.targets) :
    s.construct_collective_mapping views key rendezvous p = some v := by
  unfold CollectiveViewCreator.construct_collective_mapping
  have hgen : ∀ (l : List (LogicalRegion × CollectiveRendezvous))
      (obs : Nat → Option DistributedID),
      (∀ e ∈ l, ∀ r ∈ s.arrived_results key e, p ∈ r.targets → views r.instances = v) →
      (obs p = some v ∨ ∃ e ∈ l, ∃ r ∈ s.arrived_results key e, p ∈ r.targets) →
      l.foldl (fun obs e => finalize_collective_mapping views (s.arrived_results key e) obs)
        obs p = some v := by
    intro l
    induction l with
    | nil =>
      intro obs _ hs
      rcases hs with h | ⟨e, he, _⟩
      · exact h
      · cases he
    | cons e l ih =>
      intro obs ha hs
      rw [List.foldl_cons]
      apply ih _ (fun e1 he1 => ha e1 (List.mem_cons_of_mem _ he1))
      by_cases hin : ∃ r ∈ s.arrived_results key e, p ∈ r.targets
      · left
        exact finalize_collective_mapping_holds views _ obs p v
          (ha e (List.mem_cons_self _ _)) (Or.inr hin)
      · rcases hs with h | ⟨e1, he1, r, hr, hp⟩
        · left
          exact finalize_collective_mapping_holds views _ obs p v
            (ha e (List.mem_cons_self _ _)) (Or.inl h)
        · rcases List.mem_cons.1 he1 with h2 | h2
          · rw [h2] at hr
            exact absurd ⟨r, hr, hp⟩ hin
          · exact Or.inr ⟨e1, h2, r, hr, hp⟩
  exact hgen rendezvous s.observed hall (Or.inr hsome)

/-- In a consistent rendezvous whose calls passed output locations of their own, the
finalization of the collective mapping leaves, in every output location registered on a
pending result, the identity of the instance set of that result. -/
theorem CollectiveViewCreator.construct_collective_mapping_agrees
    (views : List (DistributedID × FieldMask) → DistributedID) (s : CollectiveViewCreator)
    (key : RendezvousKey) (processed : List Arrival)
    (h : s.rendezvous_consistent key processed)
    (hown : ∀ a ∈ processed, ∀ b ∈ processed, ∀ p ∈ a.out.all, p ∈ b.out.all → a = b)
    (region : LogicalRegion) (res : RendezvousResult)
    (hres : res ∈ s.pending_rendezvous { toRendezvousKey := key, region := region })
    (p : Nat) (hp : p ∈ res.targets) :
    s.construct_collective_mapping views key (s.pending_collective key).rendezvous p
      = some (views res.instances) := by
  obtain ⟨_, h2, h3, h4, _⟩ := h
  obtain ⟨a, ha, _, hta, hpa⟩ := h2 region res hres p hp
  apply CollectiveViewCreator.construct_collective_mapping_holds
  · intro e _ r hr hpr
    have hrmem : r ∈ s.pending_rendezvous { toRendezvousKey := key, region := e.1 } := by
      unfold CollectiveViewCreator.arrived_results at hr
      obtain ⟨i, _, hi⟩ := List.mem_filterMap.1 hr
      exact List.getElem?_mem hi
    obtain ⟨b, hb, _, htb, hpb⟩ := h2 e.1 r hrmem p hpr
    have hab := hown a ha b hb p hpa hpb
    rw [← htb, ← hta, hab]
  · obtain ⟨idx, hidx⟩ := List.mem_iff_getElem?.1 hres
    have hlt : idx < (s.pending_rendezvous { toRendezvousKey := key, region := region }).length := by
      obtain ⟨hl, _⟩ := List.getElem?_eq_some_iff.1 hidx
      exact hl
    obtain ⟨rv, hrv, hin⟩ := h3 region idx hlt
    have hmem := (count_key_of_map_find region rv _ h4 hrv).2
    refine ⟨(region, rv), hmem, res, ?_, hp⟩
    unfold CollectiveViewCreator.arrived_results
    exact List.mem_filterMap.2 ⟨idx, hin, hidx⟩

/-- The state after the calls is the one `arrive_all` gives. -/
theorem CollectiveViewCreator.arrive_each_state
    (views : List (DistributedID × FieldMask) → DistributedID) (ri ai : Nat)
    (arrivals : List Arrival) (s : CollectiveViewCreator) :
    (s.arrive_each views ri ai arrivals).2 = s.arrive_all views ri ai arrivals := by
  induction arrivals generalizing s with
  | nil => rfl
  | cons a l ih =>
    simp only [CollectiveViewCreator.arrive_each]
    rw [ih]
    rfl

/-- The state after calls in a row. -/
theorem CollectiveViewCreator.arrive_all_append
    (views : List (DistributedID × FieldMask) → DistributedID) (ri ai : Nat)
    (l1 l2 : List Arrival) (s : CollectiveViewCreator) :
    s.arrive_all views ri ai (l1 ++ l2) = (s.arrive_all views ri ai l1).arrive_all views ri ai l2 := by
  simp [CollectiveViewCreator.arrive_all, List.foldl_append]

/-- Every sequence of calls keeps the rendezvous consistent. -/
theorem CollectiveViewCreator.arrive_all_consistent
    (views : List (DistributedID × FieldMask) → DistributedID) (ri ai : Nat)
    (arrivals : List Arrival) (s : CollectiveViewCreator) (processed : List Arrival)
    (h : s.rendezvous_consistent { region_index := ri, analysis := ai } processed) :
    (s.arrive_all views ri ai arrivals).rendezvous_consistent
      { region_index := ri, analysis := ai } (arrivals.reverse ++ processed) := by
  induction arrivals generalizing s processed with
  | nil => exact h
  | cons a l ih =>
    have h1 := ih _ _ (CollectiveViewCreator.convert_consistent views s ri ai a processed h)
    have hl : (a :: l).reverse ++ processed = l.reverse ++ a :: processed := by simp
    rw [hl]
    exact h1

/-- The rendezvous is consistent when nothing has arrived. -/
theorem CollectiveViewCreator.activated_rendezvous_consistent (K : Nat) (key : RendezvousKey) :
    (CollectiveViewCreator.activated K).rendezvous_consistent key [] := by
  refine ⟨fun _ => List.Pairwise.nil, ?_, ?_, List.Pairwise.nil, ?_⟩
  · intro region res hres
    cases hres
  · intro region idx hidx
    simp [CollectiveViewCreator.activated] at hidx
  · intro a ha
    cases ha

/-- A result pending at some position stays there through later calls, with its instance
set and the output locations registered on it. -/
theorem CollectiveViewCreator.arrive_all_keeps
    (views : List (DistributedID × FieldMask) → DistributedID) (ri ai : Nat)
    (arrivals : List Arrival) (s : CollectiveViewCreator) (region : LogicalRegion)
    (q : Nat) (res : RendezvousResult)
    (h : (s.pending_rendezvous { region_index := ri, analysis := ai, region := region })[q]?
      = some res) :
    ∃ res1, ((s.arrive_all views ri ai arrivals).pending_rendezvous
        { region_index := ri, analysis := ai, region := region })[q]? = some res1 ∧
      res1.instances = res.instances ∧ ∀ p ∈ res.targets, p ∈ res1.targets := by
  induction arrivals generalizing s res with
  | nil => exact ⟨res, h, rfl, fun p hp => hp⟩
  | cons a l ih =>
    have hvec := CollectiveViewCreator.convert_pending_rendezvous views s ri ai a region
    have hstep : ∃ res0,
        ((s.convert_collective_views views ri ai a.region a.targets a.out).2.pending_rendezvous
          { region_index := ri, analysis := ai, region := region })[q]? = some res0 ∧
        res0.instances = res.instances ∧ ∀ p ∈ res.targets, p ∈ res0.targets := by
      rw [hvec]
      by_cases hr : region = a.region
      · rw [if_pos hr]
        rw [hr] at h
        exact find_or_create_keeps _ _ _ _ q res h
      · rw [if_neg hr]
        exact ⟨res, h, rfl, fun p hp => hp⟩
    obtain ⟨res0, h0, hi0, hp0⟩ := hstep
    obtain ⟨res1, h1, hi1, hp1⟩ := ih _ res0 h0
    exact ⟨res1, h1, hi1.trans hi0, fun p hp => hp1 p (hp0 p hp)⟩

/-- Every call gets back the position of a result that, after all the calls, holds
its instance set and its output locations. -/
theorem CollectiveViewCreator.arrive_each_positions
    (views : List (DistributedID × FieldMask) → DistributedID) (ri ai : Nat)
    (arrivals : List Arrival) (s : CollectiveViewCreator) (i : Nat) (a : Arrival)
    (h : arrivals[i]? = some a) :
    ∃ q res, (s.arrive_each views ri ai arrivals).1[i]? = some q ∧
      ((s.arrive_all views ri ai arrivals).pending_rendezvous
        { region_index := ri, analysis := ai, region := a.region })[q]? = some res ∧
      res.instances = a.targets ∧ ∀ p ∈ a.out.all, p ∈ res.targets := by
  induction arrivals generalizing s i with
  | nil => simp at h
  | cons b l ih =>
    cases i with
    | zero =>
      simp only [List.getElem?_cons_zero, Option.some.injEq] at h
      subst h
      obtain ⟨res, hres, hi, hp⟩ := find_or_create_found
        { region_index := ri, analysis := ai, region := b.region } b.targets b.out
        (s.pending_rendezvous { region_index := ri, analysis := ai, region := b.region })
      have hvec := CollectiveViewCreator.convert_pending_rendezvous views s ri ai b b.region
      rw [if_pos rfl] at hvec
      rw [← hvec, ← CollectiveViewCreator.convert_position views s ri ai b] at hres
      obtain ⟨res1, h1, hi1, hp1⟩ := CollectiveViewCreator.arrive_all_keeps views ri ai l _
        b.region _ res hres
      exact ⟨_, res1, by simp [CollectiveViewCreator.arrive_each], h1, hi1.trans hi,
        fun p hpp => hp1 p (hp p hpp)⟩
    | succ n =>
      simp only [List.getElem?_cons_succ] at h
      obtain ⟨q, res, hq, hres, hi, hp⟩ := ih
        (s.convert_collective_views views ri ai b.region b.targets b.out).2 n h
      exact ⟨q, res, by simpa [CollectiveViewCreator.arrive_each] using hq, hres, hi, hp⟩

/-- What the output locations hold after the call that brings the arrivals still expected
to zero: what the finalization of the collective mapping writes, over the results pending and
arrived after the call. -/
theorem CollectiveViewCreator.convert_observed
    (views : List (DistributedID × FieldMask) → DistributedID) (s : CollectiveViewCreator)
    (ri ai : Nat) (a : Arrival)
    (h0 : decrement_size_t (s.remaining { region_index := ri, analysis := ai }) = 0) :
    (s.convert_collective_views views ri ai a.region a.targets a.out).2.observed
      = CollectiveViewCreator.construct_collective_mapping views
          { (s.convert_collective_views views ri ai a.region a.targets a.out).2 with
            observed := s.observed }
          { region_index := ri, analysis := ai }
          ((s.convert_collective_views views ri ai a.region a.targets a.out).2.pending_collective
            { region_index := ri, analysis := ai }).rendezvous := by
  have hpc := CollectiveViewCreator.convert_pending_collective views s ri ai a
  rw [hpc]
  have hcond : (((s.find_or_create_rendezvous ri ai a.region a.targets a.out).2.pending_collective
      { region_index := ri, analysis := ai }).arrive a.region
        (s.find_or_create_rendezvous ri ai a.region a.targets a.out).1).remaining_arrivals = 0 := by
    simp only [PendingCollective.arrive]
    exact h0
  simp only [CollectiveViewCreator.convert_collective_views,
    CollectiveViewCreator.rendezvous_collective_mapping]
  rw [if_pos hcond]
  rfl

/-- Consistency of the rendezvous does not depend on what the output locations hold. -/
theorem CollectiveViewCreator.rendezvous_consistent_observed (s : CollectiveViewCreator)
    (observed : Nat → Option DistributedID) (key : RendezvousKey) (processed : List Arrival)
    (h : s.rendezvous_consistent key processed) :
    CollectiveViewCreator.rendezvous_consistent { s with observed := observed } key processed :=
  h

/-- C9: when the `K` expected point operations have made their calls for one
`RendezvousKey`, each passing output locations of its own:
  - two calls for the same region (the same `PendingRendezvousKey`) with equal
    instance sets got back the same result;
  - the result a call got back holds the call's instance set (`matches` is
    true) and has the call's output locations registered on it;
  - after the finalization, which ran exactly once, every output location
    registered on a result, in `target_mappings`, `target_first_locals`,
    `target_views` or `target_arrivals`, holds the same collective view identity,
    the one of the result's instance set. -/
theorem collective_agreement (views : List (DistributedID × FieldMask) → DistributedID)
    (K ri ai : Nat) (arrivals : List Arrival)
    (hK : 0 < K) (hbound : K < 18446744073709551616) (hlen : arrivals.length = K)
    (hown : ∀ a ∈ arrivals, ∀ b ∈ arrivals, ∀ p ∈ a.out.all, p ∈ b.out.all → a = b) :
    (∀ (i j : Nat) (a b : Arrival), arrivals[i]? = some a → arrivals[j]? = some b →
      a.region = b.region → a.targets = b.targets →
      ((CollectiveViewCreator.activated K).arrive_each views ri ai arrivals).1[i]?
        = ((CollectiveViewCreator.activated K).arrive_each views ri ai arrivals).1[j]?) ∧
    (∀ (i : Nat) (a : Arrival), arrivals[i]? = some a →
      ∃ (q : Nat) (res : RendezvousResult),
        ((CollectiveViewCreator.activated K).arrive_each views ri ai arrivals).1[i]? = some q ∧
        (((CollectiveViewCreator.activated K).arrive_each views ri ai arrivals).2.pending_rendezvous
          { region_index := ri, analysis := ai, region := a.region })[q]? = some res ∧
        res.matches a.targets = true ∧ ∀ p ∈ a.out.all, p ∈ res.targets) ∧
    (∀ (region : LogicalRegion) (res : RendezvousResult),
      res ∈ ((CollectiveViewCreator.activated K).arrive_each views ri ai arrivals).2.pending_rendezvous
        { region_index := ri, analysis := ai, region := region } →
      ∀ p ∈ res.target_mappings ++ res.target_first_locals ++ res.target_views
          ++ res.target_arrivals,
        ((CollectiveViewCreator.activated K).arrive_each views ri ai arrivals).2.observed p
          = some (views res.instances)) ∧
    ((CollectiveViewCreator.activated K).arrive_each views ri ai arrivals).2.finalized
      = [{ region_index := ri, analysis := ai }] := by
  rw [CollectiveViewCreator.arrive_each_state]
  have hcons := CollectiveViewCreator.arrive_all_consistent views ri ai arrivals
    (CollectiveViewCreator.activated K) []
    (CollectiveViewCreator.activated_rendezvous_consistent K { region_index := ri, analysis := ai })
  have hne : arrivals ≠ [] := by
    intro hnil
    rw [hnil] at hlen
    simp only [List.length_nil] at hlen
    omega
  have hrem0 : (CollectiveViewCreator.activated K).remaining
      { region_index := ri, analysis := ai } = K := rfl
  refine ⟨?_, ?_, ?_, ?_⟩
  · intro i j a b hi hj hreg htar
    obtain ⟨q1, res1, hq1, hres1, hi1, _⟩ := CollectiveViewCreator.arrive_each_positions
      views ri ai arrivals (CollectiveViewCreator.activated K) i a hi
    obtain ⟨q2, res2, hq2, hres2, hi2, _⟩ := CollectiveViewCreator.arrive_each_positions
      views ri ai arrivals (CollectiveViewCreator.activated K) j b hj
    rw [hreg] at hres1
    have hq := distinct_instances_position _ q1 q2 res1 res2 (hcons.1 b.region) hres1 hres2
      (by rw [hi1, hi2, htar])
    rw [hq1, hq2, hq]
  · intro i a hi
    obtain ⟨q, res, hq, hres, hinst, hp⟩ := CollectiveViewCreator.arrive_each_positions
      views ri ai arrivals (CollectiveViewCreator.activated K) i a hi
    exact ⟨q, res, hq, hres, by simp [RendezvousResult.matches, hinst], hp⟩
  · intro region res hres p hp
    have hsplit := List.dropLast_append_getLast hne
    have hdl : arrivals.dropLast.length = K - 1 := by
      rw [List.length_dropLast, hlen]
    have hcount := CollectiveViewCreator.arrive_all_count views ri ai arrivals.dropLast
      (CollectiveViewCreator.activated K) (by rw [hrem0, hdl]; omega) (by rw [hrem0]; exact hbound)
    rw [hrem0, hdl] at hcount
    have hfinal : (CollectiveViewCreator.activated K).arrive_all views ri ai arrivals
        = (((CollectiveViewCreator.activated K).arrive_all views ri ai
            arrivals.dropLast).convert_collective_views views ri ai
              (arrivals.getLast hne).region (arrivals.getLast hne).targets
              (arrivals.getLast hne).out).2 := by
      conv_lhs => rw [← hsplit]
      rw [CollectiveViewCreator.arrive_all_append]
      rfl
    have hdec : decrement_size_t
        (((CollectiveViewCreator.activated K).arrive_all views ri ai arrivals.dropLast).remaining
          { region_index := ri, analysis := ai }) = 0 := by
      rw [hcount.1, decrement_size_t_pos _ (by omega) (by omega)]
      omega
    have hobs := CollectiveViewCreator.convert_observed views
      ((CollectiveViewCreator.activated K).arrive_all views ri ai arrivals.dropLast) ri ai
      (arrivals.getLast hne) hdec
    rw [← hfinal] at hobs
    rw [hobs]
    have hcons1 := CollectiveViewCreator.rendezvous_consistent_observed _
      ((CollectiveViewCreator.activated K).arrive_all views ri ai arrivals.dropLast).observed
      _ _ hcons
    have hown1 : ∀ a ∈ arrivals.reverse ++ [], ∀ b ∈ arrivals.reverse ++ [],
        ∀ p ∈ a.out.all, p ∈ b.out.all → a = b := by
      intro a ha b hb
      simp only [List.append_nil, List.mem_reverse] at ha hb
      exact hown a ha b hb
    exact CollectiveViewCreator.construct_collective_mapping_agrees views _ _ _ hcons1 hown1
      region res hres p hp
  · have hcount := CollectiveViewCreator.arrive_all_count views ri ai arrivals
      (CollectiveViewCreator.activated K) (by rw [hrem0, hlen]) (by rw [hrem0]; exact hbound)
    rw [hcount.2, hrem0, if_pos ⟨hne, hlen⟩]
    rfl

/-- C8 at a concrete input: the four sample arrivals, which produce three
results, bring the count from four to zero and finalize once. -/
theorem rendezvous_arrival_counting_witness :
    (0 < 4 ∧ 4 < 18446744073709551616 ∧ sample_arrivals.length = 4 ∧ 4 ≤ 4) ∧
    (((CollectiveViewCreator.activated 4).arrive_all sample_views 0 0
        (sample_arrivals.take 4)).remaining { region_index := 0, analysis := 0 } = 4 - 4 ∧
    ((CollectiveViewCreator.activated 4).arrive_all sample_views 0 0
        (sample_arrivals.take 4)).finalized
      = (if 4 = 4 then [{ region_index := 0, analysis := 0 }] else []) ∧
    (((CollectiveViewCreator.activated 4).arrive_all sample_views 0 0
        (sample_arrivals.take 4)).finalized.count { region_index := 0, analysis := 0 }
      = 1 ↔
      ((CollectiveViewCreator.activated 4).arrive_all sample_views 0 0
        (sample_arrivals.take 4)).remaining { region_index := 0, analysis := 0 } = 0)) :=
  ⟨⟨by decide, by decide, rfl, by decide⟩,
    rendezvous_arrival_counting sample_views 4 0 0 sample_arrivals 4
      (by decide) (by decide) rfl (by decide)⟩

/-- The sample arrivals: two results are pending for region 5 and one for region 6, three
results for four arrivals; three arrivals leave one expected and nothing finalized; after the
fourth the output locations of the first and the third call hold one identity, those of the
second another. -/
theorem sample_arrivals_outcome :
    (((CollectiveViewCreator.activated 4).arrive_all sample_views 0 0
        sample_arrivals).pending_rendezvous
          { region_index := 0, analysis := 0, region := 5 }).length = 2 ∧
    (((CollectiveViewCreator.activated 4).arrive_all sample_views 0 0
        sample_arrivals).pending_rendezvous
          { region_index := 0, analysis := 0, region := 6 }).length = 1 ∧
    ((CollectiveViewCreator.activated 4).arrive_all sample_views 0 0
        (sample_arrivals.take 3)).remaining { region_index := 0, analysis := 0 } = 1 ∧
    ((CollectiveViewCreator.activated 4).arrive_all sample_views 0 0
        (sample_arrivals.take 3)).finalized = [] ∧
    ((CollectiveViewCreator.activated 4).arrive_all sample_views 0 0
        (sample_arrivals.take 3)).observed 12 = none ∧
    ((CollectiveViewCreator.activated 4).arrive_each sample_views 0 0 sample_arrivals).1
      = [0, 1, 0, 0] ∧
    [12, 22, 32, 42].map
        ((CollectiveViewCreator.activated 4).arrive_all sample_views 0 0 sample_arrivals).observed
      = [some 101, some 102, some 101, some 101] := by
  decide

/-- C9 at a concrete input: the four sample arrivals. -/
theorem collective_agreement_witness :
    (0 < 4 ∧ 4 < 18446744073709551616 ∧ sample_arrivals.length = 4 ∧
      ∀ a ∈ sample_arrivals, ∀ b ∈ sample_arrivals, ∀ p ∈ a.out.all, p ∈ b.out.all → a = b) ∧
    ((∀ (i j : Nat) (a b : Arrival), sample_arrivals[i]? = some a →
      sample_arrivals[j]? = some b → a.region = b.region → a.targets = b.targets →
      ((CollectiveViewCreator.activated 4).arrive_each sample_views 0 0 sample_arrivals).1[i]?
        = ((CollectiveViewCreator.activated 4).arrive_each sample_views 0 0
            sample_arrivals).1[j]?) ∧
    (∀ (i : Nat) (a : Arrival), sample_arrivals[i]? = some a →
      ∃ (q : Nat) (res : RendezvousResult),
        ((CollectiveViewCreator.activated 4).arrive_each sample_views 0 0 sample_arrivals).1[i]?
          = some q ∧
        (((CollectiveViewCreator.activated 4).arrive_each sample_views 0 0
            sample_arrivals).2.pending_rendezvous
          { region_index := 0, analysis := 0, region := a.region })[q]? = some res ∧
        res.matches a.targets = true ∧ ∀ p ∈ a.out.all, p ∈ res.targets) ∧
    (∀ (region : LogicalRegion) (res : RendezvousResult),
      res ∈ ((CollectiveViewCreator.activated 4).arrive_each sample_views 0 0
          sample_arrivals).2.pending_rendezvous
        { region_index := 0, analysis := 0, region := region } →
      ∀ p ∈ res.target_mappings ++ res.target_first_locals ++ res.target_views
          ++ res.target_arrivals,
        ((CollectiveViewCreator.activated 4).arrive_each sample_views 0 0
            sample_arrivals).2.observed p
          = some (sample_views res.instances)) ∧
    ((CollectiveViewCreator.activated 4).arrive_each sample_views 0 0 sample_arrivals).2.finalized
      = [{ region_index := 0, analysis := 0 }]) :=
  ⟨⟨by decide, by decide, rfl, by decide⟩,
    collective_agreement sample_views 4 0 0 sample_arrivals
      (by decide) (by decide) rfl (by decide)⟩

/-! ## Dependence trackers as sets -/

theorem mem_set_insert (x y : Nat) (s : List Nat) :
    y ∈ set_insert x s ↔ y = x ∨ y ∈ s := by
  induction s with
  | nil => simp [set_insert]
  | cons z zs ih =>
    simp only [set_insert]
    by_cases h1 : x < z
    · rw [if_pos h1]; simp
    · rw [if_neg h1]
      by_cases h2 : x = z
      · rw [if_pos h2]; subst h2; simp
      · rw [if_neg h2]; simp only [List.mem_cons, ih]; tauto

theorem is_set_set_insert (x : Nat) (s : List Nat) (hs : is_set s) :
    is_set (set_insert x s) := by
  induction s with
  | nil => simp [set_insert, is_set]
  | cons z zs ih =>
    unfold is_set at hs ih ⊢
    simp only [set_insert]
    by_cases h1 : x < z
    · rw [if_pos h1]
      refine List.Pairwise.cons ?_ hs
      intro b hb
      rcases List.mem_cons.mp hb with hb | hb
      · rw [hb]; exact h1
      · exact Nat.lt_trans h1 (List.rel_of_pairwise_cons hs hb)
    · rw [if_neg h1]
      by_cases h2 : x = z
      · rw [if_pos h2]; exact hs
      · rw [if_neg h2]
        refine List.Pairwise.cons ?_ (ih (List.Pairwise.of_cons hs))
        intro b hb
        rcases (mem_set_insert x b zs).mp hb with hb | hb
        · rw [hb]; omega
        · exact List.rel_of_pairwise_cons hs hb

theorem set_insert_of_mem (x : Nat) (s : List Nat) (hs : is_set s) (hx : x ∈ s) :
    set_insert x s = s := by
  induction s with
  | nil => cases hx
  | cons z zs ih =>
    unfold is_set at hs ih
    simp only [set_insert]
    rcases List.mem_cons.mp hx with hx | hx
    · subst hx; simp
    · have hlt : z < x := List.rel_of_pairwise_cons hs hx
      rw [if_neg (by omega), if_neg (by omega), ih (List.Pairwise.of_cons hs) hx]

theorem is_set_ext (s t : List Nat) (hs : is_set s) (ht : is_set t)
    (h : ∀ x, x ∈ s ↔ x ∈ t) : s = t := by
  unfold is_set at hs ht
  apply List.eq_of_perm_of_sorted (r := fun a b => a < b) ?_ hs ht
  exact (List.perm_ext_iff_of_nodup (hs.imp (fun h => Nat.ne_of_lt h))
    (ht.imp (fun h => Nat.ne_of_lt h))).mpr h

theorem mem_foldl_set_insert (ds : List Nat) (s : List Nat) (y : Nat) :
    y ∈ ds.foldl (fun acc d => set_insert d acc) s ↔ y ∈ s ∨ y ∈ ds := by
  induction ds generalizing s with
  | nil => simp
  | cons d ds ih =>
    simp only [List.foldl_cons, ih, mem_set_insert, List.mem_cons]; tauto

theorem is_set_foldl_set_insert (ds : List Nat) (s : List Nat) (hs : is_set s) :
    is_set (ds.foldl (fun acc d => set_insert d acc) s) := by
  induction ds generalizing s with
  | nil => exact hs
  | cons d ds ih => exact ih _ (is_set_set_insert d s hs)

theorem MappingDependenceTracker.add_all_mapping_dependences
    (self : MappingDependenceTracker) (ds : List RtEvent) :
    (self.add_all ds).mapping_dependences
      = ds.foldl (fun acc d => set_insert d acc) self.mapping_dependences := by
  induction ds generalizing self with
  | nil => rfl
  | cons d ds ih =>
    simp only [MappingDependenceTracker.add_all, List.foldl_cons] at ih ⊢
    rw [ih]; rfl

theorem CommitDependenceTracker.add_all_commit_dependences
    (self : CommitDependenceTracker) (ds : List RtEvent) :
    (self.add_all ds).commit_dependences
      = ds.foldl (fun acc d => set_insert d acc) self.commit_dependences := by
  induction ds generalizing self with
  | nil => rfl
  | cons d ds ih =>
    simp only [CommitDependenceTracker.add_all, List.foldl_cons] at ih ⊢
    rw [ih]; rfl

/-- Claim C17: the mapping and the commit dependence tracker aggregate their
events as a set.  Started empty and given the events of `ds` one call at a time,
each holds exactly the events of `ds`, each once; adding an event that is
already held changes nothing; and two sequences of calls that add the same
events, in any order and with any repetition, leave the same tracker. -/
theorem dependence_trackers_aggregate_as_set (ds es : List RtEvent) (d : RtEvent) :
    (∀ e, e ∈ (MappingDependenceTracker.add_all { mapping_dependences := [] }
        ds).mapping_dependences ↔ e ∈ ds) ∧
    (MappingDependenceTracker.add_all { mapping_dependences := [] }
        ds).mapping_dependences.Nodup ∧
    (d ∈ ds →
      (MappingDependenceTracker.add_all { mapping_dependences := [] }
          ds).add_mapping_dependence d
        = MappingDependenceTracker.add_all { mapping_dependences := [] } ds) ∧
    ((∀ e, e ∈ ds ↔ e ∈ es) →
      MappingDependenceTracker.add_all { mapping_dependences := [] } ds
        = MappingDependenceTracker.add_all { mapping_dependences := [] } es) ∧
    (∀ e, e ∈ (CommitDependenceTracker.add_all { commit_dependences := [] }
        ds).commit_dependences ↔ e ∈ ds) ∧
    (CommitDependenceTracker.add_all { commit_dependences := [] }
        ds).commit_dependences.Nodup ∧
    (d ∈ ds →
      (CommitDependenceTracker.add_all { commit_dependences := [] }
          ds).add_commit_dependence d
        = CommitDependenceTracker.add_all { commit_dependences := [] } ds) ∧
    ((∀ e, e ∈ ds ↔ e ∈ es) →
      CommitDependenceTracker.add_all { commit_dependences := [] } ds
        = CommitDependenceTracker.add_all { commit_dependences := [] } es) := by
  have hnil : is_set [] := List.Pairwise.nil
  have hmem : ∀ (l : List Nat) (e : Nat),
      e ∈ l.foldl (fun acc d => set_insert d acc) [] ↔ e ∈ l := by
    intro l e; rw [mem_foldl_set_insert]; simp
  have hset : ∀ l : List Nat, is_set (l.foldl (fun acc d => set_insert d acc) []) :=
    fun l => is_set_foldl_set_insert l [] hnil
  have hnodup : ∀ l : List Nat, (l.foldl (fun acc d => set_insert d acc) []).Nodup :=
    fun l => (hset l).imp (fun h => Nat.ne_of_lt h)
  have hidem : d ∈ ds → set_insert d (ds.foldl (fun acc d => set_insert d acc) [])
      = ds.foldl (fun acc d => set_insert d acc) [] :=
    fun hd => set_insert_of_mem d _ (hset ds) ((hmem ds d).mpr hd)
  have hord : (∀ e, e ∈ ds ↔ e ∈ es) → ds.foldl (fun acc d => set_insert d acc) []
      = es.foldl (fun acc d => set_insert d acc) [] := by
    intro h
    apply is_set_ext _ _ (hset ds) (hset es)
    intro x; rw [hmem, hmem]; exact h x
  refine ⟨?_, ?_, ?_, ?_, ?_, ?_, ?_, ?_⟩
  · intro e; rw [MappingDependenceTracker.add_all_mapping_dependences]; exact hmem ds e
  · rw [MappingDependenceTracker.add_all_mapping_dependences]; exact hnodup ds
  · intro hd
    have h := MappingDependenceTracker.add_all_mapping_dependences { mapping_dependences := [] } ds
    cases hx : MappingDependenceTracker.add_all { mapping_dependences := [] } ds with
    | mk l =>
      rw [hx] at h
      simp only [MappingDependenceTracker.add_mapping_dependence] at h ⊢
      rw [h, hidem hd]
  · intro hsame
    have h1 := MappingDependenceTracker.add_all_mapping_dependences { mapping_dependences := [] } ds
    have h2 := MappingDependenceTracker.add_all_mapping_dependences { mapping_dependences := [] } es
    cases hx : MappingDependenceTracker.add_all { mapping_dependences := [] } ds with
    | mk l =>
      cases hy : MappingDependenceTracker.add_all { mapping_dependences := [] } es with
      | mk m =>
        rw [hx] at h1; rw [hy] at h2
        simp only at h1 h2
        rw [h1, h2, hord hsame]
  · intro e; rw [CommitDependenceTracker.add_all_commit_dependences]; exact hmem ds e
  · rw [CommitDependenceTracker.add_all_commit_dependences]; exact hnodup ds
  · intro hd
    have h := CommitDependenceTracker.add_all_commit_dependences { commit_dependences := [] } ds
    cases hx : CommitDependenceTracker.add_all { commit_dependences := [] } ds with
    | mk l =>
      rw [hx] at h
      simp only [CommitDependenceTracker.add_commit_dependence] at h ⊢
      rw [h, hidem hd]
  · intro hsame
    have h1 := CommitDependenceTracker.add_all_commit_dependences { commit_dependences := [] } ds
    have h2 := CommitDependenceTracker.add_all_commit_dependences { commit_dependences := [] } es
    cases hx : CommitDependenceTracker.add_all { commit_dependences := [] } ds with
    | mk l =>
      cases hy : CommitDependenceTracker.add_all { commit_dependences := [] } es with
      | mk m =>
        rw [hx] at h1; rw [hy] at h2
        simp only at h1 h2
        rw [h1, h2, hord hsame]

/-! ## Memoization state -/

/-- Claim C14: the three state predicates of a memoizable operation.
`is_memoizing` is true exactly in the states `MEMO_REQ`, `MEMO_RECORD` and
`MEMO_REPLAY`, `is_recording` exactly in `MEMO_RECORD` and `is_replaying`
exactly in `MEMO_REPLAY`; the last two are never both true, and each of them
implies `is_memoizing`. -/
theorem memoizable_state_predicates (op : MemoizableOp) :
    (op.is_memoizing = true ↔
      op.memo_state = MemoizableState.MEMO_REQ ∨
      op.memo_state = MemoizableState.MEMO_RECORD ∨
      op.memo_state = MemoizableState.MEMO_REPLAY) ∧
    (op.is_recording = true ↔ op.memo_state = MemoizableState.MEMO_RECORD) ∧
    (op.is_replaying = true ↔ op.memo_state = MemoizableState.MEMO_REPLAY) ∧
    ¬ (op.is_recording = true ∧ op.is_replaying = true) ∧
    (op.is_recording = true → op.is_memoizing = true) ∧
    (op.is_replaying = true → op.is_memoizing = true) := by
  cases op with
  | mk tpl memo_state =>
    cases memo_state <;>
      simp [MemoizableOp.is_memoizing, MemoizableOp.is_recording,
        MemoizableOp.is_replaying]

/-! ## The order of pending rendezvous keys -/

theorem PendingRendezvousKey.lt_iff_lexicographic (region_lt : LogicalRegion → LogicalRegion → Bool)
    (a b : PendingRendezvousKey) :
    a.lt region_lt b = true ↔
      a.region_index < b.region_index ∨
      (a.region_index = b.region_index ∧
        (a.analysis < b.analysis ∨
          (a.analysis = b.analysis ∧ region_lt a.region b.region = true))) := by
  unfold PendingRendezvousKey.lt
  by_cases h1 : a.region_index < b.region_index
  · simp [h1]
  · rw [if_neg h1]
    by_cases h2 : a.region_index > b.region_index
    · rw [if_pos h2]
      constructor
      · intro h; cases h
      · rintro (h | ⟨h, _⟩) <;> omega
    · rw [if_neg h2]
      have he : a.region_index = b.region_index := by omega
      by_cases h3 : a.analysis < b.analysis
      · simp [h3, he]
      · rw [if_neg h3]
        by_cases h4 : a.analysis > b.analysis
        · rw [if_pos h4]
          constructor
          · intro h; cases h
          · rintro (h | ⟨_, h | ⟨h, _⟩⟩) <;> omega
        · rw [if_neg h4]
          have he2 : a.analysis = b.analysis := by omega
          constructor
          · intro h; exact Or.inr ⟨he, Or.inr ⟨he2, h⟩⟩
          · rintro (h | ⟨_, h | ⟨_, h⟩⟩)
            · omega
            · omega
            · exact h

theorem PendingRendezvousKey.eq_iff (region_eq : LogicalRegion → LogicalRegion → Bool)
    (a b : PendingRendezvousKey) :
    a.eq region_eq b = true ↔
      a.region_index = b.region_index ∧ a.analysis = b.analysis ∧
        region_eq a.region b.region = true := by
  unfold PendingRendezvousKey.eq
  by_cases h1 : a.region_index = b.region_index
  · by_cases h2 : a.analysis = b.analysis
    · simp [h1, h2]
    · simp [h1, h2]
  · simp [h1]

/-- Claim C11: `PendingRendezvousKey::operator<` is the lexicographic order on
(region_index, analysis, region), the regions being compared by the `operator<`
of `LogicalRegion`; and when that comparison is a strict total order whose
equality is `operator==`, exactly one of `a < b`, `a == b`, `b < a` holds for
any two keys. -/
theorem pending_rendezvous_key_order
    (region_lt region_eq : LogicalRegion → LogicalRegion → Bool)
    (a b : PendingRendezvousKey) :
    (a.lt region_lt b = true ↔
      a.region_index < b.region_index ∨
      (a.region_index = b.region_index ∧
        (a.analysis < b.analysis ∨
          (a.analysis = b.analysis ∧ region_lt a.region b.region = true)))) ∧
    (region_strict_total_order region_lt region_eq →
      (a.lt region_lt b = true ∧ a.eq region_eq b = false ∧ b.lt region_lt a = false) ∨
      (a.lt region_lt b = false ∧ a.eq region_eq b = true ∧ b.lt region_lt a = false) ∨
      (a.lt region_lt b = false ∧ a.eq region_eq b = false ∧ b.lt region_lt a = true)) := by
  refine ⟨PendingRendezvousKey.lt_iff_lexicographic region_lt a b, ?_⟩
  rintro ⟨hirr, htrans, htot, heq⟩
  have hasym : ∀ x y, region_lt x y = true → region_lt y x = false := by
    intro x y hxy
    cases hyx : region_lt y x with
    | false => rfl
    | true =>
      have := htrans x y x hxy hyx
      rw [hirr x] at this; cases this
  have hlt := PendingRendezvousKey.lt_iff_lexicographic region_lt a b
  have hgt := PendingRendezvousKey.lt_iff_lexicographic region_lt b a
  have he := PendingRendezvousKey.eq_iff region_eq a b
  have hltf : ∀ (x y : PendingRendezvousKey), ¬ (x.lt region_lt y = true) →
      x.lt region_lt y = false := fun x y h => by simpa using h
  have hef : ¬ (a.eq region_eq b = true) → a.eq region_eq b = false :=
    fun h => by simpa using h
  rcases Nat.lt_trichotomy a.region_index b.region_index with h1 | h1 | h1
  · refine Or.inl ⟨hlt.mpr (Or.inl h1), hef ?_, hltf b a ?_⟩
    · rw [he]; rintro ⟨h, _⟩; omega
    · rw [hgt]; rintro (h | ⟨h, _⟩) <;> omega
  · rcases Nat.lt_trichotomy a.analysis b.analysis with h2 | h2 | h2
    · refine Or.inl ⟨hlt.mpr (Or.inr ⟨h1, Or.inl h2⟩), hef ?_, hltf b a ?_⟩
      · rw [he]; rintro ⟨_, h, _⟩; omega
      · rw [hgt]; rintro (h | ⟨_, h | ⟨h, _⟩⟩) <;> omega
    · by_cases hr : a.region = b.region
      · refine Or.inr (Or.inl ⟨hltf a b ?_, he.mpr ⟨h1, h2, (heq _ _).mpr hr⟩, hltf b a ?_⟩)
        · rw [hlt]; rintro (h | ⟨_, h | ⟨_, h⟩⟩)
          · omega
          · omega
          · rw [hr, hirr] at h; cases h
        · rw [hgt]; rintro (h | ⟨_, h | ⟨_, h⟩⟩)
          · omega
          · omega
          · rw [hr, hirr] at h; cases h
      · have hne : ¬ (a.eq region_eq b = true) := by
          rw [he]; rintro ⟨_, _, h⟩; exact hr ((heq _ _).mp h)
        rcases htot _ _ hr with h3 | h3
        · refine Or.inl ⟨hlt.mpr (Or.inr ⟨h1, Or.inr ⟨h2, h3⟩⟩), hef hne, hltf b a ?_⟩
          rw [hgt]; rintro (h | ⟨_, h | ⟨_, h⟩⟩)
          · omega
          · omega
          · rw [hasym _ _ h3] at h; cases h
        · refine Or.inr (Or.inr ⟨hltf a b ?_, hef hne,
            hgt.mpr (Or.inr ⟨h1.symm, Or.inr ⟨h2.symm, h3⟩⟩)⟩)
          rw [hlt]; rintro (h | ⟨_, h | ⟨_, h⟩⟩)
          · omega
          · omega
          · rw [hasym _ _ h3] at h; cases h
    · refine Or.inr (Or.inr ⟨hltf a b ?_, hef ?_, hgt.mpr (Or.inr ⟨h1.symm, Or.inl h2⟩)⟩)
      · rw [hlt]; rintro (h | ⟨_, h | ⟨h, _⟩⟩) <;> omega
      · rw [he]; rintro ⟨_, h, _⟩; omega
  · refine Or.inr (Or.inr ⟨hltf a b ?_, hef ?_, hgt.mpr (Or.inl h1)⟩)
    · rw [hlt]; rintro (h | ⟨h, _⟩) <;> omega
    · rw [he]; rintro ⟨h, _⟩; omega

theorem nat_region_strict_total_order :
    region_strict_total_order (fun x y => decide (x < y)) (fun x y => decide (x = y)) := by
  refine ⟨?_, ?_, ?_, ?_⟩
  · intro x; simp
  · intro x y z h1 h2
    simp only [decide_eq_true_eq] at h1 h2 ⊢
    exact Nat.lt_trans h1 h2
  · intro x y h
    simp only [decide_eq_true_eq]
    rcases Nat.lt_trichotomy x y with h1 | h1 | h1
    · exact Or.inl h1
    · exact absurd h1 h
    · exact Or.inr h1
  · intro x y; simp

/-- The order of claim C11 on two keys that differ in their region only, the
regions being compared as numbers: the premise of the trichotomy holds, and of
the three outcomes it is `a < b` that holds. -/
theorem pending_rendezvous_key_order_witness :
    region_strict_total_order (fun x y => decide (x < y)) (fun x y => decide (x = y)) ∧
    PendingRendezvousKey.lt (fun x y => decide (x < y))
      { region_index := 1, analysis := 2, region := 3 }
      { region_index := 1, analysis := 2, region := 4 } = true ∧
    PendingRendezvousKey.eq (fun x y => decide (x = y))
      { region_index := 1, analysis := 2, region := 3 }
      { region_index := 1, analysis := 2, region := 4 } = false ∧
    PendingRendezvousKey.lt (fun x y => decide (x < y))
      { region_index := 1, analysis := 2, region := 4 }
      { region_index := 1, analysis := 2, region := 3 } = false :=
  ⟨nat_region_strict_total_order,
    ((pending_rendezvous_key_order (fun x y => decide (x < y)) (fun x y => decide (x = y))
      { region_index := 1, analysis := 2, region := 3 }
      { region_index := 1, analysis := 2, region := 4 }).2
        nat_region_strict_total_order).elim id
      (fun h => h.elim (fun h2 => absurd h2.2.1 (by decide))
        (fun h2 => absurd h2.1 (by decide)))⟩

/-! ## Block sizes of region instances -/

/-- Claim C20: `RegionInstance::create_instance` hands a block size of 0 or 1
to `InstanceLayoutConstraints`: 0 when `block_size > 1`, and `block_size`
itself when it is 0 or 1; the layout chosen from these constraints is the one
the instance is created with.  This holds for the vector and for the map form
of `field_sizes`. -/
theorem create_instance_block_size {Space Constraints Layout Requests : Type}
    (api : InstanceLayoutInterface Space Constraints Layout Requests)
    (inst : RegionInstance) (memory : Memory) (space : Space)
    (sizes_vector : List Nat) (sizes_map : List (FieldID × Nat))
    (block_size : Nat) (reqs : Requests) (wait_on : Event) :
    ∃ handed : Nat,
      (handed = 0 ∨ handed = 1) ∧
      (block_size > 1 → handed = 0) ∧
      (block_size = 0 ∨ block_size = 1 → handed = block_size) ∧
      RegionInstance.create_instance_vector api inst memory space sizes_vector
          block_size reqs wait_on
        = api.create_instance inst memory
            (api.choose_instance_layout space (api.constraints_of_vector sizes_vector handed))
            reqs wait_on ∧
      RegionInstance.create_instance_map api inst memory space sizes_map
          block_size reqs wait_on
        = api.create_instance inst memory
            (api.choose_instance_layout space (api.constraints_of_map sizes_map handed))
            reqs wait_on := by
  refine ⟨if block_size > 1 then 0 else block_size, ?_, ?_, ?_, rfl, rfl⟩
  · by_cases h : block_size > 1
    · rw [if_pos h]; exact Or.inl rfl
    · rw [if_neg h]; omega
  · intro h; rw [if_pos h]
  · intro h; rw [if_neg (by omega)]

/-- With the interface that records the block size it is given, a block size of
7 reaches the constraints as 0, in both forms, and a block size of 1 as 1. -/
theorem create_instance_block_size_recorded :
    (RegionInstance.create_instance_vector recording_interface { id := 0 } 0 0 [4, 8] 7 0
      0).2.id = 0 ∧
    (RegionInstance.create_instance_map recording_interface { id := 0 } 0 0 [(0, 4)] 7 0
      0).2.id = 0 ∧
    (RegionInstance.create_instance_vector recording_interface { id := 0 } 0 0 [4, 8] 1 0
      0).2.id = 1 ∧
    (RegionInstance.create_instance_map recording_interface { id := 0 } 0 0 [(0, 4)] 1 0
      0).2.id = 1 := by
  decide

/-! ## Provenance -/

/-- Claim C19: an `AutoProvenance` balances its reference.  Built around the
pointer to a `Provenance`, it adds one reference to that object and touches no
other; its destructor takes one reference off an object that holds at least
one, and deletes the object if and only if the count reached zero, so that a
construction followed by the destruction leaves an object that was referenced
as it was; with a null pointer neither changes anything. -/
theorem auto_provenance_balances_reference (heap : ProvenanceHeap) (a : Nat)
    (p : Provenance) (hp : heap a = some p) :
    (AutoProvenance.of_pointer heap (some a)).1.provenance = some a ∧
    (AutoProvenance.of_pointer heap (some a)).2 a
      = some { p with references := p.references + 1 } ∧
    (∀ b, b ≠ a → (AutoProvenance.of_pointer heap (some a)).2 b = heap b) ∧
    (1 ≤ p.references →
      AutoProvenance.destroy { provenance := some a } heap a
        = if p.references - 1 = 0 then none
          else some { p with references := p.references - 1 }) ∧
    (∀ b, b ≠ a → AutoProvenance.destroy { provenance := some a } heap b = heap b) ∧
    (AutoProvenance.destroy (AutoProvenance.of_pointer heap (some a)).1
        (AutoProvenance.of_pointer heap (some a)).2 a
      = if p.references = 0 then none else some p) ∧
    (AutoProvenance.of_pointer heap none).1.provenance = none ∧
    (AutoProvenance.of_pointer heap none).2 = heap ∧
    AutoProvenance.destroy { provenance := none } heap = heap := by
  refine ⟨rfl, ?_, ?_, ?_, ?_, ?_, rfl, rfl, rfl⟩
  · simp [AutoProvenance.of_pointer, hp, ProvenanceHeap.set, Provenance.add_reference]
  · intro b hb
    simp [AutoProvenance.of_pointer, hp, ProvenanceHeap.set, hb]
  · intro h1
    simp only [AutoProvenance.destroy, hp, Provenance.remove_reference]
    by_cases h : p.references = 1
    · have h0 : p.references - 1 = 0 := by omega
      simp [h, ProvenanceHeap.set]
    · have h0 : ¬ (p.references - 1 = 0) := by omega
      simp [h, h0, ProvenanceHeap.set]
  · intro b hb
    simp only [AutoProvenance.destroy, hp, Provenance.remove_reference]
    by_cases h : p.references = 1
    · simp [h, ProvenanceHeap.set, hb]
    · simp [h, ProvenanceHeap.set, hb]
  · simp only [AutoProvenance.of_pointer, hp, AutoProvenance.destroy, ProvenanceHeap.set,
      Provenance.add_reference, Provenance.remove_reference, if_true]
    by_cases h : p.references = 0
    · simp [h, ProvenanceHeap.set]
    · simp [h, ProvenanceHeap.set]

/-- The balance of claim C19 on a heap whose object at address 1 holds two
references. -/
theorem auto_provenance_balances_reference_witness :
    sample_heap 2 1 = some { human := [104, 105], machine := [109], references := 2 } ∧
    (AutoProvenance.of_pointer (sample_heap 2) (some 1)).2 1
      = some { human := [104, 105], machine := [109], references := 3 } ∧
    AutoProvenance.destroy { provenance := some 1 } (sample_heap 2) 1
      = some { human := [104, 105], machine := [109], references := 1 } :=
  ⟨rfl,
    (auto_provenance_balances_reference (sample_heap 2) 1
      { human := [104, 105], machine := [109], references := 2 } rfl).2.1,
    (auto_provenance_balances_reference (sample_heap 2) 1
      { human := [104, 105], machine := [109], references := 2 } rfl).2.2.2.1 (by decide)⟩

/-- The destructor deletes the object that holds its last reference, and only
takes a reference off the object that holds two. -/
theorem auto_provenance_deletes_last_reference :
    AutoProvenance.destroy { provenance := some 1 } (sample_heap 1) 1 = none ∧
    AutoProvenance.destroy { provenance := some 1 } (sample_heap 2) 1
      = some { human := [104, 105], machine := [109], references := 1 } := by
  decide

theorem unpack_string_append (s rest : List Nat) :
    unpack_string (s.length :: (s ++ rest)) = some (s, rest) := by
  simp [unpack_string]

/-- Claim C18: the serialization of a `Provenance` round-trips.  Deserializing
what `serialize` wrote gives a non-null `Provenance` with the same human and
machine strings and leaves what follows in the buffer; deserializing what
`serialize_null` wrote gives a null pointer; the two are told apart by the
leading existence flag, which is the first thing written. -/
theorem provenance_serialize_round_trip (p : Provenance) (rest : List Nat) :
    (∃ q : Provenance,
      Provenance.deserialize (p.serialize [] ++ rest) = some (some q, rest) ∧
      q.human = p.human ∧ q.machine = p.machine) ∧
    Provenance.deserialize (Provenance.serialize_null [] ++ rest) = some (none, rest) ∧
    (p.serialize []).head? = some 1 ∧
    (Provenance.serialize_null []).head? = some 0 := by
  refine ⟨⟨{ human := p.human, machine := p.machine, references := 0 }, ?_, rfl, rfl⟩,
    ?_, ?_, ?_⟩
  · have h1 : p.serialize [] ++ rest
        = 1 :: p.human.length :: (p.human ++ p.machine.length :: (p.machine ++ rest)) := by
      simp [Provenance.serialize]
    rw [h1]
    simp only [Provenance.deserialize]
    rw [if_neg (by decide), unpack_string_append]
    simp only []
    rw [unpack_string_append]
  · simp [Provenance.serialize_null, Provenance.deserialize]
  · simp [Provenance.serialize]
  · simp [Provenance.serialize_null]

/-- A round trip on a sample: the buffer written for the strings "hi" and "m",
and what is read back from it. -/
theorem provenance_serialize_sample :
    Provenance.serialize { human := [104, 105], machine := [109], references := 3 } []
      = [1, 2, 104, 105, 1, 109] ∧
    Provenance.deserialize [1, 2, 104, 105, 1, 109, 77]
      = some (some { human := [104, 105], machine := [109], references := 0 }, [77]) ∧
    Provenance.deserialize [0, 77] = some (none, [77]) := by
  decide

/-! ## Synchronization preconditions of memoizable operations -/

/-- Claim C15, counterexample: on an operation whose class inherits the body of
`MemoizableOp`, as a fence does, a call of `compute_sync_precondition` with
assertions compiled in fails its assertion instead of returning an event. -/
theorem compute_sync_precondition_base_asserts :
    (sample_fence.call_compute_sync_precondition true SyncPreconditionBody.base 0).1
      = Outcome.assertion_failed := by
  decide

/-- Claim C15, amended: a call of `compute_sync_precondition` leaves the
operation as it was, and a second call with the same `info` has the same
outcome as the first; the outcome is an event without a failed assertion for a
class that overrides the method with a body that returns one, whereas the body
of `MemoizableOp` itself fails its assertion, and returns `NO_AP_EVENT` when
assertions are compiled out. -/
theorem compute_sync_precondition_repeatable (assertions : Bool)
    (body : SyncPreconditionBody) (op : MemoizableOp) (info : TraceInfo) :
    (op.call_compute_sync_precondition assertions body info).2 = op ∧
    ((op.call_compute_sync_precondition assertions body info).2.call_compute_sync_precondition
        assertions body info).1
      = (op.call_compute_sync_precondition assertions body info).1 ∧
    (∀ f, body = SyncPreconditionBody.overriding f →
      (op.call_compute_sync_precondition assertions body info).1 = f op info) ∧
    (body = SyncPreconditionBody.base →
      (op.call_compute_sync_precondition assertions body info).1
        = if assertions then Outcome.assertion_failed else Outcome.returned NO_AP_EVENT) := by
  cases body with
  | base =>
    refine ⟨rfl, rfl, ?_, ?_⟩
    · intro f hf; cases hf
    · intro _
      cases assertions <;> rfl
  | overriding g =>
    refine ⟨rfl, rfl, ?_, ?_⟩
    · intro f hf
      cases hf; rfl
    · intro hf; cases hf

/-! ## Committed generations -/

theorem Pipeline.run_append (p : Pipeline) (a b : List Call) :
    p.run (a ++ b) = (p.run a).run b := by
  simp [Pipeline.run, List.foldl_append]

/-- No answer is true before an operation has committed: in the sample, after
the execution and the completion of the operation the answer for its generation
is false, and so is the answer for a generation it has not reached. -/
theorem is_operation_committed_before_commit :
    ((Pipeline.run_lifecycle { ops := fun _ => Operation.at_generation 3 0 0, invoked := [] }
      [LifecycleCall.complete_execution 0, LifecycleCall.complete_operation 0]).ops
        0).is_operation_committed 3 = false ∧
    ((Pipeline.run_lifecycle { ops := fun _ => Operation.at_generation 3 0 0, invoked := [] }
      sample_lifecycle_calls).ops 0).is_operation_committed 4 = false := by
  decide

/-- The answer of `is_operation_committed` is not precise: an operation that
has committed and is still in its generation answers false for it. -/
theorem is_operation_committed_imprecise :
    ((Pipeline.run { ops := fun _ => Operation.at_generation 3 0 0, invoked := [] }
      [Call.commit_operation 0]).ops 0).committed = true ∧
    ((Pipeline.run { ops := fun _ => Operation.at_generation 3 0 0, invoked := [] }
      [Call.commit_operation 0]).ops 0).is_operation_committed 3 = false := by
  decide

/-! ## Resource trackers -/

theorem mem_keys_map_assign {β : Type} (k j : Nat) (v : β) (m : List (Nat × β)) :
    j ∈ (map_assign k v m).map Prod.fst ↔ j = k ∨ j ∈ m.map Prod.fst := by
  induction m with
  | nil => simp [map_assign]
  | cons e m ih =>
    rcases e with ⟨k1, v1⟩
    simp only [map_assign]
    by_cases h1 : k < k1
    · rw [if_pos h1]; simp
    · rw [if_neg h1]
      by_cases h2 : k = k1
      · rw [if_pos h2]; subst h2; simp
      · rw [if_neg h2]
        simp only [List.map_cons, List.mem_cons, ih]
        tauto

theorem mem_keys_merge_created (combine : Nat → Nat → Nat)
    (received current : List (Nat × Nat)) (j : Nat) :
    j ∈ (merge_created combine received current).map Prod.fst ↔
      j ∈ current.map Prod.fst ∨ j ∈ received.map Prod.fst := by
  unfold merge_created
  induction received generalizing current with
  | nil => simp
  | cons e received ih =>
    rw [List.foldl_cons, ih]
    cases hfind : map_find e.1 current with
    | none =>
      simp only [mem_keys_map_assign, List.map_cons, List.mem_cons]
      tauto
    | some count =>
      simp only [mem_keys_map_assign, List.map_cons, List.mem_cons]
      tauto

theorem mem_pair_set_insert (x y : Nat × Nat) (s : List (Nat × Nat)) :
    y ∈ pair_set_insert x s ↔ y = x ∨ y ∈ s := by
  induction s with
  | nil => simp [pair_set_insert]
  | cons z zs ih =>
    simp only [pair_set_insert]
    by_cases h1 : x.1 < z.1 ∨ (x.1 = z.1 ∧ x.2 < z.2)
    · rw [if_pos h1]; simp
    · rw [if_neg h1]
      by_cases h2 : x = z
      · rw [if_pos h2]; subst h2; simp
      · rw [if_neg h2]; simp only [List.mem_cons, ih]; tauto

theorem mem_foldl_pair_set_insert (received s : List (Nat × Nat)) (y : Nat × Nat) :
    y ∈ received.foldl (fun s f => pair_set_insert f s) s ↔ y ∈ s ∨ y ∈ received := by
  induction received generalizing s with
  | nil => simp
  | cons f received ih =>
    simp only [List.foldl_cons, ih, mem_pair_set_insert, List.mem_cons]; tauto

/-- Claim C13: `merge_received_resources` unions and concatenates.  After the
call the keys of each created collection of the receiver (regions, fields,
field spaces, index spaces, partitions) are its previous keys together with the
received ones, so that no created key disappears, and each deleted vector is
its previous contents followed by the received entries in their order. -/
theorem merge_received_resources_unions_and_concatenates (combine : Nat → Nat → Nat)
    (self : ResourceTracker)
    (created_regions : List (LogicalRegion × Nat))
    (deleted_regions : List DeletedRegion)
    (created_fields : List (FieldSpace × FieldID))
    (deleted_fields : List DeletedField)
    (created_field_spaces : List (FieldSpace × Nat))
    (latent_spaces : List (FieldSpace × List LogicalRegion))
    (deleted_field_spaces : List DeletedFieldSpace)
    (created_index_spaces : List (IndexSpace × Nat))
    (deleted_index_spaces : List DeletedIndexSpace)
    (created_partitions : List (IndexPartition × Nat))
    (deleted_partitions : List DeletedPartition) :
    (∀ r : LogicalRegion,
      r ∈ (self.merge_received_resources combine created_regions deleted_regions
          created_fields deleted_fields created_field_spaces latent_spaces
          deleted_field_spaces created_index_spaces deleted_index_spaces created_partitions
          deleted_partitions).created_regions.map Prod.fst ↔
        r ∈ self.created_regions.map Prod.fst ∨ r ∈ created_regions.map Prod.fst) ∧
    (∀ f : FieldSpace × FieldID,
      f ∈ (self.merge_received_resources combine created_regions deleted_regions
          created_fields deleted_fields created_field_spaces latent_spaces
          deleted_field_spaces created_index_spaces deleted_index_spaces created_partitions
          deleted_partitions).created_fields ↔
        f ∈ self.created_fields ∨ f ∈ created_fields) ∧
    (∀ s : FieldSpace,
      s ∈ (self.merge_received_resources combine created_regions deleted_regions
          created_fields deleted_fields created_field_spaces latent_spaces
          deleted_field_spaces created_index_spaces deleted_index_spaces created_partitions
          deleted_partitions).created_field_spaces.map Prod.fst ↔
        s ∈ self.created_field_spaces.map Prod.fst ∨ s ∈ created_field_spaces.map Prod.fst) ∧
    (∀ s : IndexSpace,
      s ∈ (self.merge_received_resources combine created_regions deleted_regions
          created_fields deleted_fields created_field_spaces latent_spaces
          deleted_field_spaces created_index_spaces deleted_index_spaces created_partitions
          deleted_partitions).created_index_spaces.map Prod.fst ↔
        s ∈ self.created_index_spaces.map Prod.fst ∨ s ∈ created_index_spaces.map Prod.fst) ∧
    (∀ q : IndexPartition,
      q ∈ (self.merge_received_resources combine created_regions deleted_regions
          created_fields deleted_fields created_field_spaces latent_spaces
          deleted_field_spaces created_index_spaces deleted_index_spaces created_partitions
          deleted_partitions).created_index_partitions.map Prod.fst ↔
        q ∈ self.created_index_partitions.map Prod.fst ∨
          q ∈ created_partitions.map Prod.fst) ∧
    (self.merge_received_resources combine created_regions deleted_regions
        created_fields deleted_fields created_field_spaces latent_spaces
        deleted_field_spaces created_index_spaces deleted_index_spaces created_partitions
        deleted_partitions).deleted_regions = self.deleted_regions ++ deleted_regions ∧
    (self.merge_received_resources combine created_regions deleted_regions
        created_fields deleted_fields created_field_spaces latent_spaces
        deleted_field_spaces created_index_spaces deleted_index_spaces created_partitions
        deleted_partitions).deleted_fields = self.deleted_fields ++ deleted_fields ∧
    (self.merge_received_resources combine created_regions deleted_regions
        created_fields deleted_fields created_field_spaces latent_spaces
        deleted_field_spaces created_index_spaces deleted_index_spaces created_partitions
        deleted_partitions).deleted_field_spaces
      = self.deleted_field_spaces ++ deleted_field_spaces ∧
    (self.merge_received_resources combine created_regions deleted_regions
        created_fields deleted_fields created_field_spaces latent_spaces
        deleted_field_spaces created_index_spaces deleted_index_spaces created_partitions
        deleted_partitions).deleted_index_spaces
      = self.deleted_index_spaces ++ deleted_index_spaces ∧
    (self.merge_received_resources combine created_regions deleted_regions
        created_fields deleted_fields created_field_spaces latent_spaces
        deleted_field_spaces created_index_spaces deleted_index_spaces created_partitions
        deleted_partitions).deleted_index_partitions
      = self.deleted_index_partitions ++ deleted_partitions := by
  refine ⟨?_, ?_, ?_, ?_, ?_, rfl, rfl, rfl, rfl, rfl⟩
  · intro r
    exact mem_keys_merge_created combine created_regions self.created_regions r
  · intro f
    exact mem_foldl_pair_set_insert created_fields self.created_fields f
  · intro s
    exact mem_keys_merge_created combine created_field_spaces self.created_field_spaces s
  · intro s
    exact mem_keys_merge_created combine created_index_spaces self.created_index_spaces s
  · intro q
    exact mem_keys_merge_created combine created_partitions self.created_index_partitions q

/-- A merge on a sample: the receiver that created region 2 and deleted region
7 is given a created region 5 and the deleted regions 7 and 9; the deleted
region 7 is then held twice, in the order received. -/
theorem merge_received_resources_sample :
    (sample_target.tracker.merge_received_resources (fun a b => a + b) [(5, 1), (2, 1)]
        [{ region := 7, provenance := none }, { region := 9, provenance := none }]
        [] [] [] [] [] [] [] [] []).created_regions = [(2, 2), (5, 1)] ∧
    (sample_target.tracker.merge_received_resources (fun a b => a + b) [(5, 1), (2, 1)]
        [{ region := 7, provenance := none }, { region := 9, provenance := none }]
        [] [] [] [] [] [] [] [] []).deleted_regions
      = [{ region := 7, provenance := none }, { region := 7, provenance := none },
          { region := 9, provenance := none }] := by
  decide

/-- Claim C12: a second `return_resources` with the same `return_index` changes
nothing in the target: every created and deleted collection of the target is
as the first call left it, so no entry is duplicated. -/
theorem return_resources_idempotent (combine : Nat → Nat → Nat) (self : ResourceTracker)
    (target : ReceivingTracker) (return_index : Nat) :
    self.return_resources combine (self.return_resources combine target return_index)
        return_index
      = self.return_resources combine target return_index ∧
    (self.return_resources combine (self.return_resources combine target return_index)
        return_index).tracker
      = (self.return_resources combine target return_index).tracker := by
  have h : self.return_resources combine (self.return_resources combine target return_index)
        return_index
      = self.return_resources combine target return_index := by
    unfold ResourceTracker.return_resources
    by_cases hr : self.has_return_resources = true
    · simp only [hr, if_true]
      unfold ReceivingTracker.receive_resources
      by_cases hi : return_index ∈ target.received_returns
      · simp only [hi, if_true]
      · simp only [hi, if_false]
        rw [if_pos ((mem_set_insert return_index return_index _).mpr (Or.inl rfl))]
    · simp only [hr]
      simp
  exact ⟨h, by rw [h]⟩

/-- A return on a sample: the first return under index 4 merges the created
region 5 and the deleted region 9 into the target, the second under the same
index leaves the target as it is, and a return under another index is merged
again. -/
theorem return_resources_sample :
    (sample_tracker.return_resources (fun a b => a + b) sample_target 4).tracker.deleted_regions
      = [{ region := 7, provenance := none }, { region := 9, provenance := none }] ∧
    (sample_tracker.return_resources (fun a b => a + b)
        (sample_tracker.return_resources (fun a b => a + b) sample_target 4)
        4).tracker.deleted_regions
      = [{ region := 7, provenance := none }, { region := 9, provenance := none }] ∧
    (sample_tracker.return_resources (fun a b => a + b)
        (sample_tracker.return_resources (fun a b => a + b) sample_target 4)
        5).tracker.deleted_regions
      = [{ region := 7, provenance := none }, { region := 9, provenance := none },
          { region := 9, provenance := none }] := by
  decide

/-! ## Rendezvous keys: equality and refinement -/

theorem RendezvousKey.eq_iff_fields (a b : RendezvousKey) :
    a.eq b = true ↔ a.region_index = b.region_index ∧ a.analysis = b.analysis := by
  unfold RendezvousKey.eq
  by_cases h1 : a.region_index = b.region_index
  · simp [h1]
  · simp [h1]

/-- Claim C23: the equality of `RendezvousKey` is the equivalence induced by
its order: `a == b` holds if and only if neither `a < b` nor `b < a`, which is
when `std::map` takes the two for the same key; and it holds exactly for keys
with the same two fields. -/
theorem rendezvous_key_eq_iff_incomparable (a b : RendezvousKey) :
    (a.eq b = true ↔ (a.lt b = false ∧ b.lt a = false)) ∧
    (a.eq b = true ↔ a = b) := by
  have he := RendezvousKey.eq_iff_fields a b
  have h1 := RendezvousKey.lt_eq_false_iff a b
  have h2 := RendezvousKey.lt_eq_false_iff b a
  refine ⟨?_, ?_⟩
  · rw [he, h1, h2]
    constructor
    · rintro ⟨hr, ha⟩
      constructor
      · rintro (h | ⟨_, h⟩) <;> omega
      · rintro (h | ⟨_, h⟩) <;> omega
    · rintro ⟨hab, hba⟩
      have hr : a.region_index = b.region_index := by
        rcases Nat.lt_trichotomy a.region_index b.region_index with h | h | h
        · exact absurd (Or.inl h) hab
        · exact h
        · exact absurd (Or.inl h) hba
      refine ⟨hr, ?_⟩
      rcases Nat.lt_trichotomy a.analysis b.analysis with h | h | h
      · exact absurd (Or.inr ⟨hr, h⟩) hab
      · exact h
      · exact absurd (Or.inr ⟨hr.symm, h⟩) hba
  · rw [he]
    constructor
    · rintro ⟨hr, ha⟩
      cases a; cases b
      simp only at hr ha
      rw [hr, ha]
    · intro h; rw [h]; exact ⟨rfl, rfl⟩

/-- A pending key that precedes another does not follow it on the shared
fields. -/
theorem PendingRendezvousKey.lt_shared (region_lt : LogicalRegion → LogicalRegion → Bool)
    (a b : PendingRendezvousKey) (h : a.lt region_lt b = true) :
    a.region_index < b.region_index ∨
      (a.region_index = b.region_index ∧ a.analysis ≤ b.analysis) := by
  rcases (PendingRendezvousKey.lt_iff_lexicographic region_lt a b).mp h with
    h1 | ⟨h1, h2 | ⟨h2, _⟩⟩
  · exact Or.inl h1
  · exact Or.inr ⟨h1, Nat.le_of_lt h2⟩
  · exact Or.inr ⟨h1, Nat.le_of_eq h2⟩

/-- Claim C24: the order of `PendingRendezvousKey` refines the order of
`RendezvousKey` on the shared fields.  A pending key that precedes another as
`RendezvousKey` precedes it as `PendingRendezvousKey`, and two pending keys that
are equal are equal as `RendezvousKey`; so in a sequence of pending keys in map
order, a key that lies between two keys of one `RendezvousKey` is of that
`RendezvousKey` too: the entries of one `RendezvousKey` are contiguous. -/
theorem pending_rendezvous_key_refines
    (region_lt region_eq : LogicalRegion → LogicalRegion → Bool)
    (a b : PendingRendezvousKey) (keys : List PendingRendezvousKey) :
    (a.toRendezvousKey.lt b.toRendezvousKey = true → a.lt region_lt b = true) ∧
    (a.eq region_eq b = true → a.toRendezvousKey.eq b.toRendezvousKey = true) ∧
    (List.Pairwise (fun x y => PendingRendezvousKey.lt region_lt x y = true) keys →
      ∀ (i j k : Nat) (x y z : PendingRendezvousKey) (key : RendezvousKey),
        i < j → j < k →
        keys[i]? = some x → keys[j]? = some y → keys[k]? = some z →
        x.toRendezvousKey.eq key = true → z.toRendezvousKey.eq key = true →
        y.toRendezvousKey.eq key = true) := by
  refine ⟨?_, ?_, ?_⟩
  · intro h
    rw [RendezvousKey.lt_iff] at h
    rw [PendingRendezvousKey.lt_iff_lexicographic]
    rcases h with h | ⟨h1, h2⟩
    · exact Or.inl h
    · exact Or.inr ⟨h1, Or.inl h2⟩
  · intro h
    rw [PendingRendezvousKey.eq_iff] at h
    rw [RendezvousKey.eq_iff_fields]
    exact ⟨h.1, h.2.1⟩
  · intro hsorted i j k x y z key hij hjk hx hy hz hxk hzk
    rw [List.pairwise_iff_getElem] at hsorted
    have hi := (List.getElem?_eq_some_iff.mp hx)
    have hj := (List.getElem?_eq_some_iff.mp hy)
    have hk := (List.getElem?_eq_some_iff.mp hz)
    rcases hi with ⟨hil, hix⟩
    rcases hj with ⟨hjl, hjy⟩
    rcases hk with ⟨hkl, hkz⟩
    have hxy := hsorted i j hil hjl hij
    have hyz := hsorted j k hjl hkl hjk
    rw [hix, hjy] at hxy
    rw [hjy, hkz] at hyz
    have h1 := PendingRendezvousKey.lt_shared region_lt x y hxy
    have h2 := PendingRendezvousKey.lt_shared region_lt y z hyz
    rw [RendezvousKey.eq_iff_fields] at hxk hzk ⊢
    have e1 : x.region_index = key.region_index := hxk.1
    have e2 : x.analysis = key.analysis := hxk.2
    have e3 : z.region_index = key.region_index := hzk.1
    have e4 : z.analysis = key.analysis := hzk.2
    constructor
    · show y.region_index = key.region_index
      omega
    · show y.analysis = key.analysis
      omega

/-- The refinement of claim C24 on a sample: the pending keys are in map order,
and the two keys of the rendezvous key (1, 0) are next to each other. -/
theorem sample_pending_keys_contiguous :
    List.Pairwise
      (fun x y => PendingRendezvousKey.lt (fun r s => decide (r < s)) x y = true)
      sample_pending_keys ∧
    sample_pending_keys.map
        (fun x => x.toRendezvousKey.eq { region_index := 1, analysis := 0 })
      = [false, true, true, false] := by
  refine ⟨?_, by decide⟩
  unfold sample_pending_keys
  decide

/-! ## Rect overloads of create_instance -/

/-- Claim C21: the `Rect` overloads of `RegionInstance::create_instance` are
equivalent to the index-space overloads: for the vector and for the map form of
the field sizes, the call with `rect` returns the same event and sets `inst` to
the same value as the call with `IndexSpace<N,T>(rect)` and the other arguments
unchanged. -/
theorem create_instance_rect_equivalent {Rect Space Constraints Layout Requests : Type}
    (api : InstanceLayoutInterface Space Constraints Layout Requests)
    (index_space_of_rect : Rect → Space)
    (inst : RegionInstance) (memory : Memory) (rect : Rect)
    (sizes_vector : List Nat) (sizes_map : List (FieldID × Nat))
    (block_size : Nat) (prs : Requests) (wait_on : Event) :
    (RegionInstance.create_instance_rect_vector api index_space_of_rect inst memory rect
        sizes_vector block_size prs wait_on).1
      = (RegionInstance.create_instance_vector api inst memory (index_space_of_rect rect)
          sizes_vector block_size prs wait_on).1 ∧
    (RegionInstance.create_instance_rect_vector api index_space_of_rect inst memory rect
        sizes_vector block_size prs wait_on).2
      = (RegionInstance.create_instance_vector api inst memory (index_space_of_rect rect)
          sizes_vector block_size prs wait_on).2 ∧
    (RegionInstance.create_instance_rect_map api index_space_of_rect inst memory rect
        sizes_map block_size prs wait_on).1
      = (RegionInstance.create_instance_map api inst memory (index_space_of_rect rect)
          sizes_map block_size prs wait_on).1 ∧
    (RegionInstance.create_instance_rect_map api index_space_of_rect inst memory rect
        sizes_map block_size prs wait_on).2
      = (RegionInstance.create_instance_map api inst memory (index_space_of_rect rect)
          sizes_map block_size prs wait_on).2 := by
  refine ⟨?_, ?_, ?_, ?_⟩
  · unfold RegionInstance.create_instance_rect_vector; rfl
  · unfold RegionInstance.create_instance_rect_vector; rfl
  · unfold RegionInstance.create_instance_rect_map; rfl
  · unfold RegionInstance.create_instance_rect_map; rfl

/-- The `Rect` overloads on a sample, a rectangle being a pair of bounds and its
index space their sum: the instance is made for the index space of the
rectangle, and the event is the one of the call on the layout. -/
theorem create_instance_rect_sample :
    RegionInstance.create_instance_rect_vector space_interface
        (fun r : Nat × Nat => r.1 + r.2) { id := 0 } 0 (3, 4) [4, 8] 7 0 5
      = (5, { id := 7 }) ∧
    RegionInstance.create_instance_rect_map space_interface
        (fun r : Nat × Nat => r.1 + r.2) { id := 0 } 0 (3, 4) [(0, 4)] 1 0 5
      = (5, { id := 7 }) := by
  decide

/-! ## Comparison of region instances -/

/-- Claim C28: the comparison of `RegionInstance` is a strict total order on
ids that agrees with equality: exactly one of `a < b`, `a == b`, `b < a` holds,
`a != b` is the negation of `a == b`, `operator<` is transitive, and
`a.exists()` is true if and only if the id of `a` is not 0. -/
theorem region_instance_strict_total_order (a b c : RegionInstance) :
    ((a.lt b = true ∧ a.eq b = false ∧ b.lt a = false) ∨
      (a.lt b = false ∧ a.eq b = true ∧ b.lt a = false) ∨
      (a.lt b = false ∧ a.eq b = false ∧ b.lt a = true)) ∧
    a.ne b = !a.eq b ∧
    (a.lt b = true → b.lt c = true → a.lt c = true) ∧
    (RegionInstance.exists a = true ↔ a.id ≠ 0) ∧
    (a.eq b = true ↔ a = b) := by
  refine ⟨?_, ?_, ?_, ?_, ?_⟩
  · simp only [RegionInstance.lt, RegionInstance.eq, decide_eq_true_eq, decide_eq_false_iff_not]
    omega
  · simp [RegionInstance.ne, RegionInstance.eq]
  · simp only [RegionInstance.lt, decide_eq_true_eq]
    omega
  · simp [RegionInstance.exists]
  · simp only [RegionInstance.eq, decide_eq_true_eq]
    constructor
    · intro h
      cases a; cases b
      simp only at h
      rw [h]
    · intro h; rw [h]

/-! ## Invalidation of physical trace templates -/

/-- Claim C25: `FenceOp::invalidates_physical_trace_template` returns true if
and only if the fence is an `EXECUTION_FENCE`, and leaves in `exec_fence` the
value it returns; a `MAPPING_FENCE` gives false with `exec_fence` false, whereas
the version of `Operation` returns true with `exec_fence` false. -/
theorem fence_invalidates_physical_trace_template (fence : FenceOp) (op : Operation)
    (exec_fence : Bool) :
    ((fence.invalidates_physical_trace_template exec_fence).1 = true ↔
      fence.fence_kind = FenceKind.EXECUTION_FENCE) ∧
    (fence.invalidates_physical_trace_template exec_fence).2
      = (fence.invalidates_physical_trace_template exec_fence).1 ∧
    (fence.fence_kind = FenceKind.MAPPING_FENCE →
      fence.invalidates_physical_trace_template exec_fence = (false, false)) ∧
    op.invalidates_physical_trace_template exec_fence = (true, false) := by
  refine ⟨?_, rfl, ?_, rfl⟩
  · simp [FenceOp.invalidates_physical_trace_template]
  · intro h
    simp [FenceOp.invalidates_physical_trace_template, h]

/-- Claim C26, counterexample: the body of `TimingOp` returns without assigning
`exec_fence`, so two calls that start from different values of `exec_fence`
leave different values in it. -/
theorem timing_op_keeps_exec_fence :
    (TraceTemplateReceiver.invalidates_physical_trace_template
        TraceTemplateReceiver.timing_op true).2
      ≠ (TraceTemplateReceiver.invalidates_physical_trace_template
        TraceTemplateReceiver.timing_op false).2 := by
  decide

/-- Claim C26, amended: for every body of `invalidates_physical_trace_template`
defined in the header, the returned value does not depend on the value of
`exec_fence` before the call.  The bodies of `Operation` and `FenceOp` assign
`exec_fence`, whose value after the call then does not depend on its value
before; the bodies of `PredicateImpl`, `TimingOp`, `TunableOp` and `AllReduceOp`
return false and leave `exec_fence` as it was. -/
theorem invalidates_physical_trace_template_result_independent
    (receiver : TraceTemplateReceiver) (before other : Bool) :
    (receiver.invalidates_physical_trace_template before).1
      = (receiver.invalidates_physical_trace_template other).1 ∧
    (receiver.assigns_exec_fence = true →
      (receiver.invalidates_physical_trace_template before).2
        = (receiver.invalidates_physical_trace_template other).2) ∧
    (receiver.assigns_exec_fence = false →
      (receiver.invalidates_physical_trace_template before).1 = false ∧
      (receiver.invalidates_physical_trace_template before).2 = before) := by
  cases receiver with
  | operation op => exact ⟨rfl, fun _ => rfl, fun h => by cases h⟩
  | predicate_impl pred => exact ⟨rfl, fun h => (by cases h), fun _ => ⟨rfl, rfl⟩⟩
  | fence_op fence => exact ⟨rfl, fun _ => rfl, fun h => by cases h⟩
  | timing_op => exact ⟨rfl, fun h => (by cases h), fun _ => ⟨rfl, rfl⟩⟩
  | tunable_op => exact ⟨rfl, fun h => (by cases h), fun _ => ⟨rfl, rfl⟩⟩
  | all_reduce_op => exact ⟨rfl, fun h => (by cases h), fun _ => ⟨rfl, rfl⟩⟩

/-! ## String constructors of AutoProvenance -/

/-- Claim C27, counterexample: for the empty string the two constructors
differ: given a non-null pointer to an empty C string, the one from `const
char*` holds a new `Provenance`, while the one from `std::string` holds null. -/
theorem auto_provenance_empty_string_differs :
    (AutoProvenance.of_c_string (fun _ => none) 1 (some [])).1.provenance = some 1 ∧
    (AutoProvenance.of_c_string (fun _ => none) 1 (some [])).2 1
      = some { human := [], machine := [], references := 1 } ∧
    (AutoProvenance.of_string (fun _ => none) 1 []).1.provenance = none := by
  decide

/-- Claim C27, amended: for every non-empty string content the two string
constructors of `AutoProvenance` agree: both hold the pointer to a new
`Provenance` built from the string, which holds one reference.  For the empty
string the constructor from `std::string` holds null and allocates nothing,
whereas the one from `const char*`, given a non-null pointer to an empty C
string, holds a new `Provenance` built from the empty string; it holds null for
a null pointer. -/
theorem auto_provenance_string_constructors (heap : ProvenanceHeap) (fresh : Nat)
    (s : CppString) :
    (s ≠ [] →
      AutoProvenance.of_c_string heap fresh (some s) = AutoProvenance.of_string heap fresh s ∧
      (AutoProvenance.of_string heap fresh s).1.provenance = some fresh ∧
      (AutoProvenance.of_string heap fresh s).2 fresh
        = some { Provenance.initialize s with references := 1 }) ∧
    (AutoProvenance.of_string heap fresh []).1.provenance = none ∧
    (AutoProvenance.of_string heap fresh []).2 = heap ∧
    (AutoProvenance.of_c_string heap fresh (some [])).1.provenance = some fresh ∧
    (AutoProvenance.of_c_string heap fresh (some [])).2 fresh
      = some { Provenance.initialize [] with references := 1 } ∧
    (AutoProvenance.of_c_string heap fresh none).1.provenance = none ∧
    (AutoProvenance.of_c_string heap fresh none).2 = heap := by
  refine ⟨?_, rfl, rfl, rfl, ?_, rfl, rfl⟩
  · intro hs
    have hne : s.isEmpty = false := by
      cases s with
      | nil => exact absurd rfl hs
      | cons c cs => rfl
    refine ⟨?_, ?_, ?_⟩
    · simp [AutoProvenance.of_c_string, AutoProvenance.of_string, hne,
        Provenance.of_c_string, Provenance.of_string]
    · simp [AutoProvenance.of_string, hne, ProvenanceHeap.new, AutoProvenance.of_pointer]
    · simp [AutoProvenance.of_string, hne, ProvenanceHeap.new, AutoProvenance.of_pointer,
        ProvenanceHeap.set, Provenance.add_reference, Provenance.of_string]
      rfl
  · simp [AutoProvenance.of_c_string, ProvenanceHeap.new, AutoProvenance.of_pointer,
      ProvenanceHeap.set, Provenance.add_reference, Provenance.of_c_string]
    rfl

/-- The two string constructors on the string "hi$m": both hold the pointer to
a new `Provenance` with the human part "hi" and the machine part "m". -/
theorem auto_provenance_string_constructors_sample :
    (AutoProvenance.of_c_string (fun _ => none) 1 (some [104, 105, 36, 109])).1.provenance
      = some 1 ∧
    (AutoProvenance.of_string (fun _ => none) 1 [104, 105, 36, 109]).1.provenance = some 1 ∧
    (AutoProvenance.of_c_string (fun _ => none) 1 (some [104, 105, 36, 109])).2 1
      = some { human := [104, 105], machine := [109], references := 1 } ∧
    (AutoProvenance.of_string (fun _ => none) 1 [104, 105, 36, 109]).2 1
      = some { human := [104, 105], machine := [109], references := 1 } := by
  decide

end Legion
